import Mathlib

/-!
Verification development for the planets repository: a shallow embedding of
`src/octree.rs` (spatial index) and `src/chunk_storage.rs` (chunk lifecycle),
with theorems settling the frozen specification claims.

Modelling conventions:
* `f32` values are embedded as rationals (`ℚ`).  The source only compares,
  adds, subtracts, halves and squares coordinates, which is exact on `ℚ`.
  The single exception is `distance_squared(..).powf(1.5)` in
  `get_chunk_indices`; a comparison `dsq^(3/2) ⋈ r` of nonnegative reals is
  encoded by the equivalent rational comparison `dsq^3 ⋈ r^2` (guarded on the
  sign of `r`), see `cmpDistGe` / `cmpDistGt`.
* Rust's `f32::signum` maps `+0.0` to `1.0`; `sgnQ` mirrors that on `ℚ`
  (no negative zero exists in `ℚ`).
* The Rust field `children: Box<[Option<Octree>; 8]>` is embedded as eight
  child fields where the dedicated constructor `Octree.absent` stands for a
  `None` slot (an empty slot, exactly `Option`'s `None`, kept un-nested so
  that recursion over the tree is structural).
* `Octree::insert` is recursive with no structural termination measure (and
  indeed diverges on coincident points), so it is embedded with an explicit
  fuel parameter; `none` means the recursion of the source program has not
  finished within `fuel` nested calls.  The `while` loop of
  `get_chunk_indices` takes fuel likewise.
-/

/-- 3-component vector over `ℚ`, standing for bevy's `Vec3`. -/
structure V3 where
  x : ℚ
  y : ℚ
  z : ℚ
deriving DecidableEq, Repr

def V3.sub (a b : V3) : V3 := ⟨a.x - b.x, a.y - b.y, a.z - b.z⟩

def V3.add (a b : V3) : V3 := ⟨a.x + b.x, a.y + b.y, a.z + b.z⟩

def V3.smul (a : V3) (k : ℚ) : V3 := ⟨a.x * k, a.y * k, a.z * k⟩

/-- Rust `f32::signum` on a rational: `+1` for nonnegative input (Rust maps
`+0.0` to `1.0`), `-1` for negative input.  `ℚ` has no NaN and no `-0.0`. -/
def sgnQ (q : ℚ) : ℚ := if q < 0 then -1 else 1

/-- Componentwise `Vec3::signum`. -/
def V3.signum (a : V3) : V3 := ⟨sgnQ a.x, sgnQ a.y, sgnQ a.z⟩

/-- `Vec3::distance_squared`. -/
def V3.distSq (a b : V3) : ℚ :=
  (a.x - b.x) ^ 2 + (a.y - b.y) ^ 2 + (a.z - b.z) ^ 2

def clampQ (v lo hi : ℚ) : ℚ := min (max v lo) hi

/-- `target.clamp(center - Vec3::splat(bounds), center + Vec3::splat(bounds))`:
componentwise clamp of `v` into the cube of half-width `b` around `c`. -/
def V3.clampBox (v c : V3) (b : ℚ) : V3 :=
  ⟨clampQ v.x (c.x - b) (c.x + b),
   clampQ v.y (c.y - b) (c.y + b),
   clampQ v.z (c.z - b) (c.z + b)⟩

/-- `octree.rs` `Point`: a 3D position plus an opaque cell id payload. -/
structure Point where
  position : V3
  value : Nat
deriving DecidableEq, Repr

/-- `octree.rs` `Octree`.  A Rust `Octree` value is a `mk` node whose eight
child slots `c0 .. c7` are either `absent` (the slot holds `None`) or another
`mk` node (the slot holds `Some(child)`); the remaining fields follow the
Rust struct in order.  `octree_index` is the `Vec<u8>` region identifier
(bytes as `Nat`). -/
inductive Octree : Type where
  | absent
  | mk
      (c0 c1 c2 c3 c4 c5 c6 c7 : Octree)
      (center : V3)
      (points : Option (List Point))
      (capacity : Nat)
      (bounds : ℚ)
      (height : Nat)
      (depth : Nat)
      (octree_index : List Nat)
deriving DecidableEq, Repr

/-- Is this child slot empty (`Option::is_none`)? -/
def Octree.isAbsent : Octree → Bool
  | .absent => true
  | _ => false

def Octree.center : Octree → V3
  | .absent => ⟨0, 0, 0⟩
  | .mk _ _ _ _ _ _ _ _ ce _ _ _ _ _ _ => ce

def Octree.points : Octree → Option (List Point)
  | .absent => none
  | .mk _ _ _ _ _ _ _ _ _ pts _ _ _ _ _ => pts

def Octree.capacity : Octree → Nat
  | .absent => 0
  | .mk _ _ _ _ _ _ _ _ _ _ cap _ _ _ _ => cap

def Octree.bounds : Octree → ℚ
  | .absent => 0
  | .mk _ _ _ _ _ _ _ _ _ _ _ bo _ _ _ => bo

def Octree.height : Octree → Nat
  | .absent => 0
  | .mk _ _ _ _ _ _ _ _ _ _ _ _ he _ _ => he

def Octree.depth : Octree → Nat
  | .absent => 0
  | .mk _ _ _ _ _ _ _ _ _ _ _ _ _ de _ => de

def Octree.octree_index : Octree → List Nat
  | .absent => []
  | .mk _ _ _ _ _ _ _ _ _ _ _ _ _ _ oi => oi

/-- The eight child slots in order, as a list (empty for `absent`). -/
def Octree.childrenList : Octree → List Octree
  | .absent => []
  | .mk a b c d e f g h _ _ _ _ _ _ _ => [a, b, c, d, e, f, g, h]

/-- `self.children[i]` (reads out of range yield an empty slot; the source
only ever indexes with values below 8 except in `get_cells_for_index`, where
the possible panic is modelled separately). -/
def Octree.child (t : Octree) (i : Nat) : Octree :=
  t.childrenList.getD i .absent

def Octree.setPoints : Octree → Option (List Point) → Octree
  | .absent, _ => .absent
  | .mk a b c d e f g h ce _ cap bo he de oi, pts =>
      .mk a b c d e f g h ce pts cap bo he de oi

def Octree.setHeight : Octree → Nat → Octree
  | .absent, _ => .absent
  | .mk a b c d e f g h ce pts cap bo _ de oi, he =>
      .mk a b c d e f g h ce pts cap bo he de oi

def Octree.setChild : Octree → Nat → Octree → Octree
  | .absent, _, _ => .absent
  | .mk a b c d e f g h ce pts cap bo he de oi, i, x =>
      match i with
      | 0 => .mk x b c d e f g h ce pts cap bo he de oi
      | 1 => .mk a x c d e f g h ce pts cap bo he de oi
      | 2 => .mk a b x d e f g h ce pts cap bo he de oi
      | 3 => .mk a b c x e f g h ce pts cap bo he de oi
      | 4 => .mk a b c d x f g h ce pts cap bo he de oi
      | 5 => .mk a b c d e x g h ce pts cap bo he de oi
      | 6 => .mk a b c d e f x h ce pts cap bo he de oi
      | 7 => .mk a b c d e f g x ce pts cap bo he de oi
      | _ => .mk a b c d e f g h ce pts cap bo he de oi

/-- `Octree::new`: empty node, `points = Some(vec![])`, no children,
`height = 0`. -/
def Octree.new (capacity : Nat) (center : V3) (bounds : ℚ) (depth : Nat)
    (octree_index : List Nat) : Octree :=
  .mk .absent .absent .absent .absent .absent .absent .absent .absent center
    (some []) capacity bounds 0 depth octree_index

/-- `Octree::pos_to_child`: the three sign bits of `pos - center` packed as
`x + 2y + 4z`.  The source computes `signum`, maps `{-1, 1}` to `{0, 1}` via
`(d + 1) / 2` and casts the sum to `usize`; the sum is a whole number in
`0..8`, so the cast is the numerator. -/
def Octree.pos_to_child (t : Octree) (pos : V3) : Nat :=
  let d := (pos.sub t.center).signum
  let dx := (d.x + 1) / 2
  let dy := (d.y + 1) / 2
  let dz := (d.z + 1) / 2
  (1 * dx + 2 * dy + 4 * dz).num.toNat

/-- `self.height = self.height.max(child.height + 1)` folded over all present
children (the loop at the end of `Octree::insert`). -/
def Octree.updateHeight (t : Octree) : Octree :=
  t.setHeight (t.childrenList.foldl
    (fun h c => if c.isAbsent then h else max h (c.height + 1))
    t.height)

/-- The lazy child creation step of `Octree::insert`: if the slot picked by
`pos_to_child` is empty, fill it with a fresh node whose center is offset by
`signum(point - center) * bounds / 2`, with halved bounds, incremented depth
and the extended region identifier. -/
def Octree.insChild (t : Octree) (p : Point) : Octree :=
  let i := t.pos_to_child p.position
  if (t.child i).isAbsent then
    t.setChild i (Octree.new t.capacity
      (t.center.add (((p.position.sub t.center).signum).smul (t.bounds / 2)))
      (t.bounds / 2) (t.depth + 1) (t.octree_index ++ [i]))
  else t

/-- `Octree::insert`, fuel-indexed.  `none` means the recursion of the source
program has not finished within `fuel` nested calls.  Faithful to the source:
a bag is appended to while `len <= capacity`; otherwise the point goes into
the (lazily created, see `insChild`) child picked by `pos_to_child` — the
`if let Some(ot)` of the source keeps the node unchanged if the slot were
somehow still empty — then a still-present bag is drained and re-inserted
through `self`, and finally `height` is updated from the children. -/
def Octree.insert : Nat → Octree → Point → Option Octree
  | 0, _, _ => none
  | fuel + 1, t, p =>
    if t.points.isSome && decide ((t.points.getD []).length ≤ t.capacity) then
      some (t.setPoints (some ((t.points.getD []) ++ [p])))
    else
      let i := t.pos_to_child p.position
      let t1 := t.insChild p
      let t2opt :=
        if (t1.child i).isAbsent then some t1
        else (Octree.insert fuel (t1.child i) p).map (fun c2 => t1.setChild i c2)
      t2opt.bind (fun t2 =>
        (match t2.points with
         | none => some t2
         | some ps =>
             List.foldlM (fun acc q => Octree.insert fuel acc q)
               (t2.setPoints none) ps).map Octree.updateHeight)

/-- Insert a list of points in order (the seeding loop of `Body::new`). -/
def Octree.insertAll (fuel : Nat) (t : Octree) (ps : List Point) :
    Option Octree :=
  List.foldlM (fun acc q => Octree.insert fuel acc q) t ps

/-- `Octree::insert` terminates on this input: some recursion depth
suffices. -/
def Octree.InsertTerminates (t : Octree) (p : Point) : Prop :=
  ∃ fuel t2, Octree.insert fuel t p = some t2

/-- `Octree::cells`: payload values of the direct bag if present, otherwise
the concatenation over present children in slot order (an `absent` slot
contributes nothing). -/
def Octree.cells : Octree → List Nat
  | .absent => []
  | .mk a b c d e f g h _ pts _ _ _ _ _ =>
    match pts with
    | some ps => ps.map Point.value
    | none =>
        a.cells ++ b.cells ++ c.cells ++ d.cells ++ e.cells ++ f.cells
          ++ g.cells ++ h.cells

/-- Encodes the comparison `dsq^(3/2) ≥ r` (the source compares
`distance_squared(..).powf(1.5)`, i.e. the cube of the distance, against
`r`).  For `r < 0` the nonnegative left side always wins; for `r ≥ 0` both
sides are nonnegative and the comparison may be squared: `dsq^3 ≥ r^2`. -/
def cmpDistGe (dsq r : ℚ) : Bool :=
  if r < 0 then true else decide (r ^ 2 ≤ dsq ^ 3)

/-- Encodes the strict comparison `dsq^(3/2) > r`, same scheme as
`cmpDistGe`. -/
def cmpDistGt (dsq r : ℚ) : Bool :=
  if r < 0 then true else decide (r ^ 2 < dsq ^ 3)

/-- The `while dist >= (desired_height as f32 + 0.1) * multiplier` loop of
`get_chunk_indices`, fuel-indexed (the source loop terminates whenever
`multiplier > 0`, which holds at every constructed node). -/
def desiredHeightLoop : Nat → Nat → ℚ → ℚ → Nat
  | 0, dh, _, _ => dh
  | fuel + 1, dh, dsq, mult =>
      if cmpDistGe dsq (((dh : ℚ) + 1 / 10) * mult) then
        desiredHeightLoop fuel (dh + 1) dsq mult
      else dh

/-- `Octree::get_chunk_indices` (the one-argument version defined in
`octree.rs`): per node, compute a desired height from the cubed distance of
the target to the node cube scaled by `bounds / max(height, 1)`; cull the
node entirely when that cubed distance exceeds `0.9`; emit the node's own
region identifier when `desired_height >= height`; otherwise recurse into
all present children (`children.iter().flatten()`). -/
def Octree.get_chunk_indices (fuel : Nat) : Octree → V3 → List (List Nat)
  | .absent, _ => []
  | .mk a b c d e f g h ce _ _ bo he _ oi, target =>
    let mult := (1 / (max he 1 : ℚ)) * bo
    let projected := target.clampBox ce bo
    let dsq := projected.distSq target
    let dh := desiredHeightLoop fuel 0 dsq mult
    if cmpDistGt dsq (9 / 10) then []
    else if he ≤ dh then [oi]
    else
      a.get_chunk_indices fuel target ++ b.get_chunk_indices fuel target
        ++ c.get_chunk_indices fuel target ++ d.get_chunk_indices fuel target
        ++ e.get_chunk_indices fuel target ++ f.get_chunk_indices fuel target
        ++ g.get_chunk_indices fuel target ++ h.get_chunk_indices fuel target

/-- Result of `Octree::get_cells_for_index`: `found`/`notFound` are the
`Some`/`None` of the source; `oob` models the index-out-of-bounds panic of
`self.children[next_child]` when the path byte at the branch point is 8 or
larger. -/
inductive LookupRes : Type where
  | oob
  | notFound
  | found (cs : List Nat)
deriving DecidableEq, Repr

/-- `Octree::get_cells_for_index`: exact match returns the subtree's cells;
a strictly longer path with matching front descends into the child named by
the next byte (panicking — `oob` — when that byte is not a valid slot, and
returning not-found when the slot is empty, which the `absent` equation
covers); anything else is not-found. -/
def Octree.get_cells_for_index : Octree → List Nat → LookupRes
  | .absent, _ => .notFound
  | .mk a b c d e f g h ce pts cap bo he de oi, path =>
    if oi = path then
      .found (Octree.cells (.mk a b c d e f g h ce pts cap bo he de oi))
    else if oi.isPrefixOf path && decide (oi.length < path.length) then
      match path.getD oi.length 0 with
      | 0 => a.get_cells_for_index path
      | 1 => b.get_cells_for_index path
      | 2 => c.get_cells_for_index path
      | 3 => d.get_cells_for_index path
      | 4 => e.get_cells_for_index path
      | 5 => f.get_cells_for_index path
      | 6 => g.get_cells_for_index path
      | 7 => h.get_cells_for_index path
      | _ => .oob
    else .notFound

/-- Materialize the cells a chunk identifier stands for, as callers do
(`get_cells_for_index` from the root; absent regions contribute nothing). -/
def lookupCells (t : Octree) (idx : List Nat) : List Nat :=
  match t.get_cells_for_index idx with
  | .found cs => cs
  | _ => []

/-- The union (as a concatenated list) of `cells()` over all identifiers
returned by `get_chunk_indices`. -/
def Octree.gatheredCells (fuel : Nat) (t : Octree) (target : V3) : List Nat :=
  ((t.get_chunk_indices fuel target).map (lookupCells t)).flatten

/-- Bag-size invariant: every direct bag in the subtree holds at most
`capacity + 1` points. -/
def Octree.bagLe : Octree → Bool
  | .absent => true
  | .mk a b c d e f g h _ pts cap _ _ _ _ =>
    (match pts with
     | some ps => decide (ps.length ≤ cap + 1)
     | none => true)
      && a.bagLe && b.bagLe && c.bagLe && d.bagLe && e.bagLe && f.bagLe
      && g.bagLe && h.bagLe

/-- Router invariant: a node that still holds a direct bag has no children
(equivalently, a node with any child holds no direct bag), throughout the
subtree. -/
def Octree.routerInv : Octree → Bool
  | .absent => true
  | .mk a b c d e f g h _ pts _ _ _ _ _ =>
    (match pts with
     | some _ =>
         a.isAbsent && b.isAbsent && c.isAbsent && d.isAbsent && e.isAbsent
           && f.isAbsent && g.isAbsent && h.isAbsent
     | none => true)
      && a.routerInv && b.routerInv && c.routerInv && d.routerInv
      && e.routerInv && f.routerInv && g.routerInv && h.routerInv

/-- Child-slot helper for `idxOk`: an absent slot is fine, a present child in
slot `i` must carry the parent identifier extended by `i` and satisfy the
invariant itself. -/
def Octree.idxOkSlot (oi : List Nat) (i : Nat) (rec : Bool) : Octree → Bool
  | .absent => true
  | t => decide (t.octree_index = oi ++ [i]) && rec

/-- Identifier invariant: the child in slot `i` carries the parent's region
identifier extended by the byte `i`, throughout the subtree. -/
def Octree.idxOk : Octree → Bool
  | .absent => true
  | .mk a b c d e f g h _ _ _ _ _ _ oi =>
    Octree.idxOkSlot oi 0 a.idxOk a && Octree.idxOkSlot oi 1 b.idxOk b
      && Octree.idxOkSlot oi 2 c.idxOk c && Octree.idxOkSlot oi 3 d.idxOk d
      && Octree.idxOkSlot oi 4 e.idxOk e && Octree.idxOkSlot oi 5 f.idxOk f
      && Octree.idxOkSlot oi 6 g.idxOk g && Octree.idxOkSlot oi 7 h.idxOk h

/-!
Embedding of the chunk lifecycle of `chunk_storage.rs`.

The bevy ECS world is modelled for a single `Body` (the program spawns one):
`World` carries the `POV` component (position and field of view), the body's
`ChunkRefs` and `ChunkStorage` maps (`BTreeMap`s, embedded as association
lists; the claims settled here do not depend on the sorted iteration order of
a `BTreeMap`, so set iteration is taken in list order), and the chunk
entities with the components the claims mention: `Chunk::index`, `NeedsMesh`,
`GeneratingMesh` (presence only), `AwaitingDeletion` (with its recorded
dependents payload) and `Mesh3d` (presence only).  Entity ids are `Nat`,
allocated from `nextId` as bevy's `Commands::spawn().id()` does.

Bevy `Commands` are deferred to the end of a system; inside
`calculate_povs` no command result is read back, so they are applied in
place, and in `despawn_chunks` the `has_mesh` / entity-liveness queries read
the pre-cycle world while the direct `ChunkRefs` / `ChunkStorage` mutations
are threaded through the iteration, exactly as in the source.

The needed-index computation (the source calls a three-argument
`octree.get_chunk_indices(cell_count, dir, fov.sqrt())` whose definition is
not part of `octree.rs`) is abstracted as a function parameter `neededOf`
from the POV data to the list of needed identifiers, deterministic as in the
source.
-/

namespace Chunks

abbrev ChunkIndex := List Nat

/-- `ChunkRef`: `Active(Entity)` or `Cleanup(Entity)`. -/
inductive ChunkRef : Type where
  | active (e : Nat)
  | cleanup (e : Nat)
deriving DecidableEq, Repr

def ChunkRef.entity : ChunkRef → Nat
  | .active e => e
  | .cleanup e => e

/-- Components of one chunk entity. -/
structure Ent where
  index : ChunkIndex
  needsMesh : Bool
  generating : Bool
  awaiting : Option (List ChunkIndex)
  hasMesh : Bool
deriving DecidableEq, Repr

/-- The single-body world state. -/
structure World where
  povPos : V3
  povFov : ℚ
  nextId : Nat
  ents : List (Nat × Ent)
  chunkRefs : List (ChunkIndex × ChunkRef)
  storage : List ChunkIndex
deriving DecidableEq, Repr

/-- Association-list lookup (first matching key). -/
def lookupA {α β : Type} [DecidableEq α] : List (α × β) → α → Option β
  | [], _ => none
  | (k, v) :: rest, a => if k = a then some v else lookupA rest a

/-- Association-list insert-or-replace (`BTreeMap::insert`). -/
def upsertA {α β : Type} [DecidableEq α] : List (α × β) → α → β → List (α × β)
  | [], a, b => [(a, b)]
  | (k, v) :: rest, a, b =>
      if k = a then (a, b) :: rest else (k, v) :: upsertA rest a b

/-- Association-list removal (`BTreeMap::remove`). -/
def removeA {α β : Type} [DecidableEq α] (m : List (α × β)) (a : α) :
    List (α × β) :=
  m.filter (fun kv => decide (kv.1 ≠ a))

def World.getEnt (w : World) (e : Nat) : Option Ent := lookupA w.ents e

/-- Apply a component update to entity `e` (bevy entity commands). -/
def World.updEnt (w : World) (e : Nat) (f : Ent → Ent) : World :=
  { w with ents := w.ents.map (fun p => if p.1 = e then (p.1, f p.2) else p) }

/-- One iteration of the first loop of `calculate_povs`: resolve or spawn the
chunk entity for a needed identifier — an `Active` entry is kept, a `Cleanup`
entry has its entity's `AwaitingDeletion` and `GeneratingMesh` removed and
`NeedsMesh` inserted, an absent entry spawns a fresh chunk entity with
`NeedsMesh` — and re-insert the identifier as `Active(entity)`. -/
def processNeeded (w : World) (idx : ChunkIndex) : World :=
  match lookupA w.chunkRefs idx with
  | some (.active e) => { w with chunkRefs := upsertA w.chunkRefs idx (.active e) }
  | some (.cleanup e) =>
      let w2 := w.updEnt e (fun en =>
        { en with awaiting := none, generating := false, needsMesh := true })
      { w2 with chunkRefs := upsertA w2.chunkRefs idx (.active e) }
  | none =>
      let e := w.nextId
      { w with
        nextId := e + 1
        ents := w.ents ++ [(e,
          { index := idx, needsMesh := true, generating := false,
            awaiting := none, hasMesh := false })]
        chunkRefs := upsertA w.chunkRefs idx (.active e) }

/-- Dependents recorded for an obsolete identifier (entry of the `replacing`
map), empty when absent (`unwrap_or_default`). -/
def getRep (m : List (ChunkIndex × List ChunkIndex)) (k : ChunkIndex) :
    List ChunkIndex :=
  (lookupA m k).getD []

/-- `replacing.entry(k).or_insert_with(Vec::new).push(v)`. -/
def pushRep (m : List (ChunkIndex × List ChunkIndex)) (k v : ChunkIndex) :
    List (ChunkIndex × List ChunkIndex) :=
  upsertA m k (getRep m k ++ [v])

/-- The strict front-segments of `idx` from longest to shortest:
`for i in (0..idx.len()).rev() { idx[0..i] }`. -/
def strictParents (idx : ChunkIndex) : List ChunkIndex :=
  (List.range idx.length).reverse.map (fun i => idx.take i)

/-- The `replacing` map of `calculate_povs`: first, every needed identifier
is pushed onto the entry of each of its obsolete strict front-segments; then
every obsolete identifier with a needed strict front-segment gets the longest
such segment pushed onto its own entry (the `break` keeps only the first,
i.e. longest, hit). -/
def buildReplacing (needed obsolete : List ChunkIndex) :
    List (ChunkIndex × List ChunkIndex) :=
  let m1 := needed.foldl
    (fun m idx => (strictParents idx).foldl
      (fun m2 par => if par ∈ obsolete then pushRep m2 par idx else m2) m)
    []
  obsolete.foldl
    (fun m idx =>
      match (strictParents idx).find? (fun par => decide (par ∈ needed)) with
      | some par => pushRep m idx par
      | none => m)
    m1

/-- One iteration of the obsolete loop of `calculate_povs`.  `none` models
the `todo!()` panic of the `None` match arm. -/
def processObsolete1 (st : World × List (ChunkIndex × List ChunkIndex))
    (idx : ChunkIndex) :
    Option (World × List (ChunkIndex × List ChunkIndex)) :=
  match lookupA st.1.chunkRefs idx with
  | some (.active e) =>
      let deps := getRep st.2 idx
      let w2 := { st.1 with chunkRefs := upsertA st.1.chunkRefs idx (.cleanup e) }
      let w3 := w2.updEnt e (fun en =>
        { en with awaiting := some deps, needsMesh := false, generating := false })
      some (w3, removeA st.2 idx)
  | some (.cleanup e) =>
      let deps := getRep st.2 idx
      let w2 := st.1.updEnt e (fun en =>
        { en with awaiting := some deps, needsMesh := false, generating := false })
      some (w2, removeA st.2 idx)
  | none => none

/-- The body of `calculate_povs` past the epsilon guard: update the stored
POV, resolve/spawn all needed chunks, then move every obsolete identifier
(an existing key not in the needed set) to `Cleanup` carrying its recorded
dependents.  `none` models reaching the `todo!()` panic. -/
def recompute (neededOf : V3 → ℚ → List ChunkIndex) (cam : V3) (fov : ℚ)
    (w : World) : Option World :=
  let w1 := { w with povPos := cam, povFov := fov }
  let needed := neededOf cam fov
  let existing := w1.chunkRefs.map Prod.fst
  let w2 := needed.foldl processNeeded w1
  let obsolete := existing.filter (fun k => decide (k ∉ needed))
  let rep := buildReplacing needed obsolete
  (List.foldlM processObsolete1 (w2, rep) obsolete).map Prod.fst

/-- `calculate_povs`: skip everything when both the squared camera movement
and the field-of-view delta are below `0.0001`, otherwise recompute. -/
def calculatePovs (neededOf : V3 → ℚ → List ChunkIndex) (cam : V3) (fov : ℚ)
    (w : World) : Option World :=
  if w.povPos.distSq cam < 1 / 10000 ∧ |w.povFov - fov| < 1 / 10000 then
    some w
  else recompute neededOf cam fov w

/-- The dependent check of `despawn_chunks` for one recorded identifier,
against the threaded `ChunkRefs` map: satisfied when the identifier has no
entry, or its entity no longer exists (`has_mesh.get` errs), or that entity
has a `Mesh3d`; unsatisfied exactly when the entity exists without a mesh
(`Ok(None)`). -/
def depSatisfied (w : World) (refs : List (ChunkIndex × ChunkRef))
    (idx : ChunkIndex) : Bool :=
  match lookupA refs idx with
  | none => true
  | some r =>
      match w.getEnt r.entity with
      | none => true
      | some en => en.hasMesh

/-- State threaded through the `despawn_chunks` iteration: the directly
mutated `ChunkRefs` and `ChunkStorage`, plus the deferred despawn list. -/
structure DespawnSt where
  refs : List (ChunkIndex × ChunkRef)
  storage : List ChunkIndex
  dead : List Nat
deriving DecidableEq, Repr

/-- One iteration of `despawn_chunks` over a queried chunk entity (the query
matches exactly the entities carrying `AwaitingDeletion`): if every recorded
dependent is satisfied, remove the chunk's `ChunkRefs` and `ChunkStorage`
entries and schedule the entity despawn. -/
def despawnStep (w : World) (st : DespawnSt) (p : Nat × Ent) : DespawnSt :=
  match p.2.awaiting with
  | none => st
  | some pending =>
      if pending.all (fun idx => depSatisfied w st.refs idx) then
        { refs := removeA st.refs p.2.index
          storage := st.storage.filter (fun k => decide (k ≠ p.2.index))
          dead := st.dead ++ [p.1] }
      else st

/-- `despawn_chunks`: iterate over all chunk entities awaiting deletion,
then apply the deferred despawns. -/
def despawnChunks (w : World) : World :=
  let st := w.ents.foldl (despawnStep w) ⟨w.chunkRefs, w.storage, []⟩
  { w with
    chunkRefs := st.refs
    storage := st.storage
    ents := w.ents.filter (fun p => decide (p.1 ∉ st.dead)) }

end Chunks

/-! Concrete inputs used by counterexamples and witnesses. -/

/-- A fresh capacity-0 octree over the unit cube at the origin. -/
def oct0 : Octree := Octree.new 0 ⟨0, 0, 0⟩ 1 0 []

/-- A point on the unit sphere (east pole), cell id 0. -/
def ptE : Point := ⟨⟨1, 0, 0⟩, 0⟩

/-- A point on the unit sphere (west pole), cell id 1. -/
def ptW : Point := ⟨⟨-1, 0, 0⟩, 1⟩

/-- The octree built by inserting `ptE` then `ptW` into `oct0`. -/
def octEW : Octree := (Octree.insertAll 6 oct0 [ptE, ptW]).getD .absent

/-- A point strictly inside the root bounds. -/
def ptDupA : Point := ⟨⟨1/2, 1/2, 1/2⟩, 0⟩

/-- A second point at the same position as `ptDupA`. -/
def ptDupB : Point := ⟨⟨1/2, 1/2, 1/2⟩, 1⟩

/-- The (reachable) octree holding `ptDupA` alone: one insert into `oct0`. -/
def octDup : Octree := (Octree.insert 2 oct0 ptDupA).getD .absent

namespace Chunks

/-- A cleanup-state chunk entity (id 3) for region `[5]`, with an in-flight
build and a recorded dependents list. -/
def entCl : Ent := ⟨[5], false, true, some [], false⟩

/-- World for the reinstatement witness: region `[5]` is in `Cleanup(3)`. -/
def wReinstate : World :=
  ⟨⟨0, 0, 0⟩, 1, 4, [(3, entCl)], [([5], .cleanup 3)], []⟩

/-- A cleanup-state chunk entity (id 0) for region `[0]` whose recorded
dependents are `[[1]]`. -/
def entC : Ent := ⟨[0], false, false, some [[1]], false⟩

/-- An active dependent chunk entity (id 1) for region `[1]`, no mesh yet. -/
def entD : Ent := ⟨[1], true, false, none, false⟩

/-- World for the deletion-gate witness. -/
def wGate : World :=
  ⟨⟨0, 0, 0⟩, 1, 2, [(0, entC), (1, entD)],
   [([0], .cleanup 0), ([1], .active 1)], [[0]]⟩

/-- The empty world used by the idempotence witness. -/
def wEmpty : World := ⟨⟨0, 0, 0⟩, 1, 0, [], [], []⟩

/-- A trivial resolver producing no needed identifiers. -/
def nfEmpty : V3 → ℚ → List ChunkIndex := fun _ _ => []

/-- A resolver that needs exactly region `[5]`. -/
def nf5 : V3 → ℚ → List ChunkIndex := fun _ _ => [[5]]

/-- The world produced by recomputing `wReinstate` against `nf5`. -/
def wRein : World := (recompute nf5 ⟨1, 0, 0⟩ 1 wReinstate).getD wEmpty

/-- The strict front-segment (ancestor) relation on region identifiers:
`p` is an ancestor of `idx` exactly when it is one of the `idx[0..i]`,
`i < idx.len()`, that the `replacing` loops crawl through. -/
def strictPre (p idx : ChunkIndex) : Bool :=
  p.isPrefixOf idx && decide (p.length < idx.length)

end Chunks

/-! Basic structural lemmas about the octree embedding. -/

@[simp] theorem Octree.points_setPoints (t : Octree) (x : Option (List Point))
    (h : t.isAbsent = false) : (t.setPoints x).points = x := by
  cases t <;> simp_all [Octree.isAbsent, Octree.setPoints, Octree.points]

@[simp] theorem Octree.center_setPoints (t : Octree) (x : Option (List Point)) :
    (t.setPoints x).center = t.center := by
  cases t <;> rfl

@[simp] theorem Octree.capacity_setPoints (t : Octree) (x : Option (List Point)) :
    (t.setPoints x).capacity = t.capacity := by
  cases t <;> rfl

@[simp] theorem Octree.bounds_setPoints (t : Octree) (x : Option (List Point)) :
    (t.setPoints x).bounds = t.bounds := by
  cases t <;> rfl

@[simp] theorem Octree.octree_index_setPoints (t : Octree) (x : Option (List Point)) :
    (t.setPoints x).octree_index = t.octree_index := by
  cases t <;> rfl

@[simp] theorem Octree.childrenList_setPoints (t : Octree) (x : Option (List Point)) :
    (t.setPoints x).childrenList = t.childrenList := by
  cases t <;> rfl

@[simp] theorem Octree.child_setPoints (t : Octree) (x : Option (List Point)) (j : Nat) :
    (t.setPoints x).child j = t.child j := by
  simp [Octree.child]

@[simp] theorem Octree.isAbsent_setPoints (t : Octree) (x : Option (List Point)) :
    (t.setPoints x).isAbsent = t.isAbsent := by
  cases t <;> rfl

@[simp] theorem Octree.points_setHeight (t : Octree) (n : Nat) :
    (t.setHeight n).points = t.points := by
  cases t <;> rfl

@[simp] theorem Octree.center_setHeight (t : Octree) (n : Nat) :
    (t.setHeight n).center = t.center := by
  cases t <;> rfl

@[simp] theorem Octree.capacity_setHeight (t : Octree) (n : Nat) :
    (t.setHeight n).capacity = t.capacity := by
  cases t <;> rfl

@[simp] theorem Octree.octree_index_setHeight (t : Octree) (n : Nat) :
    (t.setHeight n).octree_index = t.octree_index := by
  cases t <;> rfl

@[simp] theorem Octree.childrenList_setHeight (t : Octree) (n : Nat) :
    (t.setHeight n).childrenList = t.childrenList := by
  cases t <;> rfl

@[simp] theorem Octree.child_setHeight (t : Octree) (n : Nat) (j : Nat) :
    (t.setHeight n).child j = t.child j := by
  simp [Octree.child]

@[simp] theorem Octree.points_updateHeight (t : Octree) :
    t.updateHeight.points = t.points := by
  simp [Octree.updateHeight]

@[simp] theorem Octree.capacity_updateHeight (t : Octree) :
    t.updateHeight.capacity = t.capacity := by
  simp [Octree.updateHeight]

@[simp] theorem Octree.octree_index_updateHeight (t : Octree) :
    t.updateHeight.octree_index = t.octree_index := by
  simp [Octree.updateHeight]

@[simp] theorem Octree.childrenList_updateHeight (t : Octree) :
    t.updateHeight.childrenList = t.childrenList := by
  simp [Octree.updateHeight]

@[simp] theorem Octree.child_updateHeight (t : Octree) (j : Nat) :
    t.updateHeight.child j = t.child j := by
  simp [Octree.child]

@[simp] theorem Octree.points_setChild (t : Octree) (i : Nat) (x : Octree) :
    (t.setChild i x).points = t.points := by
  cases t <;> rcases i with _|_|_|_|_|_|_|_|i <;> rfl

@[simp] theorem Octree.center_setChild (t : Octree) (i : Nat) (x : Octree) :
    (t.setChild i x).center = t.center := by
  cases t <;> rcases i with _|_|_|_|_|_|_|_|i <;> rfl

@[simp] theorem Octree.capacity_setChild (t : Octree) (i : Nat) (x : Octree) :
    (t.setChild i x).capacity = t.capacity := by
  cases t <;> rcases i with _|_|_|_|_|_|_|_|i <;> rfl

@[simp] theorem Octree.bounds_setChild (t : Octree) (i : Nat) (x : Octree) :
    (t.setChild i x).bounds = t.bounds := by
  cases t <;> rcases i with _|_|_|_|_|_|_|_|i <;> rfl

@[simp] theorem Octree.octree_index_setChild (t : Octree) (i : Nat) (x : Octree) :
    (t.setChild i x).octree_index = t.octree_index := by
  cases t <;> rcases i with _|_|_|_|_|_|_|_|i <;> rfl

theorem Octree.childrenList_setChild (t : Octree) (i : Nat) (x : Octree)
    (ht : t.isAbsent = false) (h : i < 8) :
    (t.setChild i x).childrenList = t.childrenList.set i x := by
  cases t <;> rcases i with _|_|_|_|_|_|_|_|i <;>
    simp_all [Octree.isAbsent] <;> first | rfl | omega

theorem Octree.child_setChild_self (t : Octree) (i : Nat) (x : Octree)
    (ht : t.isAbsent = false) (h : i < 8) : (t.setChild i x).child i = x := by
  cases t <;> rcases i with _|_|_|_|_|_|_|_|i <;>
    simp_all [Octree.isAbsent] <;> first | rfl | omega

theorem Octree.child_setChild_ne (t : Octree) (i j : Nat) (x : Octree)
    (h : j ≠ i) : (t.setChild i x).child j = t.child j := by
  cases t
  · rfl
  · rcases i with _|_|_|_|_|_|_|_|i <;>
      rcases j with _|_|_|_|_|_|_|_|j <;>
        simp_all [Octree.child, Octree.setChild, Octree.childrenList, List.getD]

@[simp] theorem Octree.points_new (cap : Nat) (ce : V3) (b : ℚ) (d : Nat)
    (oi : List Nat) : (Octree.new cap ce b d oi).points = some [] := rfl

@[simp] theorem Octree.capacity_new (cap : Nat) (ce : V3) (b : ℚ) (d : Nat)
    (oi : List Nat) : (Octree.new cap ce b d oi).capacity = cap := rfl

@[simp] theorem Octree.octree_index_new (cap : Nat) (ce : V3) (b : ℚ) (d : Nat)
    (oi : List Nat) : (Octree.new cap ce b d oi).octree_index = oi := rfl

@[simp] theorem Octree.isAbsent_new (cap : Nat) (ce : V3) (b : ℚ) (d : Nat)
    (oi : List Nat) : (Octree.new cap ce b d oi).isAbsent = false := rfl

@[simp] theorem Octree.child_new (cap : Nat) (ce : V3) (b : ℚ) (d : Nat)
    (oi : List Nat) (j : Nat) : (Octree.new cap ce b d oi).child j = .absent := by
  rcases j with _|_|_|_|_|_|_|_|j <;> rfl

theorem Octree.pos_to_child_eq (t : Octree) (pos : V3) :
    t.pos_to_child pos =
      (if pos.x - t.center.x < 0 then 0 else 1)
        + 2 * (if pos.y - t.center.y < 0 then 0 else 1)
        + 4 * (if pos.z - t.center.z < 0 then 0 else 1) := by
  unfold Octree.pos_to_child
  simp only [V3.sub, V3.signum, sgnQ]
  by_cases hx : pos.x - t.center.x < 0 <;>
    by_cases hy : pos.y - t.center.y < 0 <;>
      by_cases hz : pos.z - t.center.z < 0 <;>
        (simp [hx, hy, hz]; try norm_num; try decide)

theorem Octree.pos_to_child_lt8 (t : Octree) (pos : V3) :
    t.pos_to_child pos < 8 := by
  rw [Octree.pos_to_child_eq]
  split <;> split <;> split <;> norm_num

theorem Octree.cells_some (t : Octree) (ps : List Point)
    (h : t.points = some ps) : t.cells = ps.map Point.value := by
  cases t
  · simp [Octree.points] at h
  · simp only [Octree.points] at h
    simp [Octree.cells, h]

theorem Octree.cells_none (t : Octree) (h : t.points = none)
    (ht : t.isAbsent = false) :
    t.cells =
      (t.child 0).cells ++ (t.child 1).cells ++ (t.child 2).cells
        ++ (t.child 3).cells ++ (t.child 4).cells ++ (t.child 5).cells
        ++ (t.child 6).cells ++ (t.child 7).cells := by
  cases t
  · simp [Octree.isAbsent] at ht
  · simp only [Octree.points] at h
    subst h
    rfl

/-! Equations and inversions for `Octree.insert`. -/

theorem Octree.insert_zero (t : Octree) (p : Point) :
    Octree.insert 0 t p = none := rfl

theorem Octree.insert_succ_absent (fuel : Nat) (p : Point) :
    Octree.insert (fuel + 1) .absent p = some .absent := rfl

theorem Octree.insert_succ_push (fuel : Nat) (t : Octree) (p : Point)
    (hpush : (t.points.isSome
        && decide ((t.points.getD []).length ≤ t.capacity)) = true) :
    Octree.insert (fuel + 1) t p =
      some (t.setPoints (some ((t.points.getD []) ++ [p]))) := by
  rw [Octree.insert]
  simp only [hpush, if_true]

theorem Octree.insert_succ_slow (fuel : Nat) (t : Octree) (p : Point)
    (hpush : (t.points.isSome
        && decide ((t.points.getD []).length ≤ t.capacity)) = false) :
    Octree.insert (fuel + 1) t p =
      (if ((t.insChild p).child (t.pos_to_child p.position)).isAbsent then
          some (t.insChild p)
        else
          (Octree.insert fuel ((t.insChild p).child (t.pos_to_child p.position))
              p).map
            (fun c2 => (t.insChild p).setChild (t.pos_to_child p.position) c2)).bind
        (fun t2 =>
          (match t2.points with
           | none => some t2
           | some ps =>
               List.foldlM (fun acc q => Octree.insert fuel acc q)
                 (t2.setPoints none) ps).map Octree.updateHeight) := by
  rw [Octree.insert]
  simp only [hpush, Bool.false_eq_true, if_false]

/-- Preservation of a predicate along an `Option`-monadic left fold. -/
theorem foldlM_option_preserve {α β : Type} (P : α → Prop)
    (f : α → β → Option α)
    (hstep : ∀ a b a2, P a → f a b = some a2 → P a2) :
    ∀ (l : List β) (a0 r : α), P a0 → List.foldlM f a0 l = some r → P r := by
  intro l
  induction l with
  | nil =>
      intro a0 r h hf
      simp only [List.foldlM_nil] at hf
      cases hf
      exact h
  | cons b bs ih =>
      intro a0 r h hf
      rw [List.foldlM_cons] at hf
      rcases Option.bind_eq_some.mp hf with ⟨a1, h1, h2⟩
      exact ih a1 r (hstep a0 b a1 h h1) h2

@[simp] theorem Octree.isAbsent_setChild (t : Octree) (i : Nat) (x : Octree) :
    (t.setChild i x).isAbsent = t.isAbsent := by
  cases t <;> rcases i with _|_|_|_|_|_|_|_|i <;> rfl

@[simp] theorem Octree.points_insChild (t : Octree) (p : Point) :
    (t.insChild p).points = t.points := by
  unfold Octree.insChild
  dsimp only
  split <;> simp

@[simp] theorem Octree.capacity_insChild (t : Octree) (p : Point) :
    (t.insChild p).capacity = t.capacity := by
  unfold Octree.insChild
  dsimp only
  split <;> simp

@[simp] theorem Octree.octree_index_insChild (t : Octree) (p : Point) :
    (t.insChild p).octree_index = t.octree_index := by
  unfold Octree.insChild
  dsimp only
  split <;> simp

@[simp] theorem Octree.isAbsent_insChild (t : Octree) (p : Point) :
    (t.insChild p).isAbsent = t.isAbsent := by
  unfold Octree.insChild
  dsimp only
  split <;> simp

theorem Octree.insChild_child_ne (t : Octree) (p : Point) (j : Nat)
    (hj : j ≠ t.pos_to_child p.position) :
    (t.insChild p).child j = t.child j := by
  unfold Octree.insChild
  dsimp only
  split
  · rw [Octree.child_setChild_ne _ _ _ _ hj]
  · rfl

theorem Octree.insChild_child_self (t : Octree) (p : Point)
    (ht : t.isAbsent = false) :
    (t.insChild p).child (t.pos_to_child p.position) =
      (if (t.child (t.pos_to_child p.position)).isAbsent then
        Octree.new t.capacity
          (t.center.add (((p.position.sub t.center).signum).smul (t.bounds / 2)))
          (t.bounds / 2) (t.depth + 1)
          (t.octree_index ++ [t.pos_to_child p.position])
      else t.child (t.pos_to_child p.position)) := by
  unfold Octree.insChild
  dsimp only
  split
  · rw [Octree.child_setChild_self _ _ _ ht (Octree.pos_to_child_lt8 t p.position)]
  · rfl

theorem Octree.insChild_child_self_nonabsent (t : Octree) (p : Point)
    (ht : t.isAbsent = false) :
    ((t.insChild p).child (t.pos_to_child p.position)).isAbsent = false := by
  rw [Octree.insChild_child_self t p ht]
  split
  · rfl
  · rename_i habs
    simpa using habs

/-! Bridges between the recursive invariants and the `child` API. -/

@[simp] theorem Octree.child_absent (j : Nat) :
    (Octree.absent).child j = .absent := rfl

theorem Octree.child_ge8 (t : Octree) (j : Nat) (hj : 8 ≤ j) :
    t.child j = .absent := by
  cases t
  · rfl
  · rcases j with _|_|_|_|_|_|_|_|j <;>
      simp_all [Octree.child, Octree.childrenList, List.getD] <;> omega

theorem Octree.bagLe_child (t : Octree) (j : Nat) (h : t.bagLe = true) :
    (t.child j).bagLe = true := by
  cases t with
  | absent => rfl
  | mk a b c d e f g h ce pts cap bo he dep oi =>
      simp only [Octree.bagLe, Bool.and_eq_true] at h
      rcases j with _|_|_|_|_|_|_|_|j <;>
        simp_all [Octree.child, Octree.childrenList, List.getD, Octree.bagLe]

theorem Octree.bagLe_points (t : Octree) (ps : List Point)
    (h : t.bagLe = true) (hp : t.points = some ps) :
    ps.length ≤ t.capacity + 1 := by
  cases t with
  | absent => simp [Octree.points] at hp
  | mk a b c d e f g h ce pts cap bo he dep oi =>
      simp only [Octree.points] at hp
      subst hp
      simp only [Octree.bagLe, Bool.and_eq_true, decide_eq_true_eq] at h
      simpa [Octree.capacity] using h.1.1.1.1.1.1.1.1

theorem Octree.bagLe_build (t : Octree)
    (h1 : ∀ ps, t.points = some ps → ps.length ≤ t.capacity + 1)
    (h2 : ∀ j, j < 8 → (t.child j).bagLe = true) :
    t.bagLe = true := by
  cases t with
  | absent => rfl
  | mk a b c d e f g h ce pts cap bo he dep oi =>
      have e0 := h2 0 (by omega)
      have e1 := h2 1 (by omega)
      have e2 := h2 2 (by omega)
      have e3 := h2 3 (by omega)
      have e4 := h2 4 (by omega)
      have e5 := h2 5 (by omega)
      have e6 := h2 6 (by omega)
      have e7 := h2 7 (by omega)
      simp only [Octree.child, Octree.childrenList, List.getD_cons_zero,
        List.getD_cons_succ] at e0 e1 e2 e3 e4 e5 e6 e7
      cases pts with
      | none => simp [Octree.bagLe, e0, e1, e2, e3, e4, e5, e6, e7]
      | some ps =>
          have := h1 ps (by simp [Octree.points])
          simp only [Octree.capacity] at this
          simp [Octree.bagLe, e0, e1, e2, e3, e4, e5, e6, e7, this]

theorem Octree.routerInv_child (t : Octree) (j : Nat) (h : t.routerInv = true) :
    (t.child j).routerInv = true := by
  cases t with
  | absent => rfl
  | mk a b c d e f g h ce pts cap bo he dep oi =>
      simp only [Octree.routerInv, Bool.and_eq_true] at h
      rcases j with _|_|_|_|_|_|_|_|j <;>
        simp_all [Octree.child, Octree.childrenList, List.getD, Octree.routerInv]

theorem Octree.routerInv_points (t : Octree) (j : Nat)
    (h : t.routerInv = true) (hp : t.points.isSome = true) :
    (t.child j).isAbsent = true := by
  cases t with
  | absent => simp [Octree.points] at hp
  | mk a b c d e f g h ce pts cap bo he dep oi =>
      simp only [Octree.points] at hp
      cases pts with
      | none => simp at hp
      | some ps =>
          simp only [Octree.routerInv, Bool.and_eq_true] at h
          rcases j with _|_|_|_|_|_|_|_|j <;>
            simp_all [Octree.child, Octree.childrenList, List.getD,
              Octree.isAbsent]

theorem Octree.routerInv_build (t : Octree)
    (h1 : t.points.isSome = true → ∀ j, j < 8 → (t.child j).isAbsent = true)
    (h2 : ∀ j, j < 8 → (t.child j).routerInv = true) :
    t.routerInv = true := by
  cases t with
  | absent => rfl
  | mk a b c d e f g h ce pts cap bo he dep oi =>
      have e0 := h2 0 (by omega)
      have e1 := h2 1 (by omega)
      have e2 := h2 2 (by omega)
      have e3 := h2 3 (by omega)
      have e4 := h2 4 (by omega)
      have e5 := h2 5 (by omega)
      have e6 := h2 6 (by omega)
      have e7 := h2 7 (by omega)
      simp only [Octree.child, Octree.childrenList, List.getD_cons_zero,
        List.getD_cons_succ] at e0 e1 e2 e3 e4 e5 e6 e7
      cases pts with
      | none => simp [Octree.routerInv, e0, e1, e2, e3, e4, e5, e6, e7]
      | some ps =>
          have hall := h1 (by simp [Octree.points])
          have i0 := hall 0 (by omega)
          have i1 := hall 1 (by omega)
          have i2 := hall 2 (by omega)
          have i3 := hall 3 (by omega)
          have i4 := hall 4 (by omega)
          have i5 := hall 5 (by omega)
          have i6 := hall 6 (by omega)
          have i7 := hall 7 (by omega)
          simp only [Octree.child, Octree.childrenList, List.getD_cons_zero,
            List.getD_cons_succ] at i0 i1 i2 i3 i4 i5 i6 i7
          simp [Octree.routerInv, e0, e1, e2, e3, e4, e5, e6, e7,
            i0, i1, i2, i3, i4, i5, i6, i7]

theorem Octree.idxOkSlot_idxOk (oi : List Nat) (i : Nat) (x : Octree)
    (h : Octree.idxOkSlot oi i x.idxOk x = true) : x.idxOk = true := by
  cases x <;> simp_all [Octree.idxOkSlot, Octree.idxOk]

theorem Octree.idxOkSlot_index (oi : List Nat) (i : Nat) (x : Octree)
    (h : Octree.idxOkSlot oi i x.idxOk x = true) (hx : x.isAbsent = false) :
    x.octree_index = oi ++ [i] := by
  cases x <;> simp_all [Octree.idxOkSlot, Octree.isAbsent, Octree.octree_index]

theorem Octree.idxOkSlot_build (oi : List Nat) (i : Nat) (x : Octree)
    (h : x.isAbsent = true ∨ (x.octree_index = oi ++ [i] ∧ x.idxOk = true)) :
    Octree.idxOkSlot oi i x.idxOk x = true := by
  rcases h with h | ⟨h1, h2⟩ <;>
    cases x <;>
      simp_all [Octree.idxOkSlot, Octree.isAbsent, Octree.octree_index]

theorem Octree.idxOk_destruct (t : Octree) (j : Nat) (h : t.idxOk = true)
    (hj : j < 8) :
    Octree.idxOkSlot t.octree_index j (t.child j).idxOk (t.child j) = true := by
  cases t with
  | absent => simp [Octree.idxOkSlot]
  | mk a b c d e f g h ce pts cap bo he dep oi =>
      simp only [Octree.idxOk, Bool.and_eq_true] at h
      obtain ⟨⟨⟨⟨⟨⟨⟨s0, s1⟩, s2⟩, s3⟩, s4⟩, s5⟩, s6⟩, s7⟩ := h
      rcases j with _|_|_|_|_|_|_|_|j <;>
        simp_all [Octree.child, Octree.childrenList, List.getD,
          Octree.octree_index] <;> omega

theorem Octree.idxOk_child (t : Octree) (j : Nat) (h : t.idxOk = true) :
    (t.child j).idxOk = true := by
  by_cases hj : j < 8
  · exact Octree.idxOkSlot_idxOk _ _ _ (Octree.idxOk_destruct t j h hj)
  · rw [Octree.child_ge8 t j (by omega)]
    rfl

theorem Octree.idxOk_child_index (t : Octree) (j : Nat)
    (h : t.idxOk = true) (hc : (t.child j).isAbsent = false) :
    (t.child j).octree_index = t.octree_index ++ [j] := by
  by_cases hj : j < 8
  · exact Octree.idxOkSlot_index _ _ _ (Octree.idxOk_destruct t j h hj) hc
  · rw [Octree.child_ge8 t j (by omega)] at hc
    simp [Octree.isAbsent] at hc

theorem Octree.idxOk_build (t : Octree)
    (h1 : ∀ j, j < 8 → (t.child j).isAbsent = true ∨
      ((t.child j).octree_index = t.octree_index ++ [j] ∧
        (t.child j).idxOk = true)) :
    t.idxOk = true := by
  cases t with
  | absent => rfl
  | mk a b c d e f g h ce pts cap bo he dep oi =>
      have e0 := Octree.idxOkSlot_build oi 0 a (by simpa [Octree.child,
        Octree.childrenList, List.getD, Octree.octree_index] using h1 0 (by omega))
      have e1 := Octree.idxOkSlot_build oi 1 b (by simpa [Octree.child,
        Octree.childrenList, List.getD, Octree.octree_index] using h1 1 (by omega))
      have e2 := Octree.idxOkSlot_build oi 2 c (by simpa [Octree.child,
        Octree.childrenList, List.getD, Octree.octree_index] using h1 2 (by omega))
      have e3 := Octree.idxOkSlot_build oi 3 d (by simpa [Octree.child,
        Octree.childrenList, List.getD, Octree.octree_index] using h1 3 (by omega))
      have e4 := Octree.idxOkSlot_build oi 4 e (by simpa [Octree.child,
        Octree.childrenList, List.getD, Octree.octree_index] using h1 4 (by omega))
      have e5 := Octree.idxOkSlot_build oi 5 f (by simpa [Octree.child,
        Octree.childrenList, List.getD, Octree.octree_index] using h1 5 (by omega))
      have e6 := Octree.idxOkSlot_build oi 6 g (by simpa [Octree.child,
        Octree.childrenList, List.getD, Octree.octree_index] using h1 6 (by omega))
      have e7 := Octree.idxOkSlot_build oi 7 h (by simpa [Octree.child,
        Octree.childrenList, List.getD, Octree.octree_index] using h1 7 (by omega))
      simp [Octree.idxOk, e0, e1, e2, e3, e4, e5, e6, e7]

/-! Invariants versus the non-recursive tree operations. -/

@[simp] theorem Octree.bagLe_setHeight (t : Octree) (n : Nat) :
    (t.setHeight n).bagLe = t.bagLe := by
  cases t <;> rfl

@[simp] theorem Octree.routerInv_setHeight (t : Octree) (n : Nat) :
    (t.setHeight n).routerInv = t.routerInv := by
  cases t <;> rfl

@[simp] theorem Octree.idxOk_setHeight (t : Octree) (n : Nat) :
    (t.setHeight n).idxOk = t.idxOk := by
  cases t <;> rfl

@[simp] theorem Octree.bagLe_updateHeight (t : Octree) :
    t.updateHeight.bagLe = t.bagLe := by
  unfold Octree.updateHeight
  rw [Octree.bagLe_setHeight]

@[simp] theorem Octree.routerInv_updateHeight (t : Octree) :
    t.updateHeight.routerInv = t.routerInv := by
  unfold Octree.updateHeight
  rw [Octree.routerInv_setHeight]

@[simp] theorem Octree.idxOk_updateHeight (t : Octree) :
    t.updateHeight.idxOk = t.idxOk := by
  unfold Octree.updateHeight
  rw [Octree.idxOk_setHeight]

@[simp] theorem Octree.idxOk_setPoints (t : Octree) (x : Option (List Point)) :
    (t.setPoints x).idxOk = t.idxOk := by
  cases t <;> rfl

@[simp] theorem Octree.bagLe_new (cap : Nat) (ce : V3) (b : ℚ) (d : Nat)
    (oi : List Nat) : (Octree.new cap ce b d oi).bagLe = true := by
  simp [Octree.new, Octree.bagLe]

@[simp] theorem Octree.routerInv_new (cap : Nat) (ce : V3) (b : ℚ) (d : Nat)
    (oi : List Nat) : (Octree.new cap ce b d oi).routerInv = true := by
  simp [Octree.new, Octree.routerInv, Octree.isAbsent]

@[simp] theorem Octree.idxOk_new (cap : Nat) (ce : V3) (b : ℚ) (d : Nat)
    (oi : List Nat) : (Octree.new cap ce b d oi).idxOk = true := by
  simp [Octree.new, Octree.idxOk, Octree.idxOkSlot]

/-- Common final stage of the slow path of `insert` (redistribution of the
bag followed by the height update), generic in the preserved predicate. -/
theorem Octree.insert_tail_pred (X : Octree → Prop) (fuel : Nat)
    (t2 t' : Octree)
    (hstep : ∀ (a : Octree) (q : Point) (a2 : Octree),
      X a → Octree.insert fuel a q = some a2 → X a2)
    (hX : t2.points = none → X t2)
    (hX' : ∀ ps, t2.points = some ps → X (t2.setPoints none))
    (hup : ∀ s, X s → X s.updateHeight)
    (h3 : ((match t2.points with
            | none => some t2
            | some ps =>
                List.foldlM (fun acc q => Octree.insert fuel acc q)
                  (t2.setPoints none) ps).map Octree.updateHeight) = some t') :
    X t' := by
  rcases Option.map_eq_some'.mp h3 with ⟨t3, ht3, ht'⟩
  subst ht'
  rcases hpt : t2.points with _ | ps
  · rw [hpt] at ht3
    cases ht3
    exact hup _ (hX hpt)
  · rw [hpt] at ht3
    exact hup _ (foldlM_option_preserve X _
      (fun a q a2 ha hf => hstep a q a2 ha hf) ps _ t3 (hX' ps hpt) ht3)

/-- `insert` never changes the region identifier of the node it returns. -/
theorem Octree.insert_octree_index :
    ∀ (fuel : Nat) (t : Octree) (p : Point) (t' : Octree),
      Octree.insert fuel t p = some t' → t'.octree_index = t.octree_index := by
  intro fuel
  induction fuel with
  | zero =>
      intro t p t' hins
      simp [Octree.insert_zero] at hins
  | succ fuel ih =>
      intro t p t' hins
      by_cases hpush : (t.points.isSome
          && decide ((t.points.getD []).length ≤ t.capacity)) = true
      · rw [Octree.insert_succ_push fuel t p hpush] at hins
        cases hins
        simp
      · rw [Octree.insert_succ_slow fuel t p (Bool.eq_false_iff.mpr hpush)]
          at hins
        rcases Option.bind_eq_some.mp hins with ⟨t2, h2, h3⟩
        have h2oi : t2.octree_index = t.octree_index := by
          by_cases hslot :
              ((t.insChild p).child (t.pos_to_child p.position)).isAbsent = true
          · rw [if_pos hslot] at h2
            cases h2
            simp
          · rw [if_neg hslot] at h2
            rcases Option.map_eq_some'.mp h2 with ⟨c2, hc2, ht2⟩
            subst ht2
            simp
        have := Octree.insert_tail_pred
          (fun s => s.octree_index = t2.octree_index) fuel t2 t'
          (fun a q a2 ha hf => (ih a q a2 hf).trans ha)
          (fun _ => rfl) (fun ps _ => by simp) (fun s hs => by simpa using hs)
          h3
        rw [this, h2oi]

/-- `insert` into a node with no direct bag yields a node with no direct
bag (one level; the bag can only reappear via the push branch, which needs
an existing bag). -/
theorem Octree.insert_points_none (fuel : Nat) (t : Octree) (p : Point)
    (t' : Octree) (hpt : t.points = none)
    (hins : Octree.insert fuel t p = some t') : t'.points = none := by
  cases fuel with
  | zero => simp [Octree.insert_zero] at hins
  | succ fuel =>
      have hpush : (t.points.isSome
          && decide ((t.points.getD []).length ≤ t.capacity)) = false := by
        simp [hpt]
      rw [Octree.insert_succ_slow fuel t p hpush] at hins
      rcases Option.bind_eq_some.mp hins with ⟨t2, h2, h3⟩
      have h2pt : t2.points = none := by
        by_cases hslot :
            ((t.insChild p).child (t.pos_to_child p.position)).isAbsent = true
        · rw [if_pos hslot] at h2
          cases h2
          simpa using hpt
        · rw [if_neg hslot] at h2
          rcases Option.map_eq_some'.mp h2 with ⟨c2, hc2, ht2⟩
          subst ht2
          simpa using hpt
      rcases Option.map_eq_some'.mp h3 with ⟨t3, ht3, ht'⟩
      subst ht'
      rw [h2pt] at ht3
      cases ht3
      simpa using h2pt

/-- `insert` preserves the bag-size invariant: a push is only taken while
`len <= capacity`, so bags never exceed `capacity + 1`. -/
theorem Octree.bagLe_insert :
    ∀ (fuel : Nat) (t : Octree) (p : Point) (t' : Octree),
      t.bagLe = true → Octree.insert fuel t p = some t' → t'.bagLe = true := by
  intro fuel
  induction fuel with
  | zero =>
      intro t p t' _ hins
      simp [Octree.insert_zero] at hins
  | succ fuel ih =>
      intro t p t' hbag hins
      by_cases habs : t.isAbsent = true
      · have heq : t = .absent := by
          cases t
          · rfl
          · simp [Octree.isAbsent] at habs
        subst heq
        rw [Octree.insert_succ_absent] at hins
        cases hins
        rfl
      · replace habs : t.isAbsent = false := by simpa using habs
        by_cases hpush : (t.points.isSome
            && decide ((t.points.getD []).length ≤ t.capacity)) = true
        · rw [Octree.insert_succ_push fuel t p hpush] at hins
          cases hins
          have hparts := hpush
          rw [Bool.and_eq_true] at hparts
          rcases hparts with ⟨hsome, hlen⟩
          rcases hpt : t.points with _ | ps
          · rw [hpt] at hsome
            simp at hsome
          · have hlen' : ps.length ≤ t.capacity := by
              rw [hpt] at hlen
              simpa using hlen
            refine Octree.bagLe_build _ ?_ ?_
            · intro qs hq
              rw [Octree.points_setPoints _ _ habs] at hq
              simp only [Option.getD_some] at hq
              cases hq
              simp only [Octree.capacity_setPoints, List.length_append,
                List.length_singleton]
              omega
            · intro j _
              rw [Octree.child_setPoints]
              exact Octree.bagLe_child t j hbag
        · rw [Octree.insert_succ_slow fuel t p (Bool.eq_false_iff.mpr hpush)]
            at hins
          rcases Option.bind_eq_some.mp hins with ⟨t2, h2, h3⟩
          rw [if_neg (by simp [Octree.insChild_child_self_nonabsent t p habs])]
            at h2
          rcases Option.map_eq_some'.mp h2 with ⟨c2, hc2, ht2⟩
          have hchild :
              ((t.insChild p).child (t.pos_to_child p.position)).bagLe = true := by
            rw [Octree.insChild_child_self t p habs]
            split
            · simp
            · exact Octree.bagLe_child t _ hbag
          have hc2le : c2.bagLe = true := ih _ p c2 hchild hc2
          have ht1abs : (t.insChild p).isAbsent = false := by simpa using habs
          have hch2 : ∀ j, (t2.child j).bagLe = true := by
            intro j
            subst ht2
            by_cases hji : j = t.pos_to_child p.position
            · subst hji
              rw [Octree.child_setChild_self _ _ _ ht1abs
                (Octree.pos_to_child_lt8 t p.position)]
              exact hc2le
            · rw [Octree.child_setChild_ne _ _ _ _ hji,
                Octree.insChild_child_ne t p j hji]
              exact Octree.bagLe_child t j hbag
          have ht2abs : t2.isAbsent = false := by
            subst ht2
            simpa using habs
          refine Octree.insert_tail_pred (fun s => s.bagLe = true) fuel t2 t'
            (fun a q a2 ha hf => ih a q a2 ha hf) ?_ ?_
            (fun s hs => by simpa using hs) h3
          · intro hpt2
            exact Octree.bagLe_build t2
              (fun qs hq => by rw [hpt2] at hq; cases hq) (fun j _ => hch2 j)
          · intro ps hps
            refine Octree.bagLe_build _ ?_ ?_
            · intro qs hq
              rw [Octree.points_setPoints _ _ ht2abs] at hq
              cases hq
            · intro j _
              rw [Octree.child_setPoints]
              exact hch2 j

/-- `insert` preserves the router invariant: whenever a node acquires a
child, its bag is drained in the same call. -/
theorem Octree.routerInv_insert :
    ∀ (fuel : Nat) (t : Octree) (p : Point) (t' : Octree),
      t.routerInv = true → Octree.insert fuel t p = some t' →
        t'.routerInv = true := by
  intro fuel
  induction fuel with
  | zero =>
      intro t p t' _ hins
      simp [Octree.insert_zero] at hins
  | succ fuel ih =>
      intro t p t' hinv hins
      by_cases habs : t.isAbsent = true
      · have heq : t = .absent := by
          cases t
          · rfl
          · simp [Octree.isAbsent] at habs
        subst heq
        rw [Octree.insert_succ_absent] at hins
        cases hins
        rfl
      · replace habs : t.isAbsent = false := by simpa using habs
        by_cases hpush : (t.points.isSome
            && decide ((t.points.getD []).length ≤ t.capacity)) = true
        · rw [Octree.insert_succ_push fuel t p hpush] at hins
          cases hins
          have hparts := hpush
          rw [Bool.and_eq_true] at hparts
          rcases hparts with ⟨hsome, -⟩
          refine Octree.routerInv_build _ ?_ ?_
          · intro _ j _
            rw [Octree.child_setPoints]
            exact Octree.routerInv_points t j hinv hsome
          · intro j _
            rw [Octree.child_setPoints]
            exact Octree.routerInv_child t j hinv
        · rw [Octree.insert_succ_slow fuel t p (Bool.eq_false_iff.mpr hpush)]
            at hins
          rcases Option.bind_eq_some.mp hins with ⟨t2, h2, h3⟩
          rw [if_neg (by simp [Octree.insChild_child_self_nonabsent t p habs])]
            at h2
          rcases Option.map_eq_some'.mp h2 with ⟨c2, hc2, ht2⟩
          have hchild :
              ((t.insChild p).child (t.pos_to_child p.position)).routerInv
                = true := by
            rw [Octree.insChild_child_self t p habs]
            split
            · simp
            · exact Octree.routerInv_child t _ hinv
          have hc2inv : c2.routerInv = true := ih _ p c2 hchild hc2
          have ht1abs : (t.insChild p).isAbsent = false := by simpa using habs
          have hch2 : ∀ j, (t2.child j).routerInv = true := by
            intro j
            subst ht2
            by_cases hji : j = t.pos_to_child p.position
            · subst hji
              rw [Octree.child_setChild_self _ _ _ ht1abs
                (Octree.pos_to_child_lt8 t p.position)]
              exact hc2inv
            · rw [Octree.child_setChild_ne _ _ _ _ hji,
                Octree.insChild_child_ne t p j hji]
              exact Octree.routerInv_child t j hinv
          have ht2abs : t2.isAbsent = false := by
            subst ht2
            simpa using habs
          refine Octree.insert_tail_pred (fun s => s.routerInv = true) fuel t2
            t' (fun a q a2 ha hf => ih a q a2 ha hf) ?_ ?_
            (fun s hs => by simpa using hs) h3
          · intro hpt2
            refine Octree.routerInv_build t2 ?_ (fun j _ => hch2 j)
            intro hsome2
            rw [hpt2] at hsome2
            simp at hsome2
          · intro ps hps
            refine Octree.routerInv_build _ ?_ ?_
            · intro hsome2
              rw [Octree.points_setPoints _ _ ht2abs] at hsome2
              simp at hsome2
            · intro j _
              rw [Octree.child_setPoints]
              exact hch2 j

/-- `insert` preserves the identifier invariant: a created child's region
identifier extends its parent's by the chosen slot, and recursive insertion
never rewrites identifiers. -/
theorem Octree.idxOk_insert :
    ∀ (fuel : Nat) (t : Octree) (p : Point) (t' : Octree),
      t.idxOk = true → Octree.insert fuel t p = some t' → t'.idxOk = true := by
  intro fuel
  induction fuel with
  | zero =>
      intro t p t' _ hins
      simp [Octree.insert_zero] at hins
  | succ fuel ih =>
      intro t p t' hidx hins
      by_cases habs : t.isAbsent = true
      · have heq : t = .absent := by
          cases t
          · rfl
          · simp [Octree.isAbsent] at habs
        subst heq
        rw [Octree.insert_succ_absent] at hins
        cases hins
        rfl
      · replace habs : t.isAbsent = false := by simpa using habs
        by_cases hpush : (t.points.isSome
            && decide ((t.points.getD []).length ≤ t.capacity)) = true
        · rw [Octree.insert_succ_push fuel t p hpush] at hins
          cases hins
          rw [Octree.idxOk_setPoints]
          exact hidx
        · rw [Octree.insert_succ_slow fuel t p (Bool.eq_false_iff.mpr hpush)]
            at hins
          rcases Option.bind_eq_some.mp hins with ⟨t2, h2, h3⟩
          rw [if_neg (by simp [Octree.insChild_child_self_nonabsent t p habs])]
            at h2
          rcases Option.map_eq_some'.mp h2 with ⟨c2, hc2, ht2⟩
          have hchild :
              ((t.insChild p).child (t.pos_to_child p.position)).idxOk
                = true := by
            rw [Octree.insChild_child_self t p habs]
            split
            · simp
            · exact Octree.idxOk_child t _ hidx
          have hchidx :
              ((t.insChild p).child (t.pos_to_child p.position)).octree_index
                = t.octree_index ++ [t.pos_to_child p.position] := by
            rw [Octree.insChild_child_self t p habs]
            split
            · simp
            · rename_i hne
              exact Octree.idxOk_child_index t _ hidx (by simpa using hne)
          have hc2inv : c2.idxOk = true := ih _ p c2 hchild hc2
          have hc2idx : c2.octree_index
              = t.octree_index ++ [t.pos_to_child p.position] := by
            rw [Octree.insert_octree_index fuel _ p c2 hc2, hchidx]
          have ht1abs : (t.insChild p).isAbsent = false := by simpa using habs
          have ht2idx : t2.octree_index = t.octree_index := by
            subst ht2
            simp
          have hch2 : ∀ j, j < 8 → (t2.child j).isAbsent = true ∨
              ((t2.child j).octree_index = t2.octree_index ++ [j] ∧
                (t2.child j).idxOk = true) := by
            intro j hj
            subst ht2
            by_cases hji : j = t.pos_to_child p.position
            · subst hji
              rw [Octree.child_setChild_self _ _ _ ht1abs
                (Octree.pos_to_child_lt8 t p.position)]
              right
              refine ⟨?_, hc2inv⟩
              rw [hc2idx]
              simp
            · rw [Octree.child_setChild_ne _ _ _ _ hji,
                Octree.insChild_child_ne t p j hji]
              by_cases hcabs : (t.child j).isAbsent = true
              · exact Or.inl hcabs
              · right
                refine ⟨?_, Octree.idxOk_child t j hidx⟩
                rw [Octree.idxOk_child_index t j hidx (by simpa using hcabs)]
                simp
          have ht2ok : t2.idxOk = true := Octree.idxOk_build t2 hch2
          refine Octree.insert_tail_pred (fun s => s.idxOk = true) fuel t2 t'
            (fun a q a2 ha hf => ih a q a2 ha hf)
            (fun _ => ht2ok) (fun ps _ => by simpa using ht2ok)
            (fun s hs => by simpa using hs) h3

/-- An insert that reaches a node whose bag already exceeds its capacity
drains the bag: the node comes out a pure router (`points = None`). -/
theorem Octree.insert_points_over (fuel : Nat) (t : Octree) (p : Point)
    (t' : Octree) (ps : List Point) (hpt : t.points = some ps)
    (hover : t.capacity < ps.length)
    (hins : Octree.insert fuel t p = some t') : t'.points = none := by
  cases fuel with
  | zero => simp [Octree.insert_zero] at hins
  | succ fuel =>
      have habs : t.isAbsent = false := by
        cases t
        · simp [Octree.points] at hpt
        · rfl
      have hpush : (t.points.isSome
          && decide ((t.points.getD []).length ≤ t.capacity)) = false := by
        simp [hpt]
        omega
      rw [Octree.insert_succ_slow fuel t p hpush] at hins
      rcases Option.bind_eq_some.mp hins with ⟨t2, h2, h3⟩
      have h2pt : t2.points = some ps := by
        by_cases hslot :
            ((t.insChild p).child (t.pos_to_child p.position)).isAbsent = true
        · rw [if_pos hslot] at h2
          cases h2
          simpa using hpt
        · rw [if_neg hslot] at h2
          rcases Option.map_eq_some'.mp h2 with ⟨c2, hc2, ht2⟩
          subst ht2
          simpa using hpt
      have ht2abs : t2.isAbsent = false := by
        by_cases hslot :
            ((t.insChild p).child (t.pos_to_child p.position)).isAbsent = true
        · rw [if_pos hslot] at h2
          cases h2
          simpa using habs
        · rw [if_neg hslot] at h2
          rcases Option.map_eq_some'.mp h2 with ⟨c2, hc2, ht2⟩
          subst ht2
          simpa using habs
      rcases Option.map_eq_some'.mp h3 with ⟨t3, ht3, ht'⟩
      subst ht'
      rw [h2pt] at ht3
      dsimp only at ht3
      have h3pt : t3.points = none :=
        foldlM_option_preserve (fun s => s.points = none) _
          (fun a q a2 ha hf => Octree.insert_points_none fuel a q a2 ha hf)
          ps _ t3 (Octree.points_setPoints t2 none ht2abs) ht3
      simpa using h3pt

/-- The bag-size invariant after any successful insertion sequence from a
fresh octree. -/
theorem Octree.bagLe_insertAll (fuel : Nat) (t : Octree) (ps : List Point)
    (t' : Octree) (h : t.bagLe = true)
    (hins : Octree.insertAll fuel t ps = some t') : t'.bagLe = true :=
  foldlM_option_preserve (fun s => s.bagLe = true) _
    (fun a q a2 ha hf => Octree.bagLe_insert fuel a q a2 ha hf) ps t t' h hins

/-- The router invariant after any successful insertion sequence. -/
theorem Octree.routerInv_insertAll (fuel : Nat) (t : Octree) (ps : List Point)
    (t' : Octree) (h : t.routerInv = true)
    (hins : Octree.insertAll fuel t ps = some t') : t'.routerInv = true :=
  foldlM_option_preserve (fun s => s.routerInv = true) _
    (fun a q a2 ha hf => Octree.routerInv_insert fuel a q a2 ha hf) ps t t' h
    hins

/-- The identifier invariant after any successful insertion sequence. -/
theorem Octree.idxOk_insertAll (fuel : Nat) (t : Octree) (ps : List Point)
    (t' : Octree) (h : t.idxOk = true)
    (hins : Octree.insertAll fuel t ps = some t') : t'.idxOk = true :=
  foldlM_option_preserve (fun s => s.idxOk = true) _
    (fun a q a2 ha hf => Octree.idxOk_insert fuel a q a2 ha hf) ps t t' h hins

/-- C4, counterexample to the claim as stated: inserting one point into a
fresh capacity-0 octree leaves the node holding that point directly — one
point, exceeding `capacity = 0` — and the insert call returns without any
redistribution (`points` is still `Some`).  The "at most `capacity` points"
bound and the "redistributed within that same insert call" behaviour both
fail. -/
theorem claim4_counterexample :
    (Octree.insert 2 oct0 ptDupA).map (fun t => (t.points, t.capacity))
      = some (some [ptDupA], 0) := by
  with_unfolding_all decide

/-- C4 (amended): every node of an octree reached by insertions from a fresh
node holds at most `capacity + 1` points directly (`bagLe`); an insert
appends while the count is still at most `capacity`, and redistribution
happens on the insert call that reaches a node whose bag already exceeds its
capacity — that call drains the bag into children and leaves
`points = None`. -/
theorem claim4_amended :
    (∀ (fuel cap : Nat) (ce : V3) (b : ℚ) (d : Nat) (oi : List Nat)
        (ps : List Point) (t : Octree),
        Octree.insertAll fuel (Octree.new cap ce b d oi) ps = some t →
        t.bagLe = true) ∧
    (∀ (fuel : Nat) (t : Octree) (p : Point) (t' : Octree) (ps : List Point),
        t.points = some ps → t.capacity < ps.length →
        Octree.insert fuel t p = some t' → t'.points = none) := by
  constructor
  · intro fuel cap ce b d oi ps t hins
    exact Octree.bagLe_insertAll fuel _ ps t (by simp) hins
  · intro fuel t p t' ps hpt hover hins
    exact Octree.insert_points_over fuel t p t' ps hpt hover hins

/-- C4, witness: the two-point capacity-0 octree `octEW` is produced by a
concrete insertion sequence and satisfies the amended bag bound; and the
second insert into the over-full root of `octDup`-like states drains the
bag. -/
theorem claim4_witness :
    Octree.insertAll 6 (Octree.new 0 ⟨0, 0, 0⟩ 1 0 []) [ptE, ptW] = some octEW
      ∧ octEW.bagLe = true := by
  refine ⟨by with_unfolding_all decide, ?_⟩
  exact claim4_amended.1 6 0 ⟨0, 0, 0⟩ 1 0 [] [ptE, ptW] octEW
    (by with_unfolding_all decide)

/-- C5: after any successful sequence of inserts starting from a fresh
octree, every node that has at least one present child holds no direct bag —
`routerInv` states per node that a `Some` bag forces all eight child slots
empty, recursively. -/
theorem claim5_pure_router :
    ∀ (fuel cap : Nat) (ce : V3) (b : ℚ) (d : Nat) (oi : List Nat)
      (ps : List Point) (t : Octree),
      Octree.insertAll fuel (Octree.new cap ce b d oi) ps = some t →
      t.routerInv = true := by
  intro fuel cap ce b d oi ps t hins
  exact Octree.routerInv_insertAll fuel _ ps t (by simp) hins

/-- C5, witness: the concrete two-point octree `octEW` arises from a fresh
octree by `insertAll` and indeed satisfies the router invariant. -/
theorem claim5_witness :
    Octree.insertAll 6 (Octree.new 0 ⟨0, 0, 0⟩ 1 0 []) [ptE, ptW] = some octEW
      ∧ octEW.routerInv = true := by
  refine ⟨by with_unfolding_all decide, ?_⟩
  exact claim5_pure_router 6 0 ⟨0, 0, 0⟩ 1 0 [] [ptE, ptW] octEW
    (by with_unfolding_all decide)

/-! Divergence of `insert` on coincident points (claim C6). -/

@[simp] theorem Octree.center_insChild (t : Octree) (p : Point) :
    (t.insChild p).center = t.center := by
  unfold Octree.insChild
  dsimp only
  split <;> simp

/-- `pos_to_child` only reads the node's center. -/
theorem Octree.pos_to_child_congr (s t : Octree) (pos1 pos2 : V3)
    (h1 : s.center = t.center) (h2 : pos1 = pos2) :
    s.pos_to_child pos1 = t.pos_to_child pos2 := by
  unfold Octree.pos_to_child
  rw [h1, h2]

/-- When the picked slot is already filled, `insChild` changes nothing. -/
theorem Octree.insChild_of_nonabsent (t : Octree) (p : Point)
    (h : (t.child (t.pos_to_child p.position)).isAbsent = false) :
    t.insChild p = t := by
  unfold Octree.insChild
  dsimp only
  rw [if_neg (by simp [h])]

/-- Inserting a point into a capacity-0 node that holds one point at the
very same position never terminates: the two coincident points are pushed
into the same child at every depth, for any recursion budget. -/
theorem Octree.insert_dup_none :
    ∀ (fuel : Nat) (t : Octree) (x y : Point),
      t.isAbsent = false → t.capacity = 0 → t.points = some [y] →
      (∀ j, (t.child j).isAbsent = true) → y.position = x.position →
      Octree.insert fuel t x = none := by
  intro fuel
  induction fuel using Nat.strong_induction_on with
  | _ fuel ih =>
    intro t x y habs hcap hpt hch hpos
    match fuel with
    | 0 => rfl
    | fuel + 1 =>
      have hpush : (t.points.isSome
          && decide ((t.points.getD []).length ≤ t.capacity)) = false := by
        simp [hpt, hcap]
      rw [Octree.insert_succ_slow fuel t x hpush]
      have hislot : (t.child (t.pos_to_child x.position)).isAbsent = true :=
        hch _
      have e1 : (t.insChild x).child (t.pos_to_child x.position)
          = Octree.new t.capacity
              (t.center.add (((x.position.sub t.center).signum).smul
                (t.bounds / 2)))
              (t.bounds / 2) (t.depth + 1)
              (t.octree_index ++ [t.pos_to_child x.position]) := by
        rw [Octree.insChild_child_self t x habs, if_pos hislot]
      rw [e1]
      cases fuel with
      | zero => simp [Octree.insert_zero]
      | succ m =>
          set nc := Octree.new t.capacity
            (t.center.add (((x.position.sub t.center).signum).smul
              (t.bounds / 2)))
            (t.bounds / 2) (t.depth + 1)
            (t.octree_index ++ [t.pos_to_child x.position]) with hnc
          have e2 : Octree.insert (m + 1) nc x
              = some (nc.setPoints (some [x])) := by
            rw [Octree.insert_succ_push m nc x (by simp [hnc])]
            simp [hnc]
          rw [if_neg (by simp [hnc, Octree.new, Octree.isAbsent]), e2]
          set c2 := nc.setPoints (some [x]) with hc2
          have ht1abs : (t.insChild x).isAbsent = false := by simpa using habs
          set t2 := (t.insChild x).setChild (t.pos_to_child x.position) c2
            with ht2
          have e3 : t2.points = some [y] := by
            rw [ht2]
            simpa using hpt
          simp only [Option.map_some', Option.some_bind]
          rw [e3]
          dsimp only
          rw [List.foldlM_cons]
          set acc0 := t2.setPoints none with hacc0
          have haccabs : acc0.isAbsent = false := by
            rw [hacc0, ht2]
            simpa using habs
          have haccpts : acc0.points = none := by
            rw [hacc0]
            exact Octree.points_setPoints _ _ (by rw [ht2]; simpa using habs)
          have hacccen : acc0.center = t.center := by
            rw [hacc0, ht2]
            simp
          have hi2 : acc0.pos_to_child y.position = t.pos_to_child x.position :=
            Octree.pos_to_child_congr acc0 t y.position x.position hacccen hpos
          have haccchild : acc0.child (t.pos_to_child x.position) = c2 := by
            rw [hacc0]
            rw [Octree.child_setPoints, ht2]
            exact Octree.child_setChild_self _ _ _ ht1abs
              (Octree.pos_to_child_lt8 t x.position)
          have hc2abs : c2.isAbsent = false := by
            rw [hc2, hnc]
            simp [Octree.new, Octree.isAbsent, Octree.setPoints]
          have e4 : Octree.insert (m + 1) acc0 y = none := by
            have hpush2 : (acc0.points.isSome
                && decide ((acc0.points.getD []).length ≤ acc0.capacity))
                  = false := by
              simp [haccpts]
            rw [Octree.insert_succ_slow m acc0 y hpush2]
            rw [Octree.insChild_of_nonabsent acc0 y
              (by rw [hi2, haccchild]; exact hc2abs)]
            rw [hi2, haccchild]
            rw [if_neg (by simp [hc2abs])]
            have hc2cap : c2.capacity = 0 := by
              rw [hc2, hnc]
              simpa using hcap
            have hc2pts : c2.points = some [x] := by
              rw [hc2]
              exact Octree.points_setPoints _ _
                (by rw [hnc]; simp [Octree.new, Octree.isAbsent,
                  Octree.setPoints])
            have hc2ch : ∀ j, (c2.child j).isAbsent = true := by
              intro j
              rw [hc2, Octree.child_setPoints, hnc, Octree.child_new]
              rfl
            rw [ih m (by omega) c2 y x hc2abs hc2cap hc2pts hc2ch hpos.symm]
            simp
          rw [e4]
          simp

/-- C6: the claim fails on the code.  `octDup` is reachable (it is produced
by one insert into a fresh capacity-0 octree, as the first conjunct
verifies by evaluation) and `ptDupB` has a finite position strictly inside
the root bounds, yet inserting it never terminates for any recursion depth:
the two coincident points are redistributed into the same child forever.
In the source this is unbounded recursion, i.e. a stack-overflow abort. -/
theorem claim6_insert_diverges :
    Octree.insert 2 oct0 ptDupA = some octDup ∧
    ¬ Octree.InsertTerminates octDup ptDupB := by
  constructor
  · with_unfolding_all decide
  · rintro ⟨fuel, t2, hfuel⟩
    have hch : ∀ j, (octDup.child j).isAbsent = true := by
      intro j
      rcases j with _|_|_|_|_|_|_|_|j
      · with_unfolding_all decide
      · with_unfolding_all decide
      · with_unfolding_all decide
      · with_unfolding_all decide
      · with_unfolding_all decide
      · with_unfolding_all decide
      · with_unfolding_all decide
      · with_unfolding_all decide
      · rw [Octree.child_ge8 octDup _ (by omega)]
        rfl
    rw [Octree.insert_dup_none fuel octDup ptDupB ptDupA
      (by with_unfolding_all decide) (by with_unfolding_all decide)
      (by with_unfolding_all decide) hch (by with_unfolding_all decide)]
      at hfuel
    cases hfuel

/-! Behaviour of `get_cells_for_index` (claim C7). -/

/-- C7, counterexample to the claim as stated: querying the identifier `[9]`
on a fresh octree takes the descend branch with path byte 9, and the source
indexes `children[9]` — an out-of-bounds panic, not a `None` return. -/
theorem claim7_counterexample :
    oct0.get_cells_for_index [9] = .oob := by
  decide

/-- C7 (amended): for identifiers all of whose selector bytes are below 8 —
which includes every identifier `get_chunk_indices` can produce — the lookup
never panics, and it is the exact-match-or-descend procedure of the claim:
an exact match returns the cells, a strictly longer identifier with matching
front descends into the child named by the next byte (the `absent` child —
a region that was never created — answers not-found), and any other
identifier returns not-found.  For a byte 8 or larger at the branch point
the source panics instead (see the counterexample). -/
theorem claim7_amended :
    ∀ (t : Octree) (path : List Nat), (∀ b ∈ path, b < 8) →
      (t.get_cells_for_index path ≠ .oob) ∧
      (t.isAbsent = false → t.octree_index = path →
        t.get_cells_for_index path = .found t.cells) ∧
      (t.isAbsent = false → t.octree_index ≠ path →
        t.octree_index.isPrefixOf path = true →
        t.octree_index.length < path.length →
        t.get_cells_for_index path =
          (t.child (path.getD t.octree_index.length 0)).get_cells_for_index
            path) ∧
      (t.isAbsent = false → t.octree_index ≠ path →
        ¬(t.octree_index.isPrefixOf path = true ∧
            t.octree_index.length < path.length) →
        t.get_cells_for_index path = .notFound) ∧
      (Octree.get_cells_for_index .absent path = .notFound) := by
  intro t
  induction t with
  | absent =>
      intro path hb
      refine ⟨by simp [Octree.get_cells_for_index], ?_, ?_, ?_, rfl⟩ <;>
        intro h <;> simp [Octree.isAbsent] at h
  | mk a b c d e f g h ce pts cap bo he dep oi iha ihb ihc ihd ihe ihf ihg
      ihh =>
      intro path hb
      refine ⟨?_, ?_, ?_, ?_, rfl⟩
      · -- never panics when all bytes are below 8
        rw [Octree.get_cells_for_index]
        by_cases h1 : oi = path
        · simp [h1]
        · rw [if_neg h1]
          by_cases h2 : (oi.isPrefixOf path && decide (oi.length < path.length))
              = true
          · rw [if_pos h2]
            have hlen : oi.length < path.length := by
              have := h2
              rw [Bool.and_eq_true] at this
              simpa using this.2
            have hbyte : path.getD oi.length 0 < 8 := by
              apply hb
              rw [List.getD_eq_getElem?_getD, List.getElem?_eq_getElem hlen]
              exact List.getElem_mem hlen
            rcases hv : path.getD oi.length 0 with _|_|_|_|_|_|_|_|v
            · exact (iha path hb).1
            · exact (ihb path hb).1
            · exact (ihc path hb).1
            · exact (ihd path hb).1
            · exact (ihe path hb).1
            · exact (ihf path hb).1
            · exact (ihg path hb).1
            · exact (ihh path hb).1
            · omega
          · rw [if_neg (by simpa using h2)]
            simp
      · intro _ h1
        rw [Octree.get_cells_for_index]
        simp only [Octree.octree_index] at h1
        simp [h1, Octree.cells]
      · intro _ h1 h2 h3
        rw [Octree.get_cells_for_index]
        simp only [Octree.octree_index] at h1 h2 h3
        rw [if_neg h1, if_pos (by simp [h2, h3])]
        simp only [Octree.octree_index]
        have hbyte : path.getD oi.length 0 < 8 := by
          apply hb
          rw [List.getD_eq_getElem?_getD, List.getElem?_eq_getElem h3]
          exact List.getElem_mem h3
        rcases hv : path.getD oi.length 0 with _|_|_|_|_|_|_|_|v <;>
          first
            | omega
            | (simp [Octree.child, Octree.childrenList, List.getD,
                Octree.get_cells_for_index])
      · intro _ h1 h23
        rw [Octree.get_cells_for_index]
        simp only [Octree.octree_index] at h1 h23
        rw [if_neg h1, if_neg (by simpa using h23)]

/-- C7, witness: the amended lookup behaviour applied at the concrete
two-point octree and the produced identifier `[7]`. -/
theorem claim7_witness :
    (∀ b ∈ [7], b < 8) ∧ octEW.get_cells_for_index [7] ≠ .oob := by
  refine ⟨by decide, ?_⟩
  exact (claim7_amended octEW [7] (by decide)).1

/-! Multiset bookkeeping of `cells` under `insert` (claim C1). -/

theorem Octree.isAbsent_true_iff (t : Octree) :
    t.isAbsent = true ↔ t = .absent := by
  cases t <;> simp [Octree.isAbsent]

@[simp] theorem Octree.isAbsent_setHeight (t : Octree) (n : Nat) :
    (t.setHeight n).isAbsent = t.isAbsent := by
  cases t <;> rfl

@[simp] theorem Octree.isAbsent_updateHeight (t : Octree) :
    t.updateHeight.isAbsent = t.isAbsent := by
  unfold Octree.updateHeight
  rw [Octree.isAbsent_setHeight]

@[simp] theorem Octree.cells_setHeight (t : Octree) (n : Nat) :
    (t.setHeight n).cells = t.cells := by
  cases t <;> rfl

@[simp] theorem Octree.cells_updateHeight (t : Octree) :
    t.updateHeight.cells = t.cells := by
  unfold Octree.updateHeight
  rw [Octree.cells_setHeight]

@[simp] theorem Octree.cells_new (cap : Nat) (ce : V3) (b : ℚ) (d : Nat)
    (oi : List Nat) : (Octree.new cap ce b d oi).cells = [] := rfl

@[simp] theorem Octree.cells_absent : (Octree.absent).cells = [] := rfl

/-- `insert` never returns the empty slot marker when fed a real node. -/
theorem Octree.insert_isAbsent :
    ∀ (fuel : Nat) (t : Octree) (p : Point) (t' : Octree),
      t.isAbsent = false → Octree.insert fuel t p = some t' →
        t'.isAbsent = false := by
  intro fuel
  induction fuel with
  | zero =>
      intro t p t' _ hins
      simp [Octree.insert_zero] at hins
  | succ fuel ih =>
      intro t p t' habs hins
      by_cases hpush : (t.points.isSome
          && decide ((t.points.getD []).length ≤ t.capacity)) = true
      · rw [Octree.insert_succ_push fuel t p hpush] at hins
        cases hins
        simpa using habs
      · rw [Octree.insert_succ_slow fuel t p (Bool.eq_false_iff.mpr hpush)]
          at hins
        rcases Option.bind_eq_some.mp hins with ⟨t2, h2, h3⟩
        have ht2abs : t2.isAbsent = false := by
          by_cases hslot :
              ((t.insChild p).child (t.pos_to_child p.position)).isAbsent
                = true
          · rw [if_pos hslot] at h2
            cases h2
            simpa using habs
          · rw [if_neg hslot] at h2
            rcases Option.map_eq_some'.mp h2 with ⟨c2, hc2, ht2⟩
            subst ht2
            simpa using habs
        exact Octree.insert_tail_pred (fun s => s.isAbsent = false) fuel t2 t'
          (fun a q a2 ha hf => ih a q a2 ha hf)
          (fun _ => ht2abs)
          (fun ps hps => by simpa using ht2abs)
          (fun s hs => by simpa using hs) h3

/-- The multiset of cells of a routing node is the sum over its slots. -/
theorem Octree.cellsM_none (t : Octree) (ht : t.isAbsent = false)
    (hpt : t.points = none) :
    (t.cells : Multiset ℕ) =
      ((List.range 8).map (fun j => ((t.child j).cells : Multiset ℕ))).sum := by
  cases t with
  | absent => simp [Octree.isAbsent] at ht
  | mk a b c d e f g h ce pts cap bo he dep oi =>
      simp only [Octree.points] at hpt
      subst hpt
      show ((Octree.cells (.mk a b c d e f g h ce none cap bo he dep oi)
        : List ℕ) : Multiset ℕ) = _
      simp [Octree.cells, Octree.child, Octree.childrenList, List.getD,
        List.range_succ, ← Multiset.coe_add]

theorem msum_range8_congr (F G : Nat → Multiset ℕ)
    (hne : ∀ j, j < 8 → F j = G j) :
    ((List.range 8).map F).sum = ((List.range 8).map G).sum := by
  have h0 := hne 0 (by omega)
  have h1 := hne 1 (by omega)
  have h2 := hne 2 (by omega)
  have h3 := hne 3 (by omega)
  have h4 := hne 4 (by omega)
  have h5 := hne 5 (by omega)
  have h6 := hne 6 (by omega)
  have h7 := hne 7 (by omega)
  simp [List.range_succ, h0, h1, h2, h3, h4, h5, h6, h7]

theorem msum_range8_replace (F G : Nat → Multiset ℕ) (i : Nat) (v : ℕ)
    (hi : i < 8) (hne : ∀ j, j < 8 → j ≠ i → F j = G j)
    (hEq : F i = v ::ₘ G i) :
    ((List.range 8).map F).sum = v ::ₘ ((List.range 8).map G).sum := by
  interval_cases i <;>
    · simp only [List.range_succ, List.range_zero, List.map_append,
        List.map_cons, List.map_nil, List.sum_append, List.sum_cons,
        List.sum_nil, List.nil_append, add_zero, zero_add]
      first
        | rw [hEq, hne 1 (by omega) (by omega), hne 2 (by omega) (by omega),
            hne 3 (by omega) (by omega), hne 4 (by omega) (by omega),
            hne 5 (by omega) (by omega), hne 6 (by omega) (by omega),
            hne 7 (by omega) (by omega)]
        | rw [hEq, hne 0 (by omega) (by omega), hne 2 (by omega) (by omega),
            hne 3 (by omega) (by omega), hne 4 (by omega) (by omega),
            hne 5 (by omega) (by omega), hne 6 (by omega) (by omega),
            hne 7 (by omega) (by omega)]
        | rw [hEq, hne 0 (by omega) (by omega), hne 1 (by omega) (by omega),
            hne 3 (by omega) (by omega), hne 4 (by omega) (by omega),
            hne 5 (by omega) (by omega), hne 6 (by omega) (by omega),
            hne 7 (by omega) (by omega)]
        | rw [hEq, hne 0 (by omega) (by omega), hne 1 (by omega) (by omega),
            hne 2 (by omega) (by omega), hne 4 (by omega) (by omega),
            hne 5 (by omega) (by omega), hne 6 (by omega) (by omega),
            hne 7 (by omega) (by omega)]
        | rw [hEq, hne 0 (by omega) (by omega), hne 1 (by omega) (by omega),
            hne 2 (by omega) (by omega), hne 3 (by omega) (by omega),
            hne 5 (by omega) (by omega), hne 6 (by omega) (by omega),
            hne 7 (by omega) (by omega)]
        | rw [hEq, hne 0 (by omega) (by omega), hne 1 (by omega) (by omega),
            hne 2 (by omega) (by omega), hne 3 (by omega) (by omega),
            hne 4 (by omega) (by omega), hne 6 (by omega) (by omega),
            hne 7 (by omega) (by omega)]
        | rw [hEq, hne 0 (by omega) (by omega), hne 1 (by omega) (by omega),
            hne 2 (by omega) (by omega), hne 3 (by omega) (by omega),
            hne 4 (by omega) (by omega), hne 5 (by omega) (by omega),
            hne 7 (by omega) (by omega)]
        | rw [hEq, hne 0 (by omega) (by omega), hne 1 (by omega) (by omega),
            hne 2 (by omega) (by omega), hne 3 (by omega) (by omega),
            hne 4 (by omega) (by omega), hne 5 (by omega) (by omega),
            hne 6 (by omega) (by omega)]
      simp only [← Multiset.singleton_add]
      abel

theorem msum_range8_single (F : Nat → Multiset ℕ) (i : Nat) (hi : i < 8)
    (hzero : ∀ j, j < 8 → j ≠ i → F j = 0) :
    ((List.range 8).map F).sum = F i := by
  interval_cases i <;>
    · simp only [List.range_succ, List.range_zero, List.map_append,
        List.map_cons, List.map_nil, List.sum_append, List.sum_cons,
        List.sum_nil, List.nil_append, add_zero, zero_add]
      first
        | rw [hzero 1 (by omega) (by omega), hzero 2 (by omega) (by omega),
            hzero 3 (by omega) (by omega), hzero 4 (by omega) (by omega),
            hzero 5 (by omega) (by omega), hzero 6 (by omega) (by omega),
            hzero 7 (by omega) (by omega)]
        | rw [hzero 0 (by omega) (by omega), hzero 2 (by omega) (by omega),
            hzero 3 (by omega) (by omega), hzero 4 (by omega) (by omega),
            hzero 5 (by omega) (by omega), hzero 6 (by omega) (by omega),
            hzero 7 (by omega) (by omega)]
        | rw [hzero 0 (by omega) (by omega), hzero 1 (by omega) (by omega),
            hzero 3 (by omega) (by omega), hzero 4 (by omega) (by omega),
            hzero 5 (by omega) (by omega), hzero 6 (by omega) (by omega),
            hzero 7 (by omega) (by omega)]
        | rw [hzero 0 (by omega) (by omega), hzero 1 (by omega) (by omega),
            hzero 2 (by omega) (by omega), hzero 4 (by omega) (by omega),
            hzero 5 (by omega) (by omega), hzero 6 (by omega) (by omega),
            hzero 7 (by omega) (by omega)]
        | rw [hzero 0 (by omega) (by omega), hzero 1 (by omega) (by omega),
            hzero 2 (by omega) (by omega), hzero 3 (by omega) (by omega),
            hzero 5 (by omega) (by omega), hzero 6 (by omega) (by omega),
            hzero 7 (by omega) (by omega)]
        | rw [hzero 0 (by omega) (by omega), hzero 1 (by omega) (by omega),
            hzero 2 (by omega) (by omega), hzero 3 (by omega) (by omega),
            hzero 4 (by omega) (by omega), hzero 6 (by omega) (by omega),
            hzero 7 (by omega) (by omega)]
        | rw [hzero 0 (by omega) (by omega), hzero 1 (by omega) (by omega),
            hzero 2 (by omega) (by omega), hzero 3 (by omega) (by omega),
            hzero 4 (by omega) (by omega), hzero 5 (by omega) (by omega),
            hzero 7 (by omega) (by omega)]
        | rw [hzero 0 (by omega) (by omega), hzero 1 (by omega) (by omega),
            hzero 2 (by omega) (by omega), hzero 3 (by omega) (by omega),
            hzero 4 (by omega) (by omega), hzero 5 (by omega) (by omega),
            hzero 6 (by omega) (by omega)]
      abel

theorem Octree.cellsM_setChild (t x : Octree) (i : Nat) (v : ℕ)
    (ht : t.isAbsent = false) (hi : i < 8) (hpt : t.points = none)
    (hx : (x.cells : Multiset ℕ) = v ::ₘ ((t.child i).cells : Multiset ℕ)) :
    ((t.setChild i x).cells : Multiset ℕ) = v ::ₘ (t.cells : Multiset ℕ) := by
  rw [Octree.cellsM_none t ht hpt,
    Octree.cellsM_none (t.setChild i x) (by simpa using ht) (by simpa using hpt)]
  refine msum_range8_replace _ _ i v hi ?_ ?_
  · intro j _ hne
    rw [Octree.child_setChild_ne t i j x hne]
  · rw [Octree.child_setChild_self t i x ht hi]
    exact hx

/-- Creating an empty child slot does not change the multiset of cells. -/
theorem Octree.cellsM_insChild (t : Octree) (p : Point)
    (ht : t.isAbsent = false) (hpt : t.points = none) :
    ((t.insChild p).cells : Multiset ℕ) = (t.cells : Multiset ℕ) := by
  unfold Octree.insChild
  dsimp only
  split
  · rename_i hslot
    rw [Octree.cellsM_none t ht hpt,
      Octree.cellsM_none _ (by simpa using ht) (by simpa using hpt)]
    refine msum_range8_congr _ _ ?_
    intro j hj
    by_cases hji : j = t.pos_to_child p.position
    · subst hji
      rw [Octree.child_setChild_self t _ _ ht (Octree.pos_to_child_lt8 t
        p.position)]
      rw [(Octree.isAbsent_true_iff _).mp hslot]
      simp
    · rw [Octree.child_setChild_ne t _ j _ hji]
  · rfl

/-- The cells of the freshly filled (or already present) slot are the cells
of the original slot. -/
theorem Octree.cells_insChild_child (t : Octree) (p : Point)
    (ht : t.isAbsent = false) :
    ((t.insChild p).child (t.pos_to_child p.position)).cells
      = (t.child (t.pos_to_child p.position)).cells := by
  rw [Octree.insChild_child_self t p ht]
  split
  · rename_i hslot
    rw [(Octree.isAbsent_true_iff _).mp hslot]
    simp
  · rfl

/-- Multiset of cells along the redistribution fold. -/
theorem Octree.cellsM_foldlM (fuel : Nat)
    (hstep : ∀ (a : Octree) (q : Point) (a2 : Octree),
      a.isAbsent = false → a.routerInv = true →
      Octree.insert fuel a q = some a2 →
      (a2.cells : Multiset ℕ) = q.value ::ₘ (a.cells : Multiset ℕ)) :
    ∀ (l : List Point) (a0 r : Octree),
      a0.isAbsent = false → a0.routerInv = true →
      List.foldlM (fun acc q => Octree.insert fuel acc q) a0 l = some r →
      (r.cells : Multiset ℕ)
        = ↑(l.map Point.value) + (a0.cells : Multiset ℕ) := by
  intro l
  induction l with
  | nil =>
      intro a0 r h1 h2 hf
      simp only [List.foldlM_nil] at hf
      cases hf
      simp
  | cons b bs ih =>
      intro a0 r h1 h2 hf
      rw [List.foldlM_cons] at hf
      rcases Option.bind_eq_some.mp hf with ⟨a1, hstep1, hrest⟩
      have e1 := hstep a0 b a1 h1 h2 hstep1
      have h1' : a1.isAbsent = false :=
        Octree.insert_isAbsent fuel a0 b a1 h1 hstep1
      have h2' : a1.routerInv = true :=
        Octree.routerInv_insert fuel a0 b a1 h2 hstep1
      rw [ih a1 r h1' h2' hrest, e1]
      simp only [List.map_cons, ← Multiset.cons_coe, ← Multiset.singleton_add]
      abel

/-- One `insert` prepends exactly the inserted payload to the multiset of
cells, on any real node satisfying the router invariant. -/
theorem Octree.cellsM_insert :
    ∀ (fuel : Nat) (t : Octree) (p : Point) (t' : Octree),
      t.isAbsent = false → t.routerInv = true →
      Octree.insert fuel t p = some t' →
      (t'.cells : Multiset ℕ) = p.value ::ₘ (t.cells : Multiset ℕ) := by
  intro fuel
  induction fuel with
  | zero =>
      intro t p t' _ _ hins
      simp [Octree.insert_zero] at hins
  | succ fuel ih =>
      intro t p t' habs hinv hins
      by_cases hpush : (t.points.isSome
          && decide ((t.points.getD []).length ≤ t.capacity)) = true
      · rw [Octree.insert_succ_push fuel t p hpush] at hins
        cases hins
        have hparts := hpush
        rw [Bool.and_eq_true] at hparts
        rcases hparts with ⟨hsome, -⟩
        rcases hpt : t.points with _ | ps
        · rw [hpt] at hsome
          simp at hsome
        · rw [Octree.cells_some _ ((ps ++ [p]))
            (by rw [Octree.points_setPoints _ _ habs]; simp),
            Octree.cells_some t ps hpt]
          simp only [List.map_append, List.map_cons, List.map_nil,
            ← Multiset.coe_add, ← Multiset.cons_coe,
            ← Multiset.singleton_add]
          abel
      · rw [Octree.insert_succ_slow fuel t p (Bool.eq_false_iff.mpr hpush)]
          at hins
        rcases Option.bind_eq_some.mp hins with ⟨t2, h2, h3⟩
        rw [if_neg (by simp [Octree.insChild_child_self_nonabsent t p habs])]
          at h2
        rcases Option.map_eq_some'.mp h2 with ⟨c2, hc2, ht2⟩
        have hchabs :
            ((t.insChild p).child (t.pos_to_child p.position)).isAbsent
              = false := Octree.insChild_child_self_nonabsent t p habs
        have hchinv :
            ((t.insChild p).child (t.pos_to_child p.position)).routerInv
              = true := by
          rw [Octree.insChild_child_self t p habs]
          split
          · simp
          · exact Octree.routerInv_child t _ hinv
        have ec2 : (c2.cells : Multiset ℕ)
            = p.value ::ₘ
              (((t.insChild p).child (t.pos_to_child p.position)).cells
                : Multiset ℕ) := ih _ p c2 hchabs hchinv hc2
        have ht1abs : (t.insChild p).isAbsent = false := by simpa using habs
        rcases Option.map_eq_some'.mp h3 with ⟨t3, ht3, ht'⟩
        subst ht'
        rw [Octree.cells_updateHeight]
        rcases hpt : t.points with _ | ps
        · -- the bag was already gone: pure child update, no redistribution
          have ht2pts : t2.points = none := by
            subst ht2
            simpa using hpt
          rw [ht2pts] at ht3
          cases ht3
          subst ht2
          rw [Octree.cellsM_setChild (t.insChild p) c2
            (t.pos_to_child p.position) p.value ht1abs
            (Octree.pos_to_child_lt8 t p.position) (by simpa using hpt)
            ec2]
          rw [Octree.cellsM_insChild t p habs hpt]
        · -- over-capacity bag: the bag is drained through the children
          have hsome : t.points.isSome = true := by simp [hpt]
          have hallabs : ∀ j, (t.child j).isAbsent = true :=
            fun j => Octree.routerInv_points t j hinv hsome
          have ht2pts : t2.points = some ps := by
            subst ht2
            simpa using hpt
          rw [ht2pts] at ht3
          dsimp only at ht3
          set acc0 := t2.setPoints none with hacc0
          have ht2abs : t2.isAbsent = false := by
            subst ht2
            simpa using habs
          have haccabs : acc0.isAbsent = false := by
            rw [hacc0]
            simpa using ht2abs
          have haccpts : acc0.points = none :=
            Octree.points_setPoints _ _ ht2abs
          -- children of acc0: slot i is c2, the rest are absent
          have hchc2 : acc0.child (t.pos_to_child p.position) = c2 := by
            rw [hacc0, Octree.child_setPoints]
            subst ht2
            exact Octree.child_setChild_self _ _ _ ht1abs
              (Octree.pos_to_child_lt8 t p.position)
          have hchabs0 : ∀ j, j ≠ t.pos_to_child p.position →
              acc0.child j = .absent := by
            intro j hj
            rw [hacc0, Octree.child_setPoints]
            subst ht2
            rw [Octree.child_setChild_ne _ _ _ _ hj,
              Octree.insChild_child_ne t p j hj]
            exact (Octree.isAbsent_true_iff _).mp (hallabs j)
          have hc2inv : c2.routerInv = true :=
            Octree.routerInv_insert fuel _ p c2 hchinv hc2
          have haccinv : acc0.routerInv = true := by
            refine Octree.routerInv_build acc0 ?_ ?_
            · intro hsome2
              rw [haccpts] at hsome2
              simp at hsome2
            · intro j _
              by_cases hj : j = t.pos_to_child p.position
              · subst hj
                rw [hchc2]
                exact hc2inv
              · rw [hchabs0 j hj]
                rfl
          have haccM : (acc0.cells : Multiset ℕ) = {p.value} := by
            rw [Octree.cellsM_none acc0 haccabs haccpts]
            rw [msum_range8_single _ (t.pos_to_child p.position)
              (Octree.pos_to_child_lt8 t p.position)
              (fun j _ hj => by rw [hchabs0 j hj]; rfl)]
            rw [hchc2, ec2, Octree.cells_insChild_child t p habs,
              (Octree.isAbsent_true_iff _).mp (hallabs _)]
            simp
          have := Octree.cellsM_foldlM fuel
            (fun a q a2 ha hr hf => ih a q a2 ha hr hf) ps acc0 t3 haccabs
            haccinv ht3
          rw [this, haccM, Octree.cells_some t ps hpt]
          simp only [← Multiset.singleton_add]
          abel

/-! Lookup of produced identifiers (claim C1). -/

theorem getD_append_cons (l r : List Nat) (j : Nat) :
    (l ++ j :: r).getD l.length 0 = j := by
  induction l with
  | nil => rfl
  | cons x xs ih => simpa using ih

theorem isPrefixOf_append_self (l r : List Nat) :
    l.isPrefixOf (l ++ r) = true := by
  induction l with
  | nil => simp [List.isPrefixOf]
  | cons x xs ih => simpa [List.isPrefixOf] using ih

/-- Looking up a node's own identifier returns its own cells. -/
theorem Octree.lookup_self (t : Octree) (ht : t.isAbsent = false) :
    t.get_cells_for_index t.octree_index = .found t.cells := by
  cases t with
  | absent => simp [Octree.isAbsent] at ht
  | mk a b c d e f g h ce pts cap bo he dep oi =>
      rw [Octree.get_cells_for_index]
      simp [Octree.octree_index, Octree.cells]

/-- Looking up an identifier that extends the node's own by a valid slot
byte descends into that child. -/
theorem Octree.lookup_descend (t : Octree) (j : Nat) (rest : List Nat)
    (ht : t.isAbsent = false) (hj : j < 8) :
    t.get_cells_for_index (t.octree_index ++ j :: rest)
      = (t.child j).get_cells_for_index (t.octree_index ++ j :: rest) := by
  cases t with
  | absent => simp [Octree.isAbsent] at ht
  | mk a b c d e f g h ce pts cap bo he dep oi =>
      rw [Octree.get_cells_for_index]
      simp only [Octree.octree_index]
      have hne : oi ≠ oi ++ j :: rest := by
        intro hcontra
        have := congrArg List.length hcontra
        simp at this
      rw [if_neg hne, if_pos (by simp [isPrefixOf_append_self]),
        getD_append_cons]
      rcases j with _|_|_|_|_|_|_|_|j <;>
        first
          | omega
          | simp [Octree.child, Octree.childrenList, List.getD]

/-- Every identifier produced by `get_chunk_indices` extends the identifier
of the node it was produced under. -/
theorem Octree.gci_pre :
    ∀ (t : Octree) (fuel : Nat) (target : V3) (idx : List Nat),
      t.idxOk = true → idx ∈ t.get_chunk_indices fuel target →
      ∃ rest, idx = t.octree_index ++ rest := by
  intro t
  induction t with
  | absent =>
      intro fuel target idx _ hmem
      simp [Octree.get_chunk_indices] at hmem
  | mk a b c d e f g h ce pts cap bo he dep oi iha ihb ihc ihd ihe ihf ihg
      ihh =>
      intro fuel target idx hidx hmem
      rw [Octree.get_chunk_indices] at hmem
      split_ifs at hmem with hcull hemit
      · simp at hmem
      · simp at hmem
        exact ⟨[], by rw [hmem]; simp [Octree.octree_index]⟩
      · simp only [List.mem_append] at hmem
        rcases hmem with ((((((hx | hx) | hx) | hx) | hx) | hx) | hx) | hx
        · by_cases hxa : a.isAbsent = true
          · rw [(Octree.isAbsent_true_iff a).mp hxa] at hx
            simp [Octree.get_chunk_indices] at hx
          · have hcx : (Octree.mk a b c d e f g h ce pts cap bo he dep oi).child 0 = a := by
              simp [Octree.child, Octree.childrenList, List.getD]
            have hxok : a.idxOk = true := by
              rw [← hcx]
              exact Octree.idxOk_child _ 0 hidx
            rcases iha fuel target idx hxok hx with ⟨rest, hrest⟩
            have hxoi : a.octree_index
                = (Octree.mk a b c d e f g h ce pts cap bo he dep oi).octree_index ++ [0] := by
              rw [← hcx]
              exact Octree.idxOk_child_index _ 0 hidx
                (by rw [hcx]; simpa using hxa)
            refine ⟨0 :: rest, ?_⟩
            rw [hrest, hxoi]
            simp [Octree.octree_index]
        · by_cases hxa : b.isAbsent = true
          · rw [(Octree.isAbsent_true_iff b).mp hxa] at hx
            simp [Octree.get_chunk_indices] at hx
          · have hcx : (Octree.mk a b c d e f g h ce pts cap bo he dep oi).child 1 = b := by
              simp [Octree.child, Octree.childrenList, List.getD]
            have hxok : b.idxOk = true := by
              rw [← hcx]
              exact Octree.idxOk_child _ 1 hidx
            rcases ihb fuel target idx hxok hx with ⟨rest, hrest⟩
            have hxoi : b.octree_index
                = (Octree.mk a b c d e f g h ce pts cap bo he dep oi).octree_index ++ [1] := by
              rw [← hcx]
              exact Octree.idxOk_child_index _ 1 hidx
                (by rw [hcx]; simpa using hxa)
            refine ⟨1 :: rest, ?_⟩
            rw [hrest, hxoi]
            simp [Octree.octree_index]
        · by_cases hxa : c.isAbsent = true
          · rw [(Octree.isAbsent_true_iff c).mp hxa] at hx
            simp [Octree.get_chunk_indices] at hx
          · have hcx : (Octree.mk a b c d e f g h ce pts cap bo he dep oi).child 2 = c := by
              simp [Octree.child, Octree.childrenList, List.getD]
            have hxok : c.idxOk = true := by
              rw [← hcx]
              exact Octree.idxOk_child _ 2 hidx
            rcases ihc fuel target idx hxok hx with ⟨rest, hrest⟩
            have hxoi : c.octree_index
                = (Octree.mk a b c d e f g h ce pts cap bo he dep oi).octree_index ++ [2] := by
              rw [← hcx]
              exact Octree.idxOk_child_index _ 2 hidx
                (by rw [hcx]; simpa using hxa)
            refine ⟨2 :: rest, ?_⟩
            rw [hrest, hxoi]
            simp [Octree.octree_index]
        · by_cases hxa : d.isAbsent = true
          · rw [(Octree.isAbsent_true_iff d).mp hxa] at hx
            simp [Octree.get_chunk_indices] at hx
          · have hcx : (Octree.mk a b c d e f g h ce pts cap bo he dep oi).child 3 = d := by
              simp [Octree.child, Octree.childrenList, List.getD]
            have hxok : d.idxOk = true := by
              rw [← hcx]
              exact Octree.idxOk_child _ 3 hidx
            rcases ihd fuel target idx hxok hx with ⟨rest, hrest⟩
            have hxoi : d.octree_index
                = (Octree.mk a b c d e f g h ce pts cap bo he dep oi).octree_index ++ [3] := by
              rw [← hcx]
              exact Octree.idxOk_child_index _ 3 hidx
                (by rw [hcx]; simpa using hxa)
            refine ⟨3 :: rest, ?_⟩
            rw [hrest, hxoi]
            simp [Octree.octree_index]
        · by_cases hxa : e.isAbsent = true
          · rw [(Octree.isAbsent_true_iff e).mp hxa] at hx
            simp [Octree.get_chunk_indices] at hx
          · have hcx : (Octree.mk a b c d e f g h ce pts cap bo he dep oi).child 4 = e := by
              simp [Octree.child, Octree.childrenList, List.getD]
            have hxok : e.idxOk = true := by
              rw [← hcx]
              exact Octree.idxOk_child _ 4 hidx
            rcases ihe fuel target idx hxok hx with ⟨rest, hrest⟩
            have hxoi : e.octree_index
                = (Octree.mk a b c d e f g h ce pts cap bo he dep oi).octree_index ++ [4] := by
              rw [← hcx]
              exact Octree.idxOk_child_index _ 4 hidx
                (by rw [hcx]; simpa using hxa)
            refine ⟨4 :: rest, ?_⟩
            rw [hrest, hxoi]
            simp [Octree.octree_index]
        · by_cases hxa : f.isAbsent = true
          · rw [(Octree.isAbsent_true_iff f).mp hxa] at hx
            simp [Octree.get_chunk_indices] at hx
          · have hcx : (Octree.mk a b c d e f g h ce pts cap bo he dep oi).child 5 = f := by
              simp [Octree.child, Octree.childrenList, List.getD]
            have hxok : f.idxOk = true := by
              rw [← hcx]
              exact Octree.idxOk_child _ 5 hidx
            rcases ihf fuel target idx hxok hx with ⟨rest, hrest⟩
            have hxoi : f.octree_index
                = (Octree.mk a b c d e f g h ce pts cap bo he dep oi).octree_index ++ [5] := by
              rw [← hcx]
              exact Octree.idxOk_child_index _ 5 hidx
                (by rw [hcx]; simpa using hxa)
            refine ⟨5 :: rest, ?_⟩
            rw [hrest, hxoi]
            simp [Octree.octree_index]
        · by_cases hxa : g.isAbsent = true
          · rw [(Octree.isAbsent_true_iff g).mp hxa] at hx
            simp [Octree.get_chunk_indices] at hx
          · have hcx : (Octree.mk a b c d e f g h ce pts cap bo he dep oi).child 6 = g := by
              simp [Octree.child, Octree.childrenList, List.getD]
            have hxok : g.idxOk = true := by
              rw [← hcx]
              exact Octree.idxOk_child _ 6 hidx
            rcases ihg fuel target idx hxok hx with ⟨rest, hrest⟩
            have hxoi : g.octree_index
                = (Octree.mk a b c d e f g h ce pts cap bo he dep oi).octree_index ++ [6] := by
              rw [← hcx]
              exact Octree.idxOk_child_index _ 6 hidx
                (by rw [hcx]; simpa using hxa)
            refine ⟨6 :: rest, ?_⟩
            rw [hrest, hxoi]
            simp [Octree.octree_index]
        · by_cases hxa : h.isAbsent = true
          · rw [(Octree.isAbsent_true_iff h).mp hxa] at hx
            simp [Octree.get_chunk_indices] at hx
          · have hcx : (Octree.mk a b c d e f g h ce pts cap bo he dep oi).child 7 = h := by
              simp [Octree.child, Octree.childrenList, List.getD]
            have hxok : h.idxOk = true := by
              rw [← hcx]
              exact Octree.idxOk_child _ 7 hidx
            rcases ihh fuel target idx hxok hx with ⟨rest, hrest⟩
            have hxoi : h.octree_index
                = (Octree.mk a b c d e f g h ce pts cap bo he dep oi).octree_index ++ [7] := by
              rw [← hcx]
              exact Octree.idxOk_child_index _ 7 hidx
                (by rw [hcx]; simpa using hxa)
            refine ⟨7 :: rest, ?_⟩
            rw [hrest, hxoi]
            simp [Octree.octree_index]

/-- Identifiers produced under a child are looked up identically from the
parent and from that child: the parent's lookup descends straight into it. -/
theorem Octree.gathered_piece (t x : Octree) (jx : Nat) (fuel : Nat)
    (target : V3) (ht : t.isAbsent = false) (hj : jx < 8)
    (hcx : t.child jx = x) (hidx : t.idxOk = true) :
    (x.get_chunk_indices fuel target).map (lookupCells t)
      = (x.get_chunk_indices fuel target).map (lookupCells x) := by
  apply List.map_congr_left
  intro idx hmem
  by_cases hxa : x.isAbsent = true
  · rw [(Octree.isAbsent_true_iff x).mp hxa] at hmem
    simp [Octree.get_chunk_indices] at hmem
  · have hxok : x.idxOk = true := by
      rw [← hcx]
      exact Octree.idxOk_child t jx hidx
    rcases Octree.gci_pre x fuel target idx hxok hmem with ⟨rest, hrest⟩
    have hxoi : x.octree_index = t.octree_index ++ [jx] := by
      rw [← hcx]
      exact Octree.idxOk_child_index t jx hidx (by rw [hcx]; simpa using hxa)
    have hidx2 : idx = t.octree_index ++ jx :: rest := by
      rw [hrest, hxoi]
      simp
    unfold lookupCells
    rw [hidx2, Octree.lookup_descend t jx rest ht hj, hcx]

/-- Every cell id gathered through `get_chunk_indices` +
`get_cells_for_index` occurs in `cells()`, with multiplicity: the gathered
list is a sub-multiset of the tree's cells. -/
theorem Octree.gatheredM_le :
    ∀ (t : Octree), t.isAbsent = false → t.idxOk = true →
      t.routerInv = true → ∀ (fuel : Nat) (target : V3),
      ((Octree.gatheredCells fuel t target : List Nat) : Multiset Nat)
        ≤ (t.cells : Multiset Nat) := by
  intro t
  induction t with
  | absent =>
      intro habs
      simp [Octree.isAbsent] at habs
  | mk a b c d e f g h ce pts cap bo he dep oi iha ihb ihc ihd ihe ihf ihg
      ihh =>
      intro _ hidx hinv fuel target
      unfold Octree.gatheredCells
      rw [Octree.get_chunk_indices]
      split_ifs with hcull hemit
      · simp
      · have hself := Octree.lookup_self
          (Octree.mk a b c d e f g h ce pts cap bo he dep oi) rfl
        simp only [Octree.octree_index] at hself
        simp [lookupCells, hself]
      · cases pts with
        | some ps =>
            have hab : ∀ j, j < 8 →
                ((Octree.mk a b c d e f g h ce (some ps) cap bo he dep oi).child j).isAbsent = true := by
              intro j hj
              exact Octree.routerInv_points _ j hinv (by simp [Octree.points])
            have ha0 : a = .absent :=
              (Octree.isAbsent_true_iff a).mp
                (by simpa [Octree.child, Octree.childrenList, List.getD]
                  using hab 0 (by omega))
            have hb0 : b = .absent :=
              (Octree.isAbsent_true_iff b).mp
                (by simpa [Octree.child, Octree.childrenList, List.getD]
                  using hab 1 (by omega))
            have hc0 : c = .absent :=
              (Octree.isAbsent_true_iff c).mp
                (by simpa [Octree.child, Octree.childrenList, List.getD]
                  using hab 2 (by omega))
            have hd0 : d = .absent :=
              (Octree.isAbsent_true_iff d).mp
                (by simpa [Octree.child, Octree.childrenList, List.getD]
                  using hab 3 (by omega))
            have he0 : e = .absent :=
              (Octree.isAbsent_true_iff e).mp
                (by simpa [Octree.child, Octree.childrenList, List.getD]
                  using hab 4 (by omega))
            have hf0 : f = .absent :=
              (Octree.isAbsent_true_iff f).mp
                (by simpa [Octree.child, Octree.childrenList, List.getD]
                  using hab 5 (by omega))
            have hg0 : g = .absent :=
              (Octree.isAbsent_true_iff g).mp
                (by simpa [Octree.child, Octree.childrenList, List.getD]
                  using hab 6 (by omega))
            have hh0 : h = .absent :=
              (Octree.isAbsent_true_iff h).mp
                (by simpa [Octree.child, Octree.childrenList, List.getD]
                  using hab 7 (by omega))
            subst ha0 hb0 hc0 hd0 he0 hf0 hg0 hh0
            simp [Octree.get_chunk_indices]
        | none =>
            have pa : (((a.get_chunk_indices fuel target).map
                  (lookupCells (Octree.mk a b c d e f g h ce none cap bo he dep oi))).flatten : Multiset Nat)
                ≤ (a.cells : Multiset Nat) := by
              by_cases hxa : a.isAbsent = true
              · rw [(Octree.isAbsent_true_iff a).mp hxa]
                simp [Octree.get_chunk_indices]
              · have hch : (Octree.mk a b c d e f g h ce none cap bo he dep oi).child 0 = a := by
                  simp [Octree.child, Octree.childrenList, List.getD]
                rw [Octree.gathered_piece (Octree.mk a b c d e f g h ce none cap bo he dep oi) a 0 fuel target rfl
                  (by omega) hch hidx]
                exact iha (by simpa using hxa)
                  (by rw [← hch]; exact Octree.idxOk_child _ 0 hidx)
                  (by rw [← hch]; exact Octree.routerInv_child _ 0 hinv)
                  fuel target
            have pb : (((b.get_chunk_indices fuel target).map
                  (lookupCells (Octree.mk a b c d e f g h ce none cap bo he dep oi))).flatten : Multiset Nat)
                ≤ (b.cells : Multiset Nat) := by
              by_cases hxa : b.isAbsent = true
              · rw [(Octree.isAbsent_true_iff b).mp hxa]
                simp [Octree.get_chunk_indices]
              · have hch : (Octree.mk a b c d e f g h ce none cap bo he dep oi).child 1 = b := by
                  simp [Octree.child, Octree.childrenList, List.getD]
                rw [Octree.gathered_piece (Octree.mk a b c d e f g h ce none cap bo he dep oi) b 1 fuel target rfl
                  (by omega) hch hidx]
                exact ihb (by simpa using hxa)
                  (by rw [← hch]; exact Octree.idxOk_child _ 1 hidx)
                  (by rw [← hch]; exact Octree.routerInv_child _ 1 hinv)
                  fuel target
            have pc : (((c.get_chunk_indices fuel target).map
                  (lookupCells (Octree.mk a b c d e f g h ce none cap bo he dep oi))).flatten : Multiset Nat)
                ≤ (c.cells : Multiset Nat) := by
              by_cases hxa : c.isAbsent = true
              · rw [(Octree.isAbsent_true_iff c).mp hxa]
                simp [Octree.get_chunk_indices]
              · have hch : (Octree.mk a b c d e f g h ce none cap bo he dep oi).child 2 = c := by
                  simp [Octree.child, Octree.childrenList, List.getD]
                rw [Octree.gathered_piece (Octree.mk a b c d e f g h ce none cap bo he dep oi) c 2 fuel target rfl
                  (by omega) hch hidx]
                exact ihc (by simpa using hxa)
                  (by rw [← hch]; exact Octree.idxOk_child _ 2 hidx)
                  (by rw [← hch]; exact Octree.routerInv_child _ 2 hinv)
                  fuel target
            have pd : (((d.get_chunk_indices fuel target).map
                  (lookupCells (Octree.mk a b c d e f g h ce none cap bo he dep oi))).flatten : Multiset Nat)
                ≤ (d.cells : Multiset Nat) := by
              by_cases hxa : d.isAbsent = true
              · rw [(Octree.isAbsent_true_iff d).mp hxa]
                simp [Octree.get_chunk_indices]
              · have hch : (Octree.mk a b c d e f g h ce none cap bo he dep oi).child 3 = d := by
                  simp [Octree.child, Octree.childrenList, List.getD]
                rw [Octree.gathered_piece (Octree.mk a b c d e f g h ce none cap bo he dep oi) d 3 fuel target rfl
                  (by omega) hch hidx]
                exact ihd (by simpa using hxa)
                  (by rw [← hch]; exact Octree.idxOk_child _ 3 hidx)
                  (by rw [← hch]; exact Octree.routerInv_child _ 3 hinv)
                  fuel target
            have pe : (((e.get_chunk_indices fuel target).map
                  (lookupCells (Octree.mk a b c d e f g h ce none cap bo he dep oi))).flatten : Multiset Nat)
                ≤ (e.cells : Multiset Nat) := by
              by_cases hxa : e.isAbsent = true
              · rw [(Octree.isAbsent_true_iff e).mp hxa]
                simp [Octree.get_chunk_indices]
              · have hch : (Octree.mk a b c d e f g h ce none cap bo he dep oi).child 4 = e := by
                  simp [Octree.child, Octree.childrenList, List.getD]
                rw [Octree.gathered_piece (Octree.mk a b c d e f g h ce none cap bo he dep oi) e 4 fuel target rfl
                  (by omega) hch hidx]
                exact ihe (by simpa using hxa)
                  (by rw [← hch]; exact Octree.idxOk_child _ 4 hidx)
                  (by rw [← hch]; exact Octree.routerInv_child _ 4 hinv)
                  fuel target
            have pf : (((f.get_chunk_indices fuel target).map
                  (lookupCells (Octree.mk a b c d e f g h ce none cap bo he dep oi))).flatten : Multiset Nat)
                ≤ (f.cells : Multiset Nat) := by
              by_cases hxa : f.isAbsent = true
              · rw [(Octree.isAbsent_true_iff f).mp hxa]
                simp [Octree.get_chunk_indices]
              · have hch : (Octree.mk a b c d e f g h ce none cap bo he dep oi).child 5 = f := by
                  simp [Octree.child, Octree.childrenList, List.getD]
                rw [Octree.gathered_piece (Octree.mk a b c d e f g h ce none cap bo he dep oi) f 5 fuel target rfl
                  (by omega) hch hidx]
                exact ihf (by simpa using hxa)
                  (by rw [← hch]; exact Octree.idxOk_child _ 5 hidx)
                  (by rw [← hch]; exact Octree.routerInv_child _ 5 hinv)
                  fuel target
            have pg : (((g.get_chunk_indices fuel target).map
                  (lookupCells (Octree.mk a b c d e f g h ce none cap bo he dep oi))).flatten : Multiset Nat)
                ≤ (g.cells : Multiset Nat) := by
              by_cases hxa : g.isAbsent = true
              · rw [(Octree.isAbsent_true_iff g).mp hxa]
                simp [Octree.get_chunk_indices]
              · have hch : (Octree.mk a b c d e f g h ce none cap bo he dep oi).child 6 = g := by
                  simp [Octree.child, Octree.childrenList, List.getD]
                rw [Octree.gathered_piece (Octree.mk a b c d e f g h ce none cap bo he dep oi) g 6 fuel target rfl
                  (by omega) hch hidx]
                exact ihg (by simpa using hxa)
                  (by rw [← hch]; exact Octree.idxOk_child _ 6 hidx)
                  (by rw [← hch]; exact Octree.routerInv_child _ 6 hinv)
                  fuel target
            have ph : (((h.get_chunk_indices fuel target).map
                  (lookupCells (Octree.mk a b c d e f g h ce none cap bo he dep oi))).flatten : Multiset Nat)
                ≤ (h.cells : Multiset Nat) := by
              by_cases hxa : h.isAbsent = true
              · rw [(Octree.isAbsent_true_iff h).mp hxa]
                simp [Octree.get_chunk_indices]
              · have hch : (Octree.mk a b c d e f g h ce none cap bo he dep oi).child 7 = h := by
                  simp [Octree.child, Octree.childrenList, List.getD]
                rw [Octree.gathered_piece (Octree.mk a b c d e f g h ce none cap bo he dep oi) h 7 fuel target rfl
                  (by omega) hch hidx]
                exact ihh (by simpa using hxa)
                  (by rw [← hch]; exact Octree.idxOk_child _ 7 hidx)
                  (by rw [← hch]; exact Octree.routerInv_child _ 7 hinv)
                  fuel target
            simp only [List.map_append, List.flatten_append]
            show _ ≤ ((a.cells ++ b.cells ++ c.cells ++ d.cells ++ e.cells
              ++ f.cells ++ g.cells ++ h.cells : List Nat) : Multiset Nat)
            simp only [← Multiset.coe_add] at *
            gcongr <;> assumption

/-- A successful insertion sequence keeps the tree a real node. -/
theorem Octree.isAbsent_insertAll (fuel : Nat) (t : Octree) (ps : List Point)
    (t' : Octree) (h : t.isAbsent = false)
    (hins : Octree.insertAll fuel t ps = some t') : t'.isAbsent = false :=
  foldlM_option_preserve (fun s => s.isAbsent = false) _
    (fun a q a2 ha hf => Octree.insert_isAbsent fuel a q a2 ha hf) ps t t' h
    hins

/-- After a successful insertion sequence the multiset of stored cell ids
is exactly the inserted values on top of what was already there. -/
theorem Octree.cellsM_insertAll :
    ∀ (ps : List Point) (fuel : Nat) (t t' : Octree),
      t.isAbsent = false → t.routerInv = true →
      Octree.insertAll fuel t ps = some t' →
      (t'.cells : Multiset Nat)
        = (ps.map Point.value : List Nat) + (t.cells : Multiset Nat) := by
  intro ps
  induction ps with
  | nil =>
      intro fuel t t' _ _ hins
      simp only [Octree.insertAll, List.foldlM_nil, Option.pure_def,
        Option.some.injEq] at hins
      subst hins
      simp
  | cons p ps ih =>
      intro fuel t t' habs hinv hins
      rw [Octree.insertAll, List.foldlM_cons] at hins
      rcases Option.bind_eq_some.mp hins with ⟨t1, h1, h2⟩
      have hM1 := Octree.cellsM_insert fuel t p t1 habs hinv h1
      have hM2 := ih fuel t1 t'
        (Octree.insert_isAbsent fuel t p t1 habs h1)
        (Octree.routerInv_insert fuel t p t1 hinv h1) h2
      rw [hM2, hM1, List.map_cons,
        show ((p.value :: List.map Point.value ps : List Nat) : Multiset Nat)
          = p.value ::ₘ ((List.map Point.value ps : List Nat) : Multiset Nat)
          from rfl]
      simp only [← Multiset.singleton_add]
      abel

/-- C1, counterexample to the claim as stated: two points with distinct
unit-sphere positions are inserted, yet for the POV target `(1,0,0)` the
union of `cells()` over the identifiers returned by `get_chunk_indices` is
`[0]` while the tree stores cells `[1, 0]` — the cell of the far point is
omitted, because `get_chunk_indices` culls any subtree whose projected
distance exceeds `0.9` before emitting its identifier. -/
theorem claim1_counterexample :
    ptE.position.distSq ⟨0, 0, 0⟩ = 1 ∧ ptW.position.distSq ⟨0, 0, 0⟩ = 1 ∧
    ptE.position ≠ ptW.position ∧
    Octree.insertAll 6 oct0 [ptE, ptW] = some octEW ∧
    Octree.gatheredCells 10 octEW ⟨1, 0, 0⟩ = [0] ∧
    octEW.cells = [1, 0] := by
  refine ⟨?_, ?_, ?_, ?_, ?_, ?_⟩ <;> with_unfolding_all decide

/-- C1 (amended): for every octree built by inserting points with pairwise
distinct cell ids from a fresh node, and any POV target, the union of
`cells()` over the identifiers returned by `get_chunk_indices` contains no
cell id twice and contains only inserted cell ids — no id appears under two
returned identifiers, but ids may be omitted (distance culling). -/
theorem claim1_amended (fuel fuel2 cap depth : Nat) (ce : V3) (bo : ℚ)
    (oi : List Nat) (pts : List Point) (t : Octree) (target : V3)
    (hN : (pts.map Point.value).Nodup)
    (hins : Octree.insertAll fuel (Octree.new cap ce bo depth oi) pts
      = some t) :
    (Octree.gatheredCells fuel2 t target).Nodup ∧
      ∀ v ∈ Octree.gatheredCells fuel2 t target, v ∈ pts.map Point.value := by
  have habs : (Octree.new cap ce bo depth oi).isAbsent = false := rfl
  have ht_abs : t.isAbsent = false :=
    Octree.isAbsent_insertAll fuel _ pts t habs hins
  have ht_inv : t.routerInv = true :=
    Octree.routerInv_insertAll fuel _ pts t
      (Octree.routerInv_new cap ce bo depth oi) hins
  have ht_idx : t.idxOk = true :=
    Octree.idxOk_insertAll fuel _ pts t
      (Octree.idxOk_new cap ce bo depth oi) hins
  have hcells : (t.cells : Multiset Nat)
      = ((pts.map Point.value : List Nat) : Multiset Nat) := by
    rw [Octree.cellsM_insertAll pts fuel _ t habs
      (Octree.routerInv_new cap ce bo depth oi) hins]
    simp [Octree.new, Octree.cells]
  have hle := Octree.gatheredM_le t ht_abs ht_idx ht_inv fuel2 target
  rw [hcells] at hle
  constructor
  · exact Multiset.coe_nodup.mp
      (Multiset.nodup_of_le hle (Multiset.coe_nodup.mpr hN))
  · intro v hv
    exact Multiset.mem_coe.mp
      (Multiset.mem_of_le hle (Multiset.mem_coe.mpr hv))

/-- C1, witness: the amended statement applied to the two-point tree. -/
theorem claim1_witness :
    (([ptE, ptW].map Point.value).Nodup ∧
      Octree.insertAll 6 (Octree.new 0 ⟨0, 0, 0⟩ 1 0 []) [ptE, ptW]
        = some octEW) ∧
    (Octree.gatheredCells 10 octEW ⟨1, 0, 0⟩).Nodup ∧
      ∀ v ∈ Octree.gatheredCells 10 octEW ⟨1, 0, 0⟩,
        v ∈ [ptE, ptW].map Point.value :=
  ⟨⟨by with_unfolding_all decide, by with_unfolding_all decide⟩,
    claim1_amended 6 10 0 0 ⟨0, 0, 0⟩ 1 [] [ptE, ptW] octEW ⟨1, 0, 0⟩
      (by with_unfolding_all decide) (by with_unfolding_all decide)⟩

/-! Generic fold-invariant helpers and association-list lemmas used by the
chunk-lifecycle claims. -/

theorem foldl_pres {σ α : Type} (f : σ → α → σ) (P : σ → Prop) (Q : α → Prop)
    (hstep : ∀ s a, Q a → P s → P (f s a)) :
    ∀ (l : List α), (∀ a ∈ l, Q a) → ∀ (s0 : σ), P s0 → P (l.foldl f s0) := by
  intro l
  induction l with
  | nil =>
      intro _ s0 h0
      simpa using h0
  | cons a as ih =>
      intro hQ s0 h0
      rw [List.foldl_cons]
      exact ih (fun x hx => hQ x (by simp [hx])) (f s0 a)
        (hstep s0 a (hQ a (by simp)) h0)

theorem foldlM_option_isSome {σ α : Type} (f : σ → α → Option σ)
    (P : σ → Prop) (Q : α → Prop)
    (hstep : ∀ s a, Q a → P s → ∃ s2, f s a = some s2 ∧ P s2) :
    ∀ (l : List α), (∀ a ∈ l, Q a) → ∀ (s0 : σ), P s0 →
      (List.foldlM f s0 l).isSome = true := by
  intro l
  induction l with
  | nil =>
      intro _ s0 _
      simp
  | cons a as ih =>
      intro hQ s0 h0
      rw [List.foldlM_cons]
      rcases hstep s0 a (hQ a (by simp)) h0 with ⟨s1, h1, hP1⟩
      rw [h1]
      exact ih (fun x hx => hQ x (by simp [hx])) s1 hP1

theorem foldlM_option_pres_mem {σ α : Type} (f : σ → α → Option σ)
    (P : σ → Prop) (Q : α → Prop)
    (hstep : ∀ s a s2, Q a → P s → f s a = some s2 → P s2) :
    ∀ (l : List α), (∀ a ∈ l, Q a) → ∀ (s0 r : σ), P s0 →
      List.foldlM f s0 l = some r → P r := by
  intro l
  induction l with
  | nil =>
      intro _ s0 r h0 hf
      simp only [List.foldlM_nil] at hf
      cases hf
      exact h0
  | cons a as ih =>
      intro hQ s0 r h0 hf
      rw [List.foldlM_cons] at hf
      rcases Option.bind_eq_some.mp hf with ⟨s1, h1, h2⟩
      exact ih (fun x hx => hQ x (by simp [hx])) s1 r
        (hstep s0 a s1 (hQ a (by simp)) h0 h1) h2

theorem Chunks.lookupA_upsertA {α β : Type} [DecidableEq α]
    (m : List (α × β)) (a : α) (b : β) (x : α) :
    Chunks.lookupA (Chunks.upsertA m a b) x
      = if x = a then some b else Chunks.lookupA m x := by
  induction m with
  | nil =>
      by_cases h : x = a
      · subst h
        simp [Chunks.upsertA, Chunks.lookupA]
      · simp [Chunks.upsertA, Chunks.lookupA, h, Ne.symm h]
  | cons kv rest ih =>
      obtain ⟨k, v⟩ := kv
      by_cases hka : k = a
      · by_cases hxa : x = a
        · simp [Chunks.upsertA, Chunks.lookupA, hka, hxa]
        · simp [Chunks.upsertA, Chunks.lookupA, hka, hxa, Ne.symm hxa]
      · by_cases hkx : k = x
        · have hxa : ¬ x = a := fun hc => hka (hkx.trans hc)
          simp [Chunks.upsertA, Chunks.lookupA, hka, hkx, hxa]
        · simp [Chunks.upsertA, Chunks.lookupA, hka, hkx, ih]

theorem Chunks.lookupA_isSome_of_mem {α β : Type} [DecidableEq α]
    (m : List (α × β)) (k : α) (h : k ∈ m.map Prod.fst) :
    (Chunks.lookupA m k).isSome = true := by
  induction m with
  | nil => simp at h
  | cons kv rest ih =>
      simp only [List.map_cons, List.mem_cons] at h
      by_cases hk : kv.1 = k
      · simp [Chunks.lookupA, hk]
      · rcases h with h | h
        · exact absurd h.symm hk
        · simpa [Chunks.lookupA, hk] using ih h

theorem Chunks.lookupA_removeA_ne {α β : Type} [DecidableEq α]
    (m : List (α × β)) (a k : α) (h : k ≠ a) :
    Chunks.lookupA (Chunks.removeA m a) k = Chunks.lookupA m k := by
  induction m with
  | nil => rfl
  | cons kv rest ih =>
      by_cases ha : kv.1 = a
      · have hk : ¬ kv.1 = k := fun hc => h (hc.symm.trans ha)
        simpa [Chunks.removeA, List.filter_cons, ha, Chunks.lookupA, hk,
          h, Ne.symm h] using ih
      · by_cases hk : kv.1 = k
        · simp [Chunks.removeA, List.filter_cons, ha, Chunks.lookupA, hk,
            h, Ne.symm h]
        · simpa [Chunks.removeA, List.filter_cons, ha, Chunks.lookupA, hk]
            using ih

/-! Unreachability of the `todo!()` arm of `calculate_povs` (claim C10). -/

theorem Chunks.updEnt_chunkRefs (w : Chunks.World) (e : Nat)
    (f : Chunks.Ent → Chunks.Ent) :
    (w.updEnt e f).chunkRefs = w.chunkRefs := rfl

theorem Chunks.updEnt_povPos (w : Chunks.World) (e : Nat)
    (f : Chunks.Ent → Chunks.Ent) : (w.updEnt e f).povPos = w.povPos := rfl

theorem Chunks.updEnt_povFov (w : Chunks.World) (e : Nat)
    (f : Chunks.Ent → Chunks.Ent) : (w.updEnt e f).povFov = w.povFov := rfl

/-- The needed loop body always re-inserts the identifier as `Active`. -/
theorem Chunks.processNeeded_refs (w : Chunks.World) (idx : Chunks.ChunkIndex) :
    ∃ e2, (Chunks.processNeeded w idx).chunkRefs
      = Chunks.upsertA w.chunkRefs idx (.active e2) := by
  unfold Chunks.processNeeded
  rcases hl : Chunks.lookupA w.chunkRefs idx with _ | r
  · exact ⟨w.nextId, rfl⟩
  · rcases r with e | e
    · exact ⟨e, rfl⟩
    · exact ⟨e, rfl⟩

/-- The needed loop never deletes a chunk-reference entry. -/
theorem Chunks.processNeeded_keeps (w : Chunks.World)
    (idx k : Chunks.ChunkIndex)
    (h : (Chunks.lookupA w.chunkRefs k).isSome = true) :
    (Chunks.lookupA (Chunks.processNeeded w idx).chunkRefs k).isSome = true := by
  rcases Chunks.processNeeded_refs w idx with ⟨e2, he⟩
  rw [he, Chunks.lookupA_upsertA]
  by_cases hk : k = idx <;> simp [hk, h]

/-- The obsolete loop body succeeds on any identifier that still has a
chunk-reference entry, and never deletes entries. -/
theorem Chunks.processObsolete1_refs
    (st : Chunks.World × List (Chunks.ChunkIndex × List Chunks.ChunkIndex))
    (a : Chunks.ChunkIndex)
    (h : (Chunks.lookupA st.1.chunkRefs a).isSome = true) :
    ∃ st2, Chunks.processObsolete1 st a = some st2 ∧
      ∀ k, (Chunks.lookupA st.1.chunkRefs k).isSome = true →
        (Chunks.lookupA st2.1.chunkRefs k).isSome = true := by
  unfold Chunks.processObsolete1
  rcases hl : Chunks.lookupA st.1.chunkRefs a with _ | r
  · simp [hl] at h
  · rcases r with e | e
    · refine ⟨_, rfl, ?_⟩
      intro k hk
      rw [Chunks.updEnt_chunkRefs]
      show (Chunks.lookupA
        (Chunks.upsertA st.1.chunkRefs a (.cleanup e)) k).isSome = true
      rw [Chunks.lookupA_upsertA]
      by_cases hka : k = a <;> simp [hka, hk]
    · refine ⟨_, rfl, ?_⟩
      intro k hk
      rw [Chunks.updEnt_chunkRefs]
      exact hk

/-- C10: the POV recompute never reaches the `todo!()` panic — every
identifier classified as obsolete still has a chunk-reference entry when its
transition to `Cleanup` is applied, for every input world and needed-set
resolver, so `calculate_povs` (modelled with `none` for the panic) always
returns a world. -/
theorem claim10_no_panic (neededOf : V3 → ℚ → List Chunks.ChunkIndex)
    (cam : V3) (fov : ℚ) (w : Chunks.World) :
    (Chunks.calculatePovs neededOf cam fov w).isSome = true := by
  unfold Chunks.calculatePovs
  split_ifs with hguard
  · rfl
  · simp only [Chunks.recompute, Option.isSome_map']
    set w1 : Chunks.World := { w with povPos := cam, povFov := fov } with hw1
    set needed := neededOf cam fov with hneeded
    set existing := w1.chunkRefs.map Prod.fst with hexisting
    set w2 := needed.foldl Chunks.processNeeded w1 with hw2
    set obsolete := existing.filter (fun k => decide (k ∉ needed))
      with hobsolete
    refine foldlM_option_isSome Chunks.processObsolete1
      (fun st => ∀ k ∈ obsolete,
        (Chunks.lookupA st.1.chunkRefs k).isSome = true)
      (fun a => a ∈ obsolete) ?_ obsolete (fun a ha => ha) _ ?_
    · intro s a ha hP
      rcases Chunks.processObsolete1_refs s a (hP a ha) with ⟨s2, h2, hkeep⟩
      exact ⟨s2, h2, fun k hk => hkeep k (hP k hk)⟩
    · intro k hk
      have hk0 : (Chunks.lookupA w1.chunkRefs k).isSome = true := by
        apply Chunks.lookupA_isSome_of_mem
        rw [hobsolete] at hk
        exact (List.mem_filter.mp hk).1
      exact foldl_pres Chunks.processNeeded
        (fun v => (Chunks.lookupA v.chunkRefs k).isSome = true)
        (fun _ => True)
        (fun s a _ hs => Chunks.processNeeded_keeps s a k hs)
        needed (fun _ _ => trivial) w1 hk0

/-! Idempotence of the POV update (claim C8). -/

theorem V3.distSq_self (v : V3) : v.distSq v = 0 := by
  simp [V3.distSq]

/-- The needed loop does not touch the stored POV. -/
theorem Chunks.processNeeded_pov (w : Chunks.World) (idx : Chunks.ChunkIndex) :
    (Chunks.processNeeded w idx).povPos = w.povPos ∧
    (Chunks.processNeeded w idx).povFov = w.povFov := by
  unfold Chunks.processNeeded
  rcases hl : Chunks.lookupA w.chunkRefs idx with _ | r
  · exact ⟨rfl, rfl⟩
  · rcases r with e | e
    · exact ⟨rfl, rfl⟩
    · exact ⟨rfl, rfl⟩

/-- The obsolete loop does not touch the stored POV. -/
theorem Chunks.processObsolete1_pov
    (st st2 : Chunks.World × List (Chunks.ChunkIndex × List Chunks.ChunkIndex))
    (a : Chunks.ChunkIndex) (h : Chunks.processObsolete1 st a = some st2) :
    st2.1.povPos = st.1.povPos ∧ st2.1.povFov = st.1.povFov := by
  unfold Chunks.processObsolete1 at h
  rcases hl : Chunks.lookupA st.1.chunkRefs a with _ | r <;> rw [hl] at h
  · cases h
  · rcases r with e | e <;>
      · cases h
        exact ⟨rfl, rfl⟩

/-- A successful recompute leaves the camera data it was called with in the
stored POV. -/
theorem Chunks.recompute_pov (neededOf : V3 → ℚ → List Chunks.ChunkIndex)
    (cam : V3) (fov : ℚ) (w w' : Chunks.World)
    (h : Chunks.recompute neededOf cam fov w = some w') :
    w'.povPos = cam ∧ w'.povFov = fov := by
  simp only [Chunks.recompute, Option.map_eq_some'] at h
  rcases h with ⟨q, hq, hq1⟩
  subst hq1
  refine foldlM_option_preserve
    (fun st => st.1.povPos = cam ∧ st.1.povFov = fov)
    Chunks.processObsolete1 ?_ _ _ _ ?_ hq
  · intro a b a2 hPa hf
    obtain ⟨h1, h2⟩ := Chunks.processObsolete1_pov a a2 b hf
    exact ⟨h1.trans hPa.1, h2.trans hPa.2⟩
  · exact foldl_pres Chunks.processNeeded
      (fun v => v.povPos = cam ∧ v.povFov = fov) (fun _ => True)
      (fun s a _ hs => by
        obtain ⟨h1, h2⟩ := Chunks.processNeeded_pov s a
        exact ⟨h1.trans hs.1, h2.trans hs.2⟩)
      (neededOf cam fov) (fun _ _ => trivial) _ ⟨rfl, rfl⟩

/-- C8: calling the POV update twice in a row with the same camera data
performs no recomputation the second time — after any successful update the
epsilon guard holds for the updated world (the stored POV now matches the
camera data exactly), so the second call returns the world unchanged: no
chunk is created, no chunk-reference entry changes, and nothing is
scheduled. -/
theorem claim8_idempotent (neededOf : V3 → ℚ → List Chunks.ChunkIndex)
    (cam : V3) (fov : ℚ) (w w' : Chunks.World)
    (h : Chunks.calculatePovs neededOf cam fov w = some w') :
    (w'.povPos.distSq cam < 1 / 10000 ∧ |w'.povFov - fov| < 1 / 10000) ∧
    Chunks.calculatePovs neededOf cam fov w' = some w' := by
  have hguard : w'.povPos.distSq cam < 1 / 10000
      ∧ |w'.povFov - fov| < 1 / 10000 := by
    unfold Chunks.calculatePovs at h
    split_ifs at h with hg
    · cases h
      exact hg
    · obtain ⟨h1, h2⟩ := Chunks.recompute_pov neededOf cam fov w w' h
      rw [h1, h2, V3.distSq_self, sub_self, abs_zero]
      norm_num
  refine ⟨hguard, ?_⟩
  unfold Chunks.calculatePovs
  rw [if_pos hguard]

/-- C8, witness: a POV update that really recomputes (camera moved), then
the idempotence statement applied to its result. -/
theorem claim8_witness :
    (Chunks.calculatePovs Chunks.nfEmpty ⟨1, 0, 0⟩ 2 Chunks.wEmpty
      = some ⟨⟨1, 0, 0⟩, 2, 0, [], [], []⟩) ∧
    (((⟨⟨1, 0, 0⟩, 2, 0, [], [], []⟩ : Chunks.World).povPos.distSq ⟨1, 0, 0⟩
        < 1 / 10000 ∧
      |(⟨⟨1, 0, 0⟩, 2, 0, [], [], []⟩ : Chunks.World).povFov - 2|
        < 1 / 10000) ∧
     Chunks.calculatePovs Chunks.nfEmpty ⟨1, 0, 0⟩ 2
       ⟨⟨1, 0, 0⟩, 2, 0, [], [], []⟩
       = some ⟨⟨1, 0, 0⟩, 2, 0, [], [], []⟩) :=
  ⟨by with_unfolding_all decide,
   claim8_idempotent Chunks.nfEmpty ⟨1, 0, 0⟩ 2 Chunks.wEmpty
     ⟨⟨1, 0, 0⟩, 2, 0, [], [], []⟩ (by with_unfolding_all decide)⟩

/-! The `replacing` map of `calculate_povs` (claim C9). -/

theorem isPrefixOf_iff_take :
    ∀ (l1 l2 : List Nat), l1.isPrefixOf l2 = true ↔ l2.take l1.length = l1 := by
  intro l1
  induction l1 with
  | nil =>
      intro l2
      simp [List.isPrefixOf]
  | cons a as ih =>
      intro l2
      cases l2 with
      | nil => simp [List.isPrefixOf]
      | cons b bs =>
          simp only [List.isPrefixOf, Bool.and_eq_true, beq_iff_eq,
            List.length_cons, List.take_succ_cons, List.cons.injEq, ih bs]
          constructor
          · rintro ⟨h1, h2⟩
            exact ⟨h1.symm, h2⟩
          · rintro ⟨h1, h2⟩
            exact ⟨h1.symm, h2⟩

/-- The front-segments the loops crawl through are exactly the strict
ancestors. -/
theorem Chunks.mem_strictParents (p idx : Chunks.ChunkIndex) :
    p ∈ Chunks.strictParents idx ↔ Chunks.strictPre p idx = true := by
  simp only [Chunks.strictParents, List.mem_map, List.mem_reverse,
    List.mem_range, Chunks.strictPre, Bool.and_eq_true, decide_eq_true_eq,
    isPrefixOf_iff_take]
  constructor
  · rintro ⟨i, hi, rfl⟩
    have hlen : (idx.take i).length = i := by
      rw [List.length_take]
      omega
    rw [hlen]
    exact ⟨rfl, by omega⟩
  · rintro ⟨h1, h2⟩
    exact ⟨p.length, h2, h1⟩

theorem Chunks.getRep_pushRep_same
    (m : List (Chunks.ChunkIndex × List Chunks.ChunkIndex))
    (k v : Chunks.ChunkIndex) :
    Chunks.getRep (Chunks.pushRep m k v) k = Chunks.getRep m k ++ [v] := by
  unfold Chunks.getRep Chunks.pushRep
  rw [Chunks.lookupA_upsertA]
  simp [Chunks.getRep]

theorem Chunks.getRep_pushRep_ne
    (m : List (Chunks.ChunkIndex × List Chunks.ChunkIndex))
    (k k2 v : Chunks.ChunkIndex) (h : k2 ≠ k) :
    Chunks.getRep (Chunks.pushRep m k v) k2 = Chunks.getRep m k2 := by
  unfold Chunks.getRep Chunks.pushRep
  rw [Chunks.lookupA_upsertA, if_neg h]

theorem Chunks.mem_getRep_pushRep
    (m : List (Chunks.ChunkIndex × List Chunks.ChunkIndex))
    (k k2 v x : Chunks.ChunkIndex) (h : x ∈ Chunks.getRep m k2) :
    x ∈ Chunks.getRep (Chunks.pushRep m k v) k2 := by
  by_cases hk : k2 = k
  · subst hk
    rw [Chunks.getRep_pushRep_same]
    exact List.mem_append_left _ h
  · rw [Chunks.getRep_pushRep_ne _ _ _ _ hk]
    exact h

/-- Membership in a `replacing` entry is preserved by the inner crawl of the
first `replacing` loop. -/
theorem Chunks.innerFold_mem_pres (obsolete : List Chunks.ChunkIndex)
    (n : Chunks.ChunkIndex) (parents : List Chunks.ChunkIndex)
    (m : List (Chunks.ChunkIndex × List Chunks.ChunkIndex))
    (x k : Chunks.ChunkIndex) (h : x ∈ Chunks.getRep m k) :
    x ∈ Chunks.getRep
      (parents.foldl
        (fun m2 par =>
          if par ∈ obsolete then Chunks.pushRep m2 par n else m2) m) k := by
  refine foldl_pres _ (fun m2 => x ∈ Chunks.getRep m2 k) (fun _ => True)
    ?_ parents (fun _ _ => trivial) m h
  intro s a _ hs
  by_cases hp : a ∈ obsolete
  · rw [if_pos hp]
    exact Chunks.mem_getRep_pushRep s a k n x hs
  · rw [if_neg hp]
    exact hs

/-- The inner crawl of the first `replacing` loop registers `n` under every
obsolete ancestor it passes. -/
theorem Chunks.innerFold_mem (obsolete : List Chunks.ChunkIndex)
    (n : Chunks.ChunkIndex) :
    ∀ (parents : List Chunks.ChunkIndex)
      (m : List (Chunks.ChunkIndex × List Chunks.ChunkIndex))
      (o : Chunks.ChunkIndex), o ∈ parents → o ∈ obsolete →
      n ∈ Chunks.getRep
        (parents.foldl
          (fun m2 par =>
            if par ∈ obsolete then Chunks.pushRep m2 par n else m2) m) o := by
  intro parents
  induction parents with
  | nil =>
      intro m o ho
      simp at ho
  | cons p ps ih =>
      intro m o ho hobs
      rw [List.foldl_cons]
      rcases List.mem_cons.mp ho with rfl | ho2
      · rw [if_pos hobs]
        apply Chunks.innerFold_mem_pres obsolete n ps _ n o
        rw [Chunks.getRep_pushRep_same]
        exact List.mem_append_right _ (by simp)
      · by_cases hp : p ∈ obsolete
        · rw [if_pos hp]
          exact ih _ o ho2 hobs
        · rw [if_neg hp]
          exact ih _ o ho2 hobs

/-- Membership in a `replacing` entry is preserved by the first loop. -/
theorem Chunks.outerFold_mem_pres (obsolete : List Chunks.ChunkIndex)
    (l : List Chunks.ChunkIndex)
    (m : List (Chunks.ChunkIndex × List Chunks.ChunkIndex))
    (x k : Chunks.ChunkIndex) (h : x ∈ Chunks.getRep m k) :
    x ∈ Chunks.getRep
      (l.foldl
        (fun m idx =>
          (Chunks.strictParents idx).foldl
            (fun m2 par =>
              if par ∈ obsolete then Chunks.pushRep m2 par idx else m2) m)
        m) k := by
  refine foldl_pres _ (fun m2 => x ∈ Chunks.getRep m2 k) (fun _ => True)
    ?_ l (fun _ _ => trivial) m h
  intro s a _ hs
  exact Chunks.innerFold_mem_pres obsolete a _ s x k hs

/-- Membership in a `replacing` entry is preserved by the second loop. -/
theorem Chunks.phase2_mem_pres (needed : List Chunks.ChunkIndex)
    (l : List Chunks.ChunkIndex)
    (m : List (Chunks.ChunkIndex × List Chunks.ChunkIndex))
    (x k : Chunks.ChunkIndex) (h : x ∈ Chunks.getRep m k) :
    x ∈ Chunks.getRep
      (l.foldl
        (fun m idx =>
          match (Chunks.strictParents idx).find?
              (fun par => decide (par ∈ needed)) with
          | some par => Chunks.pushRep m idx par
          | none => m) m) k := by
  refine foldl_pres _ (fun m2 => x ∈ Chunks.getRep m2 k) (fun _ => True)
    ?_ l (fun _ _ => trivial) m h
  intro s a _ hs
  rcases hfind : (Chunks.strictParents a).find?
      (fun par => decide (par ∈ needed)) with _ | par
  · simpa [hfind] using hs
  · simp only [hfind]
    exact Chunks.mem_getRep_pushRep s a k par x hs

/-- The first `replacing` loop only records strict descendants: the
ancestors-in-needed portion of any entry stays empty. -/
theorem Chunks.innerFold_filter (obsolete needed : List Chunks.ChunkIndex)
    (n o : Chunks.ChunkIndex) (parents : List Chunks.ChunkIndex)
    (hpar : ∀ par ∈ parents, Chunks.strictPre par n = true)
    (m : List (Chunks.ChunkIndex × List Chunks.ChunkIndex))
    (h : (Chunks.getRep m o).filter
      (fun p => Chunks.strictPre p o && decide (p ∈ needed)) = []) :
    ((Chunks.getRep
        (parents.foldl
          (fun m2 par =>
            if par ∈ obsolete then Chunks.pushRep m2 par n else m2) m)
        o).filter
      (fun p => Chunks.strictPre p o && decide (p ∈ needed))) = [] := by
  refine foldl_pres _
    (fun m2 => (Chunks.getRep m2 o).filter
      (fun p => Chunks.strictPre p o && decide (p ∈ needed)) = [])
    (fun par => Chunks.strictPre par n = true) ?_ parents hpar m h
  intro s a hQ hs
  by_cases hp : a ∈ obsolete
  · rw [if_pos hp]
    by_cases hao : a = o
    · subst hao
      rw [Chunks.getRep_pushRep_same, List.filter_append, hs]
      have hlen : a.length < n.length := by
        simp only [Chunks.strictPre, Bool.and_eq_true, decide_eq_true_eq]
          at hQ
        exact hQ.2
      have hno : Chunks.strictPre n a = false := by
        simp only [Chunks.strictPre, Bool.and_eq_false_iff]
        right
        simpa using by omega
      simp [hno]
    · rw [Chunks.getRep_pushRep_ne _ _ _ _ (fun hc => hao hc.symm)]
      exact hs
  · rw [if_neg hp]
    exact hs

/-- After the whole first `replacing` loop, no entry records any
ancestor-in-needed of its key. -/
theorem Chunks.phase1_filter (obsolete needed : List Chunks.ChunkIndex)
    (o : Chunks.ChunkIndex) :
    ((Chunks.getRep
        (needed.foldl
          (fun m idx =>
            (Chunks.strictParents idx).foldl
              (fun m2 par =>
                if par ∈ obsolete then Chunks.pushRep m2 par idx else m2) m)
          []) o).filter
      (fun p => Chunks.strictPre p o && decide (p ∈ needed))) = [] := by
  refine foldl_pres _
    (fun m2 => (Chunks.getRep m2 o).filter
      (fun p => Chunks.strictPre p o && decide (p ∈ needed)) = [])
    (fun _ => True) ?_ needed (fun _ _ => trivial) [] rfl
  intro s a _ hs
  exact Chunks.innerFold_filter obsolete needed a o _
    (fun par hp => (Chunks.mem_strictParents par a).mp hp) s hs

/-- Entries of other keys leave the ancestors-in-needed portion of `o`'s
entry untouched during the second `replacing` loop. -/
theorem Chunks.phase2_filter_pres (needed : List Chunks.ChunkIndex)
    (o : Chunks.ChunkIndex) (L : List Chunks.ChunkIndex)
    (l : List Chunks.ChunkIndex) (hne : ∀ a ∈ l, a ≠ o)
    (m : List (Chunks.ChunkIndex × List Chunks.ChunkIndex))
    (h : (Chunks.getRep m o).filter
      (fun p => Chunks.strictPre p o && decide (p ∈ needed)) = L) :
    ((Chunks.getRep
        (l.foldl
          (fun m idx =>
            match (Chunks.strictParents idx).find?
                (fun par => decide (par ∈ needed)) with
            | some par => Chunks.pushRep m idx par
            | none => m) m) o).filter
      (fun p => Chunks.strictPre p o && decide (p ∈ needed))) = L := by
  refine foldl_pres _
    (fun m2 => (Chunks.getRep m2 o).filter
      (fun p => Chunks.strictPre p o && decide (p ∈ needed)) = L)
    (fun a => a ≠ o) ?_ l hne m h
  intro s a hQ hs
  rcases hfind : (Chunks.strictParents a).find?
      (fun par => decide (par ∈ needed)) with _ | par
  · simpa [hfind] using hs
  · simp only [hfind]
    rw [Chunks.getRep_pushRep_ne _ _ _ _ (fun hc => hQ hc.symm)]
    exact hs

/-- C9: during a POV recompute, the `replacing` map records (a) every needed
identifier as a dependent of every obsolete strict ancestor of it, and (b)
for every obsolete identifier with at least one needed strict ancestor,
exactly one needed strict ancestor in its own dependents entry (the `break`
keeps only the longest). -/
theorem claim9_replacing (needed obsolete : List Chunks.ChunkIndex)
    (hobs : obsolete.Nodup) :
    (∀ n ∈ needed, ∀ o ∈ obsolete, Chunks.strictPre o n = true →
        n ∈ Chunks.getRep (Chunks.buildReplacing needed obsolete) o) ∧
    (∀ o ∈ obsolete, (∃ p ∈ needed, Chunks.strictPre p o = true) →
        ((Chunks.getRep (Chunks.buildReplacing needed obsolete) o).filter
            (fun p => Chunks.strictPre p o && decide (p ∈ needed))).length
          = 1) := by
  constructor
  · intro n hn o ho hpre
    simp only [Chunks.buildReplacing]
    apply Chunks.phase2_mem_pres
    rcases List.append_of_mem hn with ⟨l1, l2, rfl⟩
    rw [List.foldl_append, List.foldl_cons]
    apply Chunks.outerFold_mem_pres
    exact Chunks.innerFold_mem obsolete n (Chunks.strictParents n) _ o
      ((Chunks.mem_strictParents o n).mpr hpre) ho
  · intro o ho hex
    rcases hex with ⟨p, hp, hppre⟩
    simp only [Chunks.buildReplacing]
    rcases List.append_of_mem ho with ⟨s, t, hsp⟩
    subst hsp
    have hnods : o ∉ s ∧ o ∉ t := by
      rw [List.nodup_append] at hobs
      refine ⟨fun hc => hobs.2.2 hc (by simp), ?_⟩
      have := hobs.2.1
      rw [List.nodup_cons] at this
      exact this.1
    rw [List.foldl_append, List.foldl_cons]
    set m1 := needed.foldl
      (fun m idx =>
        (Chunks.strictParents idx).foldl
          (fun m2 par =>
            if par ∈ s ++ o :: t then Chunks.pushRep m2 par idx else m2) m)
      [] with hm1
    set m2 := s.foldl
      (fun m idx =>
        match (Chunks.strictParents idx).find?
            (fun par => decide (par ∈ needed)) with
        | some par => Chunks.pushRep m idx par
        | none => m) m1 with hm2
    have h1 := Chunks.phase1_filter (s ++ o :: t) needed o
    have h2 := Chunks.phase2_filter_pres needed o [] s
      (fun a ha hc => hnods.1 (hc ▸ ha)) _ h1
    rcases hfind : (Chunks.strictParents o).find?
        (fun par => decide (par ∈ needed)) with _ | par
    · exfalso
      have hno := List.find?_eq_none.mp hfind
      have hmem : p ∈ Chunks.strictParents o :=
        (Chunks.mem_strictParents p o).mpr hppre
      have := hno p hmem
      simp at this
      exact this hp
    · dsimp only
      have hparmem : par ∈ Chunks.strictParents o :=
        List.mem_of_find?_eq_some hfind
      have hparneed : par ∈ needed := by
        simpa using List.find?_some hfind
      have hpred : (Chunks.strictPre par o && decide (par ∈ needed))
          = true := by
        rw [(Chunks.mem_strictParents par o).mp hparmem]
        simpa using hparneed
      have hstep : ((Chunks.getRep (Chunks.pushRep m2 o par) o).filter
          (fun p => Chunks.strictPre p o && decide (p ∈ needed)))
          = [par] := by
        rw [Chunks.getRep_pushRep_same, List.filter_append, h2]
        simp [hpred]
      rw [Chunks.phase2_filter_pres needed o [par] t
        (fun a ha hc => hnods.2 (hc ▸ ha)) (Chunks.pushRep m2 o par) hstep]
      rfl

/-- C9, witness: needed identifiers `[]` and `[0,1]`, obsolete identifier
`[0]` — the needed child `[0,1]` is registered under its obsolete ancestor
`[0]`, and `[0]`'s own entry records exactly one needed ancestor (`[]`). -/
theorem claim9_witness :
    ([[0]] : List Chunks.ChunkIndex).Nodup ∧
    ((∀ n ∈ ([[], [0, 1]] : List Chunks.ChunkIndex),
        ∀ o ∈ ([[0]] : List Chunks.ChunkIndex), Chunks.strictPre o n = true →
          n ∈ Chunks.getRep (Chunks.buildReplacing [[], [0, 1]] [[0]]) o) ∧
     (∀ o ∈ ([[0]] : List Chunks.ChunkIndex),
        (∃ p ∈ ([[], [0, 1]] : List Chunks.ChunkIndex),
          Chunks.strictPre p o = true) →
          ((Chunks.getRep (Chunks.buildReplacing [[], [0, 1]] [[0]]) o).filter
              (fun p => Chunks.strictPre p o
                && decide (p ∈ ([[], [0, 1]] : List Chunks.ChunkIndex)))).length
            = 1)) :=
  ⟨by decide, claim9_replacing [[], [0, 1]] [[0]] (by decide)⟩

/-! Reinstatement of needed Cleanup chunks (claim C3). -/

theorem Chunks.lookupA_map_upd (l : List (Nat × Chunks.Ent)) (e : Nat)
    (f : Chunks.Ent → Chunks.Ent) (x : Nat) :
    Chunks.lookupA (l.map (fun p => if p.1 = e then (p.1, f p.2) else p)) x
      = if x = e then (Chunks.lookupA l x).map f else Chunks.lookupA l x := by
  induction l with
  | nil => by_cases h : x = e <;> simp [Chunks.lookupA, h]
  | cons kv rest ih =>
      obtain ⟨k, v⟩ := kv
      rw [List.map_cons]
      dsimp only
      by_cases hke : k = e
      · rw [if_pos hke]
        by_cases hkx : k = x
        · have hxe : x = e := hkx ▸ hke
          simp [Chunks.lookupA, hkx, hxe]
        · simp [Chunks.lookupA, hkx, ih]
      · rw [if_neg hke]
        by_cases hkx : k = x
        · have hxe : ¬ x = e := fun hc => hke (hkx.trans hc)
          simp [Chunks.lookupA, hkx, hxe]
        · simp [Chunks.lookupA, hkx, ih]

theorem Chunks.getEnt_updEnt (w : Chunks.World) (e : Nat)
    (f : Chunks.Ent → Chunks.Ent) (x : Nat) :
    (w.updEnt e f).getEnt x
      = if x = e then (w.getEnt x).map f else w.getEnt x :=
  Chunks.lookupA_map_upd w.ents e f x

theorem Chunks.updEnt_nextId (w : Chunks.World) (e : Nat)
    (f : Chunks.Ent → Chunks.Ent) : (w.updEnt e f).nextId = w.nextId := rfl

theorem Chunks.lookupA_append_some {α β : Type} [DecidableEq α]
    (l1 l2 : List (α × β)) (x : α) (b : β)
    (h : Chunks.lookupA l1 x = some b) :
    Chunks.lookupA (l1 ++ l2) x = some b := by
  induction l1 with
  | nil => simp [Chunks.lookupA] at h
  | cons kv rest ih =>
      by_cases hk : kv.1 = x
      · simpa [Chunks.lookupA, hk] using h
      · rw [List.cons_append]
        simp only [Chunks.lookupA, hk, if_neg hk] at h ⊢
        exact ih h

/-- Case analysis of one needed-loop iteration. -/
theorem Chunks.processNeeded_cases (v : Chunks.World)
    (a : Chunks.ChunkIndex) :
    (∃ e2, Chunks.lookupA v.chunkRefs a = some (.active e2) ∧
      Chunks.processNeeded v a
        = { v with chunkRefs := Chunks.upsertA v.chunkRefs a (.active e2) }) ∨
    (∃ e2, Chunks.lookupA v.chunkRefs a = some (.cleanup e2) ∧
      Chunks.processNeeded v a
        = { v.updEnt e2 (fun en => { en with awaiting := none, generating := false, needsMesh := true }) with
            chunkRefs := Chunks.upsertA v.chunkRefs a (.active e2) }) ∨
    (Chunks.lookupA v.chunkRefs a = none ∧
      Chunks.processNeeded v a
        = { v with
            nextId := v.nextId + 1
            ents := v.ents ++ [(v.nextId, ⟨a, true, false, none, false⟩)]
            chunkRefs := Chunks.upsertA v.chunkRefs a (.active v.nextId) }) := by
  unfold Chunks.processNeeded
  rcases hl : Chunks.lookupA v.chunkRefs a with _ | r
  · exact Or.inr (Or.inr ⟨rfl, rfl⟩)
  · rcases r with e2 | e2
    · exact Or.inl ⟨e2, rfl, rfl⟩
    · exact Or.inr (Or.inl ⟨e2, rfl, rfl⟩)

/-- Case analysis of one successful obsolete-loop iteration. -/
theorem Chunks.processObsolete1_cases
    (st st2 : Chunks.World × List (Chunks.ChunkIndex × List Chunks.ChunkIndex))
    (a : Chunks.ChunkIndex) (h : Chunks.processObsolete1 st a = some st2) :
    (∃ e2, Chunks.lookupA st.1.chunkRefs a = some (.active e2) ∧
      st2 = (Chunks.World.updEnt
          { st.1 with
            chunkRefs := Chunks.upsertA st.1.chunkRefs a (.cleanup e2) } e2
          (fun en => { en with awaiting := some (Chunks.getRep st.2 a), needsMesh := false, generating := false }),
        Chunks.removeA st.2 a)) ∨
    (∃ e2, Chunks.lookupA st.1.chunkRefs a = some (.cleanup e2) ∧
      st2 = (st.1.updEnt e2
          (fun en => { en with awaiting := some (Chunks.getRep st.2 a), needsMesh := false, generating := false }),
        Chunks.removeA st.2 a)) := by
  unfold Chunks.processObsolete1 at h
  rcases hl : Chunks.lookupA st.1.chunkRefs a with _ | r <;> rw [hl] at h
  · cases h
  · rcases r with e2 | e2
    · cases h
      exact Or.inl ⟨e2, rfl, rfl⟩
    · cases h
      exact Or.inr ⟨e2, rfl, rfl⟩

theorem Chunks.getEnt_setRefs (w : Chunks.World)
    (X : List (Chunks.ChunkIndex × Chunks.ChunkRef)) (x : Nat) :
    ({ w with chunkRefs := X }).getEnt x = w.getEnt x := rfl

/-- Once a needed identifier is re-inserted as `Active(e)` with its entity
reinstated, further needed-loop iterations keep that state (entity ids are
never reused: fresh spawns use ids at or above `nextId`). -/
theorem Chunks.pn_post (idx : Chunks.ChunkIndex) (e : Nat)
    (enR : Chunks.Ent) (v : Chunks.World) (a : Chunks.ChunkIndex)
    (h1 : Chunks.lookupA v.chunkRefs idx = some (.active e))
    (h2 : v.getEnt e = some enR)
    (h3 : e < v.nextId)
    (h4 : ∀ k r, k ≠ idx → Chunks.lookupA v.chunkRefs k = some r →
      r.entity ≠ e) :
    Chunks.lookupA (Chunks.processNeeded v a).chunkRefs idx
        = some (.active e) ∧
      (Chunks.processNeeded v a).getEnt e = some enR ∧
      e < (Chunks.processNeeded v a).nextId ∧
      (∀ k r, k ≠ idx →
        Chunks.lookupA (Chunks.processNeeded v a).chunkRefs k = some r →
        r.entity ≠ e) := by
  rcases Chunks.processNeeded_cases v a with ⟨e2, hl, hv⟩ | ⟨e2, hl, hv⟩
    | ⟨hl, hv⟩
  · rw [hv]
    refine ⟨?_, h2, h3, ?_⟩
    · dsimp only
      rw [Chunks.lookupA_upsertA]
      by_cases hai : idx = a
      · rw [if_pos hai]
        rw [hai] at h1
        rw [h1] at hl
        cases hl
        rfl
      · rw [if_neg hai]
        exact h1
    · intro k r hk hr
      dsimp only at hr
      rw [Chunks.lookupA_upsertA] at hr
      by_cases hka : k = a
      · rw [if_pos hka] at hr
        cases hr
        by_cases hai : a = idx
        · exact absurd hai (hka ▸ hk)
        · exact h4 a _ hai hl
      · rw [if_neg hka] at hr
        exact h4 k r hk hr
  · have he2 : e2 ≠ e := by
      by_cases hai : a = idx
      · rw [hai, h1] at hl
        cases hl
      · exact h4 a _ hai hl
    rw [hv]
    refine ⟨?_, ?_, ?_, ?_⟩
    · dsimp only
      rw [Chunks.lookupA_upsertA]
      by_cases hai : idx = a
      · exfalso
        rw [← hai] at hl
        rw [h1] at hl
        cases hl
      · rw [if_neg hai]
        exact h1
    · dsimp only
      rw [Chunks.getEnt_setRefs, Chunks.getEnt_updEnt,
        if_neg (fun hc => he2 hc.symm)]
      exact h2
    · dsimp only
      exact h3
    · intro k r hk hr
      dsimp only at hr
      rw [Chunks.lookupA_upsertA] at hr
      by_cases hka : k = a
      · rw [if_pos hka] at hr
        cases hr
        exact he2
      · rw [if_neg hka] at hr
        exact h4 k r hk hr
  · rw [hv]
    refine ⟨?_, ?_, ?_, ?_⟩
    · dsimp only
      rw [Chunks.lookupA_upsertA]
      by_cases hai : idx = a
      · exfalso
        rw [← hai] at hl
        rw [h1] at hl
        cases hl
      · rw [if_neg hai]
        exact h1
    · dsimp only
      simp only [Chunks.World.getEnt]
      exact Chunks.lookupA_append_some _ _ _ _ h2
    · dsimp only
      omega
    · intro k r hk hr
      dsimp only at hr
      rw [Chunks.lookupA_upsertA] at hr
      by_cases hka : k = a
      · rw [if_pos hka] at hr
        cases hr
        show v.nextId ≠ e
        omega
      · rw [if_neg hka] at hr
        exact h4 k r hk hr

/-- Iterations of the needed loop for other identifiers leave a Cleanup
entry and its entity untouched. -/
theorem Chunks.pn_pre_keep (idx : Chunks.ChunkIndex) (e : Nat)
    (en : Chunks.Ent) (v : Chunks.World) (a : Chunks.ChunkIndex)
    (hne : a ≠ idx)
    (h1 : Chunks.lookupA v.chunkRefs idx = some (.cleanup e))
    (h2 : v.getEnt e = some en)
    (h3 : e < v.nextId)
    (h4 : ∀ k r, k ≠ idx → Chunks.lookupA v.chunkRefs k = some r →
      r.entity ≠ e) :
    Chunks.lookupA (Chunks.processNeeded v a).chunkRefs idx
        = some (.cleanup e) ∧
      (Chunks.processNeeded v a).getEnt e = some en ∧
      e < (Chunks.processNeeded v a).nextId ∧
      (∀ k r, k ≠ idx →
        Chunks.lookupA (Chunks.processNeeded v a).chunkRefs k = some r →
        r.entity ≠ e) := by
  rcases Chunks.processNeeded_cases v a with ⟨e2, hl, hv⟩ | ⟨e2, hl, hv⟩
    | ⟨hl, hv⟩
  · have he2 : e2 ≠ e := h4 a _ hne hl
    rw [hv]
    refine ⟨?_, h2, h3, ?_⟩
    · dsimp only
      rw [Chunks.lookupA_upsertA, if_neg (fun hc => hne hc.symm)]
      exact h1
    · intro k r hk hr
      dsimp only at hr
      rw [Chunks.lookupA_upsertA] at hr
      by_cases hka : k = a
      · rw [if_pos hka] at hr
        cases hr
        exact he2
      · rw [if_neg hka] at hr
        exact h4 k r hk hr
  · have he2 : e2 ≠ e := h4 a _ hne hl
    rw [hv]
    refine ⟨?_, ?_, ?_, ?_⟩
    · dsimp only
      rw [Chunks.lookupA_upsertA, if_neg (fun hc => hne hc.symm)]
      exact h1
    · dsimp only
      rw [Chunks.getEnt_setRefs, Chunks.getEnt_updEnt,
        if_neg (fun hc => he2 hc.symm)]
      exact h2
    · dsimp only
      exact h3
    · intro k r hk hr
      dsimp only at hr
      rw [Chunks.lookupA_upsertA] at hr
      by_cases hka : k = a
      · rw [if_pos hka] at hr
        cases hr
        exact he2
      · rw [if_neg hka] at hr
        exact h4 k r hk hr
  · rw [hv]
    refine ⟨?_, ?_, ?_, ?_⟩
    · dsimp only
      rw [Chunks.lookupA_upsertA, if_neg (fun hc => hne hc.symm)]
      exact h1
    · dsimp only
      simp only [Chunks.World.getEnt]
      exact Chunks.lookupA_append_some _ _ _ _ h2
    · dsimp only
      omega
    · intro k r hk hr
      dsimp only at hr
      rw [Chunks.lookupA_upsertA] at hr
      by_cases hka : k = a
      · rw [if_pos hka] at hr
        cases hr
        show v.nextId ≠ e
        omega
      · rw [if_neg hka] at hr
        exact h4 k r hk hr

/-- The needed-loop iteration for the Cleanup identifier itself reinstates
it: entry back to `Active(e)`, `AwaitingDeletion` and `GeneratingMesh`
removed, `NeedsMesh` inserted. -/
theorem Chunks.pn_reinstate (idx : Chunks.ChunkIndex) (e : Nat)
    (en : Chunks.Ent) (v : Chunks.World)
    (h1 : Chunks.lookupA v.chunkRefs idx = some (.cleanup e))
    (h2 : v.getEnt e = some en)
    (h3 : e < v.nextId)
    (h4 : ∀ k r, k ≠ idx → Chunks.lookupA v.chunkRefs k = some r →
      r.entity ≠ e) :
    Chunks.lookupA (Chunks.processNeeded v idx).chunkRefs idx
        = some (.active e) ∧
      (Chunks.processNeeded v idx).getEnt e
        = some { en with awaiting := none, generating := false, needsMesh := true } ∧
      e < (Chunks.processNeeded v idx).nextId ∧
      (∀ k r, k ≠ idx →
        Chunks.lookupA (Chunks.processNeeded v idx).chunkRefs k = some r →
        r.entity ≠ e) := by
  rcases Chunks.processNeeded_cases v idx with ⟨e2, hl, hv⟩ | ⟨e2, hl, hv⟩
    | ⟨hl, hv⟩
  · rw [h1] at hl
    cases hl
  · rw [h1] at hl
    cases hl
    rw [hv]
    refine ⟨?_, ?_, ?_, ?_⟩
    · dsimp only
      rw [Chunks.lookupA_upsertA, if_pos rfl]
    · dsimp only
      rw [Chunks.getEnt_setRefs, Chunks.getEnt_updEnt, if_pos rfl, h2]
      rfl
    · dsimp only
      exact h3
    · intro k r hk hr
      dsimp only at hr
      rw [Chunks.lookupA_upsertA, if_neg hk] at hr
      exact h4 k r hk hr
  · rw [h1] at hl
    cases hl

/-- Running the whole needed loop reinstates a needed Cleanup identifier. -/
theorem Chunks.pn_fold_post (idx : Chunks.ChunkIndex) (e : Nat)
    (en : Chunks.Ent) (needed : List Chunks.ChunkIndex)
    (hmem : idx ∈ needed) (v : Chunks.World)
    (h1 : Chunks.lookupA v.chunkRefs idx = some (.cleanup e))
    (h2 : v.getEnt e = some en)
    (h3 : e < v.nextId)
    (h4 : ∀ k r, k ≠ idx → Chunks.lookupA v.chunkRefs k = some r →
      r.entity ≠ e) :
    Chunks.lookupA (needed.foldl Chunks.processNeeded v).chunkRefs idx = some (.active e) ∧
      (needed.foldl Chunks.processNeeded v).getEnt e = some { en with awaiting := none, generating := false, needsMesh := true } ∧
      e < (needed.foldl Chunks.processNeeded v).nextId ∧
      (∀ k r, k ≠ idx → Chunks.lookupA (needed.foldl Chunks.processNeeded v).chunkRefs k = some r →
        r.entity ≠ e) := by
  rcases List.append_of_mem hmem with ⟨l1, l2, rfl⟩
  rw [List.foldl_append, List.foldl_cons]
  have hdisj : ∀ (s : Chunks.World) (a : Chunks.ChunkIndex),
      ((Chunks.lookupA (s).chunkRefs idx = some (.cleanup e) ∧
      (s).getEnt e = some en ∧ e < (s).nextId ∧
      (∀ k r, k ≠ idx → Chunks.lookupA (s).chunkRefs k = some r →
        r.entity ≠ e)) ∨
       (Chunks.lookupA (s).chunkRefs idx = some (.active e) ∧
      (s).getEnt e = some { en with awaiting := none, generating := false, needsMesh := true } ∧
      e < (s).nextId ∧
      (∀ k r, k ≠ idx → Chunks.lookupA (s).chunkRefs k = some r →
        r.entity ≠ e))) →
      ((Chunks.lookupA (Chunks.processNeeded s a).chunkRefs idx = some (.cleanup e) ∧
      (Chunks.processNeeded s a).getEnt e = some en ∧ e < (Chunks.processNeeded s a).nextId ∧
      (∀ k r, k ≠ idx → Chunks.lookupA (Chunks.processNeeded s a).chunkRefs k = some r →
        r.entity ≠ e)) ∨
       (Chunks.lookupA (Chunks.processNeeded s a).chunkRefs idx = some (.active e) ∧
      (Chunks.processNeeded s a).getEnt e = some { en with awaiting := none, generating := false, needsMesh := true } ∧
      e < (Chunks.processNeeded s a).nextId ∧
      (∀ k r, k ≠ idx → Chunks.lookupA (Chunks.processNeeded s a).chunkRefs k = some r →
        r.entity ≠ e))) := by
    intro s a hP
    by_cases hai : a = idx
    · subst hai
      rcases hP with ⟨p1, p2, p3, p4⟩ | ⟨p1, p2, p3, p4⟩
      · exact Or.inr (Chunks.pn_reinstate a e en s p1 p2 p3 p4)
      · exact Or.inr (Chunks.pn_post a e _ s a p1 p2 p3 p4)
    · rcases hP with ⟨p1, p2, p3, p4⟩ | ⟨p1, p2, p3, p4⟩
      · exact Or.inl (Chunks.pn_pre_keep idx e en s a hai p1 p2 p3 p4)
      · exact Or.inr (Chunks.pn_post idx e _ s a p1 p2 p3 p4)
  have hl1 := foldl_pres Chunks.processNeeded
    (fun s => (Chunks.lookupA (s).chunkRefs idx = some (.cleanup e) ∧
      (s).getEnt e = some en ∧ e < (s).nextId ∧
      (∀ k r, k ≠ idx → Chunks.lookupA (s).chunkRefs k = some r →
        r.entity ≠ e)) ∨
      (Chunks.lookupA (s).chunkRefs idx = some (.active e) ∧
      (s).getEnt e = some { en with awaiting := none, generating := false, needsMesh := true } ∧
      e < (s).nextId ∧
      (∀ k r, k ≠ idx → Chunks.lookupA (s).chunkRefs k = some r →
        r.entity ≠ e)))
    (fun _ => True) (fun s a _ hP => hdisj s a hP) l1 (fun _ _ => trivial) v
    (Or.inl ⟨h1, h2, h3, h4⟩)
  have hmid :
      Chunks.lookupA (Chunks.processNeeded (l1.foldl Chunks.processNeeded v) idx).chunkRefs idx = some (.active e) ∧
      (Chunks.processNeeded (l1.foldl Chunks.processNeeded v) idx).getEnt e = some { en with awaiting := none, generating := false, needsMesh := true } ∧
      e < (Chunks.processNeeded (l1.foldl Chunks.processNeeded v) idx).nextId ∧
      (∀ k r, k ≠ idx → Chunks.lookupA (Chunks.processNeeded (l1.foldl Chunks.processNeeded v) idx).chunkRefs k = some r →
        r.entity ≠ e) := by
    rcases hl1 with ⟨p1, p2, p3, p4⟩ | ⟨p1, p2, p3, p4⟩
    · exact Chunks.pn_reinstate idx e en _ p1 p2 p3 p4
    · exact Chunks.pn_post idx e _ _ idx p1 p2 p3 p4
  exact foldl_pres Chunks.processNeeded
    (fun s => Chunks.lookupA (s).chunkRefs idx = some (.active e) ∧
      (s).getEnt e = some { en with awaiting := none, generating := false, needsMesh := true } ∧
      e < (s).nextId ∧
      (∀ k r, k ≠ idx → Chunks.lookupA (s).chunkRefs k = some r →
        r.entity ≠ e))
    (fun _ => True)
    (fun s a _ hP => Chunks.pn_post idx e _ s a hP.1 hP.2.1 hP.2.2.1 hP.2.2.2)
    l2 (fun _ _ => trivial) _ hmid

/-- Obsolete-loop iterations for other identifiers keep a reinstated entry
and its entity intact. -/
theorem Chunks.po_post (idx : Chunks.ChunkIndex) (e : Nat)
    (en : Chunks.Ent)
    (s s2 : Chunks.World × List (Chunks.ChunkIndex × List Chunks.ChunkIndex))
    (a : Chunks.ChunkIndex) (hne : a ≠ idx)
    (hP : Chunks.lookupA (s.1).chunkRefs idx = some (.active e) ∧
      (s.1).getEnt e = some { en with awaiting := none, generating := false, needsMesh := true } ∧
      e < (s.1).nextId ∧
      (∀ k r, k ≠ idx → Chunks.lookupA (s.1).chunkRefs k = some r →
        r.entity ≠ e))
    (hstep : Chunks.processObsolete1 s a = some s2) :
    Chunks.lookupA (s2.1).chunkRefs idx = some (.active e) ∧
      (s2.1).getEnt e = some { en with awaiting := none, generating := false, needsMesh := true } ∧
      e < (s2.1).nextId ∧
      (∀ k r, k ≠ idx → Chunks.lookupA (s2.1).chunkRefs k = some r →
        r.entity ≠ e) := by
  obtain ⟨h1, h2, h3, h4⟩ := hP
  rcases Chunks.processObsolete1_cases s s2 a hstep with ⟨e2, hl, hv⟩
    | ⟨e2, hl, hv⟩
  · have he2 : e2 ≠ e := h4 a _ hne hl
    rw [hv]
    refine ⟨?_, ?_, ?_, ?_⟩
    · show Chunks.lookupA
        (Chunks.upsertA s.1.chunkRefs a (.cleanup e2)) idx = some (.active e)
      rw [Chunks.lookupA_upsertA, if_neg (fun hc => hne hc.symm)]
      exact h1
    · rw [Chunks.getEnt_updEnt, if_neg (fun hc => he2 hc.symm),
        Chunks.getEnt_setRefs]
      exact h2
    · exact h3
    · intro k r hk hr
      rw [Chunks.updEnt_chunkRefs] at hr
      replace hr : Chunks.lookupA
          (Chunks.upsertA s.1.chunkRefs a (.cleanup e2)) k = some r := hr
      rw [Chunks.lookupA_upsertA] at hr
      by_cases hka : k = a
      · rw [if_pos hka] at hr
        cases hr
        exact he2
      · rw [if_neg hka] at hr
        exact h4 k r hk hr
  · have he2 : e2 ≠ e := h4 a _ hne hl
    rw [hv]
    refine ⟨?_, ?_, ?_, ?_⟩
    · rw [Chunks.updEnt_chunkRefs]
      exact h1
    · rw [Chunks.getEnt_updEnt, if_neg (fun hc => he2 hc.symm)]
      exact h2
    · exact h3
    · intro k r hk hr
      rw [Chunks.updEnt_chunkRefs] at hr
      exact h4 k r hk hr

/-- C3: a Cleanup chunk whose identifier reappears in the needed set is
reinstated by the POV recompute — the same entity is kept and moved back to
`Active`, its `AwaitingDeletion` record is removed, any in-flight build flag
is removed, and `NeedsMesh` is set.  The entity-id hypotheses say the world
is not aliased: `e` was allocated (below `nextId`) and no other
chunk-reference entry points at it. -/
theorem claim3_reinstated
    (neededOf : V3 → ℚ → List Chunks.ChunkIndex) (cam : V3) (fov : ℚ)
    (w w' : Chunks.World) (idx : Chunks.ChunkIndex) (e : Nat)
    (en : Chunks.Ent)
    (hneed : idx ∈ neededOf cam fov)
    (href : Chunks.lookupA w.chunkRefs idx = some (.cleanup e))
    (hent : w.getEnt e = some en)
    (hid : e < w.nextId)
    (halias : ∀ k r, k ≠ idx → Chunks.lookupA w.chunkRefs k = some r →
      r.entity ≠ e)
    (hrec : Chunks.recompute neededOf cam fov w = some w') :
    Chunks.lookupA w'.chunkRefs idx = some (.active e) ∧
    w'.getEnt e = some { en with awaiting := none, generating := false, needsMesh := true } := by
  simp only [Chunks.recompute, Option.map_eq_some'] at hrec
  rcases hrec with ⟨q, hq, hq1⟩
  subst hq1
  have hstart := Chunks.pn_fold_post idx e en (neededOf cam fov) hneed
    { w with povPos := cam, povFov := fov } href hent hid halias
  have hfinal := foldlM_option_pres_mem Chunks.processObsolete1
    (fun st => Chunks.lookupA (st.1).chunkRefs idx = some (.active e) ∧
      (st.1).getEnt e = some { en with awaiting := none, generating := false, needsMesh := true } ∧
      e < (st.1).nextId ∧
      (∀ k r, k ≠ idx → Chunks.lookupA (st.1).chunkRefs k = some r →
        r.entity ≠ e))
    (fun a => a ≠ idx)
    (fun s a s2 hQ hP hf => Chunks.po_post idx e en s s2 a hQ hP hf)
    _ ?_ _ q hstart hq
  · exact ⟨hfinal.1, hfinal.2.1⟩
  · intro a ha hc
    subst hc
    have := (List.mem_filter.mp ha).2
    simp only [decide_eq_true_eq] at this
    exact this hneed

/-- C3, witness: the Cleanup chunk for region `[5]` (entity 3, with an
in-flight build) is reinstated by a recompute that needs `[5]` again. -/
theorem claim3_witness :
    (([5] : Chunks.ChunkIndex) ∈ Chunks.nf5 ⟨1, 0, 0⟩ 1 ∧
      Chunks.lookupA Chunks.wReinstate.chunkRefs [5] = some (.cleanup 3) ∧
      Chunks.wReinstate.getEnt 3 = some Chunks.entCl ∧
      3 < Chunks.wReinstate.nextId ∧
      Chunks.recompute Chunks.nf5 ⟨1, 0, 0⟩ 1 Chunks.wReinstate
        = some Chunks.wRein) ∧
    Chunks.lookupA Chunks.wRein.chunkRefs [5] = some (.active 3) ∧
    Chunks.wRein.getEnt 3
      = some { Chunks.entCl with awaiting := none, generating := false, needsMesh := true } :=
  ⟨⟨by decide, by decide, by decide, by decide,
    by with_unfolding_all decide⟩,
   claim3_reinstated Chunks.nf5 ⟨1, 0, 0⟩ 1 Chunks.wReinstate Chunks.wRein
     [5] 3 Chunks.entCl (by decide) (by decide) (by decide) (by decide)
     (fun k r hk hl => by
        simp only [Chunks.wReinstate, Chunks.lookupA] at hl
        by_cases h5 : ([5] : Chunks.ChunkIndex) = k
        · exact absurd h5.symm hk
        · rw [if_neg h5] at hl
          cases hl)
     (by with_unfolding_all decide)⟩

/-! The deletion gate of `despawn_chunks` (claim C2). -/

/-- A despawn-loop iteration over another chunk entity (different entity id)
cannot disturb the blocked chunk: the bad dependent's entry, the blocked
chunk's own Cleanup entry, its storage entry and its liveness survive. -/
theorem Chunks.ds_step_ne (w : Chunks.World) (e : Nat) (en : Chunks.Ent)
    (idxD : Chunks.ChunkIndex) (r : Chunks.ChunkRef)
    (H1 : ∀ p ∈ w.ents, (p : Nat × Chunks.Ent).2.awaiting.isSome = true →
      p.2.index ≠ idxD)
    (H2 : ∀ p ∈ w.ents, (p : Nat × Chunks.Ent).1 ≠ e →
      p.2.awaiting.isSome = true → p.2.index ≠ en.index)
    (st : Chunks.DespawnSt) (p : Nat × Chunks.Ent) (hp : p ∈ w.ents)
    (hpe : p.1 ≠ e)
    (hInv : Chunks.lookupA st.refs idxD = some r ∧
      Chunks.lookupA st.refs en.index = some (.cleanup e) ∧
      (en.index ∈ w.storage → en.index ∈ st.storage) ∧
      e ∉ st.dead) :
    Chunks.lookupA (Chunks.despawnStep w st p).refs idxD = some r ∧
      Chunks.lookupA (Chunks.despawnStep w st p).refs en.index
        = some (.cleanup e) ∧
      (en.index ∈ w.storage → en.index ∈ (Chunks.despawnStep w st p).storage) ∧
      e ∉ (Chunks.despawnStep w st p).dead := by
  unfold Chunks.despawnStep
  rcases hpa : p.2.awaiting with _ | pend2
  · exact hInv
  · dsimp only
    split_ifs with hall
    · have hidx1 : p.2.index ≠ idxD := H1 p hp (by rw [hpa]; rfl)
      have hidx2 : p.2.index ≠ en.index := H2 p hp hpe (by rw [hpa]; rfl)
      obtain ⟨i1, i2, i3, i4⟩ := hInv
      refine ⟨?_, ?_, ?_, ?_⟩
      · show Chunks.lookupA (Chunks.removeA st.refs p.2.index) idxD = some r
        rw [Chunks.lookupA_removeA_ne _ _ _ (Ne.symm hidx1)]
        exact i1
      · show Chunks.lookupA (Chunks.removeA st.refs p.2.index) en.index
          = some (.cleanup e)
        rw [Chunks.lookupA_removeA_ne _ _ _ (Ne.symm hidx2)]
        exact i2
      · intro hsw
        exact List.mem_filter.mpr ⟨i3 hsw, by simp [Ne.symm hidx2]⟩
      · intro hc
        rcases List.mem_append.mp hc with h | h
        · exact i4 h
        · simp only [List.mem_singleton] at h
          exact hpe h.symm
    · exact hInv

/-- The despawn-loop iteration over the blocked chunk itself does nothing:
its bad dependent exists and has no mesh, so the all-dependents check
fails. -/
theorem Chunks.ds_step_self (w : Chunks.World) (e : Nat) (en : Chunks.Ent)
    (pending : List Chunks.ChunkIndex) (idxD : Chunks.ChunkIndex)
    (r : Chunks.ChunkRef) (enD : Chunks.Ent)
    (hpend : en.awaiting = some pending) (hbad : idxD ∈ pending)
    (hD : w.getEnt r.entity = some enD) (hnm : enD.hasMesh = false)
    (st : Chunks.DespawnSt)
    (i1 : Chunks.lookupA st.refs idxD = some r) :
    Chunks.despawnStep w st (e, en) = st := by
  unfold Chunks.despawnStep
  dsimp only
  rw [hpend]
  dsimp only
  rw [if_neg ?hfalse]
  case hfalse =>
    intro hall
    have h1 := List.all_eq_true.mp hall idxD hbad
    unfold Chunks.depSatisfied at h1
    rw [i1] at h1
    dsimp only at h1
    rw [hD] at h1
    dsimp only at h1
    rw [hnm] at h1
    cases h1

/-- C2: a Cleanup chunk survives the despawn cycle whenever one of its
recorded dependents resolves to an entity that exists and lacks a mesh —
the chunk entity is kept, its Cleanup chunk-reference entry is kept, and its
storage entry is kept.  Hypotheses: entity ids are unique, the bad
dependent's entry and entity exist without a mesh, no chunk awaiting
deletion covers the bad dependent's identifier (so its entry cannot vanish
mid-cycle), and no other awaiting chunk shares this chunk's identifier. -/
theorem claim2_deletion_gate (w : Chunks.World) (e : Nat) (en : Chunks.Ent)
    (pending : List Chunks.ChunkIndex) (idxD : Chunks.ChunkIndex)
    (r : Chunks.ChunkRef) (enD : Chunks.Ent)
    (hids : (w.ents.map Prod.fst).Nodup)
    (hmem : (e, en) ∈ w.ents)
    (hpend : en.awaiting = some pending)
    (href : Chunks.lookupA w.chunkRefs en.index = some (.cleanup e))
    (hbad : idxD ∈ pending)
    (hr : Chunks.lookupA w.chunkRefs idxD = some r)
    (hD : w.getEnt r.entity = some enD)
    (hnm : enD.hasMesh = false)
    (H1 : ∀ p ∈ w.ents, (p : Nat × Chunks.Ent).2.awaiting.isSome = true →
      p.2.index ≠ idxD)
    (H2 : ∀ p ∈ w.ents, (p : Nat × Chunks.Ent).1 ≠ e →
      p.2.awaiting.isSome = true → p.2.index ≠ en.index) :
    (e, en) ∈ (Chunks.despawnChunks w).ents ∧
    Chunks.lookupA (Chunks.despawnChunks w).chunkRefs en.index
      = some (.cleanup e) ∧
    (en.index ∈ w.storage → en.index ∈ (Chunks.despawnChunks w).storage) := by
  have hInvFinal :
      Chunks.lookupA (w.ents.foldl (Chunks.despawnStep w) ⟨w.chunkRefs, w.storage, []⟩).refs idxD = some r ∧
      Chunks.lookupA (w.ents.foldl (Chunks.despawnStep w) ⟨w.chunkRefs, w.storage, []⟩).refs en.index = some (.cleanup e) ∧
      (en.index ∈ w.storage → en.index ∈ (w.ents.foldl (Chunks.despawnStep w) ⟨w.chunkRefs, w.storage, []⟩).storage) ∧
      e ∉ (w.ents.foldl (Chunks.despawnStep w) ⟨w.chunkRefs, w.storage, []⟩).dead := by
    rcases List.append_of_mem hmem with ⟨l1, l2, hsplit⟩
    have hids2 := hids
    rw [hsplit, List.map_append, List.map_cons] at hids2
    rw [List.nodup_append] at hids2
    obtain ⟨hn1, hn2, hdisj⟩ := hids2
    rw [List.nodup_cons] at hn2
    have hne1 : ∀ p ∈ l1, (p : Nat × Chunks.Ent).1 ≠ e := by
      intro p hp hc
      exact hdisj (List.mem_map_of_mem Prod.fst hp)
        (by rw [hc]; exact List.mem_cons_self _ _)
    have hne2 : ∀ p ∈ l2, (p : Nat × Chunks.Ent).1 ≠ e := by
      intro p hp hc
      have hmm := List.mem_map_of_mem Prod.fst hp
      rw [hc] at hmm
      exact hn2.1 hmm
    rw [hsplit, List.foldl_append, List.foldl_cons]
    have hInit : Chunks.lookupA ((⟨w.chunkRefs, w.storage, []⟩ : Chunks.DespawnSt)).refs idxD = some r ∧
      Chunks.lookupA ((⟨w.chunkRefs, w.storage, []⟩ : Chunks.DespawnSt)).refs en.index = some (.cleanup e) ∧
      (en.index ∈ w.storage → en.index ∈ ((⟨w.chunkRefs, w.storage, []⟩ : Chunks.DespawnSt)).storage) ∧
      e ∉ ((⟨w.chunkRefs, w.storage, []⟩ : Chunks.DespawnSt)).dead :=
      ⟨hr, href, fun h => h, by simp⟩
    have hL1 := foldl_pres (Chunks.despawnStep w)
      (fun st => Chunks.lookupA (st).refs idxD = some r ∧
      Chunks.lookupA (st).refs en.index = some (.cleanup e) ∧
      (en.index ∈ w.storage → en.index ∈ (st).storage) ∧
      e ∉ (st).dead)
      (fun p => p ∈ w.ents ∧ (p : Nat × Chunks.Ent).1 ≠ e)
      (fun s a hQ hP => Chunks.ds_step_ne w e en idxD r H1 H2 s a hQ.1 hQ.2 hP)
      l1
      (fun a ha => ⟨by rw [hsplit]; exact List.mem_append_left _ ha,
        hne1 a ha⟩)
      _ hInit
    have hMid := Chunks.ds_step_self w e en pending idxD r enD hpend hbad
      hD hnm _ hL1.1
    rw [hMid]
    exact foldl_pres (Chunks.despawnStep w)
      (fun st => Chunks.lookupA (st).refs idxD = some r ∧
      Chunks.lookupA (st).refs en.index = some (.cleanup e) ∧
      (en.index ∈ w.storage → en.index ∈ (st).storage) ∧
      e ∉ (st).dead)
      (fun p => p ∈ w.ents ∧ (p : Nat × Chunks.Ent).1 ≠ e)
      (fun s a hQ hP => Chunks.ds_step_ne w e en idxD r H1 H2 s a hQ.1 hQ.2 hP)
      l2
      (fun a ha => ⟨by
          rw [hsplit]
          exact List.mem_append_right _ (List.mem_cons_of_mem _ ha),
        hne2 a ha⟩)
      _ hL1
  obtain ⟨i1, i2, i3, i4⟩ := hInvFinal
  simp only [Chunks.despawnChunks]
  refine ⟨?_, i2, i3⟩
  exact List.mem_filter.mpr ⟨hmem, by simpa using i4⟩

/-- C2, witness: chunk `[0]` (entity 0) is in Cleanup awaiting dependent
`[1]`, whose entity 1 exists without a mesh — the cycle leaves chunk `[0]`
alive with its Cleanup entry and storage entry intact. -/
theorem claim2_witness :
    ((0, Chunks.entC) ∈ Chunks.wGate.ents ∧
      Chunks.entC.awaiting = some [[1]] ∧
      Chunks.lookupA Chunks.wGate.chunkRefs [1]
        = some (.active 1) ∧
      Chunks.wGate.getEnt 1 = some Chunks.entD ∧
      Chunks.entD.hasMesh = false) ∧
    (0, Chunks.entC) ∈ (Chunks.despawnChunks Chunks.wGate).ents ∧
    Chunks.lookupA (Chunks.despawnChunks Chunks.wGate).chunkRefs
        Chunks.entC.index = some (.cleanup 0) ∧
    (Chunks.entC.index ∈ Chunks.wGate.storage →
      Chunks.entC.index ∈ (Chunks.despawnChunks Chunks.wGate).storage) :=
  ⟨⟨by decide, by decide, by decide, by decide, by decide⟩,
   claim2_deletion_gate Chunks.wGate 0 Chunks.entC [[1]] [1]
     (.active 1) Chunks.entD (by decide) (by decide) (by decide) (by decide)
     (by decide) (by decide) (by decide) (by decide) (by decide) (by decide)⟩
